import Mathlib

/-!
# Peripheral runtime of the Pearl Gecko course project

A shallow embedding of the sleep arbiter (`sleep_routines.c`), the event
scheduler (`scheduler.c`), the LEUART transmit state machine (`leuart.c`), the
framed circular output buffer (`ble.c`) and the I2C master state machine
(`i2c.c`), followed by theorems about them.

Conventions of the embedding.

* Bytes (`char`, `uint8_t`) and words (`uint32_t`) are natural numbers; every
  place where the C arithmetic wraps carries an explicit `% 2 ^ 32` or `% 256`.
* A C array is a `List`; `l.getD i 0` reads cell `i` and `l.set i v` writes it.
  An access outside the array is undefined in C; in the embedding such a read
  gives 0 and such a write is dropped, and the theorems about array contents
  carry the bounds that keep the accesses they speak of inside the arrays.
* A loop whose counter is a `uint8_t` is a recursion on a bound for the number
  of loop tests; the counter takes 256 values, so 256 tests decide whether the
  loop ends, and a loop that does not end is the outcome `diverge`.
* `EFM_ASSERT(e)` with `e` false stops the program for good (the debug build
  spins inside `assertEFM`); this is the outcome `fatal`, which carries the
  state as it was when the assertion was reached.
* A write-only hardware register is the list of the values written to it, the
  oldest first.
-/

namespace CPCourse

/-! ## Outcomes -/

/-- How a call ends: it returns a value and leaves a state (`ok`), it stops in a
failing `EFM_ASSERT` (`fatal`, with the state at that point), or it never
returns (`diverge`). -/
inductive Outcome (α σ : Type) where
  | ok (ret : α) (s : σ)
  | fatal (s : σ)
  | diverge

namespace Outcome

/-- Sequencing: what follows a call runs only when the call returned. -/
def bind {α β σ : Type} (o : Outcome α σ) (f : α → σ → Outcome β σ) : Outcome β σ :=
  match o with
  | ok a s => f a s
  | fatal s => fatal s
  | diverge => diverge

/-- A call that works on one component `c` of a larger state `t`: `put c t` is
`t` with the component replaced. -/
def lift {α σ τ : Type} (o : Outcome α σ) (put : σ → τ) : Outcome α τ :=
  match o with
  | ok a c => ok a (put c)
  | fatal c => fatal (put c)
  | diverge => diverge

/-- The state an outcome carries, if any. -/
def state {α σ : Type} : Outcome α σ → Option σ
  | ok _ s => some s
  | fatal s => some s
  | diverge => none

/-- The value returned, if the call returned. -/
def value {α σ : Type} : Outcome α σ → Option α
  | ok a _ => some a
  | _ => none

/-- Whether the call stopped in a failing assertion. -/
def isFatal {α σ : Type} : Outcome α σ → Bool
  | fatal _ => true
  | _ => false

/-- Whether the call returned. -/
def isOk {α σ : Type} : Outcome α σ → Bool
  | ok _ _ => true
  | _ => false

end Outcome

/-! ## sleep_routines.c -/

/-- The loop of `sleep_open`: `for (i = 0; i < MAX_ENERGY_MODES; i++)
lowest_energy_mode[i] = 0`. `MAX_ENERGY_MODES` is declared in sleep_routines.h,
which is not among the sources, so it is a parameter. -/
def sleep_open (MAX_ENERGY_MODES : Nat) (lowest_energy_mode : List Int) : List Int :=
  (List.range MAX_ENERGY_MODES).foldl (fun c i => c.set i 0) lowest_energy_mode

/-- Function `sleep_block_mode(EM)`: `lowest_energy_mode[EM]++` and then
`EFM_ASSERT(lowest_energy_mode[EM] < 5)`. The counters are C `int`s; the
increment is modelled without wrap-around (the assertion stops the program long
before `INT_MAX`). -/
def sleep_block_mode (EM : Nat) (lowest_energy_mode : List Int) : Outcome Unit (List Int) :=
  let c := lowest_energy_mode.set EM (lowest_energy_mode.getD EM 0 + 1)
  if c.getD EM 0 < 5 then Outcome.ok () c else Outcome.fatal c

/-- Function `sleep_unblock_mode(EM)`: when `lowest_energy_mode[EM] > 0`, decrement it
and `EFM_ASSERT(lowest_energy_mode[EM] >= 0)`; otherwise nothing. -/
def sleep_unblock_mode (EM : Nat) (lowest_energy_mode : List Int) : Outcome Unit (List Int) :=
  if lowest_energy_mode.getD EM 0 > 0 then
    let c := lowest_energy_mode.set EM (lowest_energy_mode.getD EM 0 - 1)
    if c.getD EM 0 ≥ 0 then Outcome.ok () c else Outcome.fatal c
  else Outcome.ok () lowest_energy_mode

/-- The `while (i < MAX_ENERGY_MODES)` loop of `current_block_energy_mode`,
entered at index `i` with `k = MAX_ENERGY_MODES - i` iterations left: return `i`
at the first nonzero cell, `MAX_ENERGY_MODES - 1` when the loop runs out. -/
def current_block_energy_mode_loop (MAX_ENERGY_MODES : Nat) (lowest_energy_mode : List Int) :
    Nat → Nat → Nat
  | 0, _ => MAX_ENERGY_MODES - 1
  | k + 1, i =>
    if lowest_energy_mode.getD i 0 ≠ 0 then i
    else current_block_energy_mode_loop MAX_ENERGY_MODES lowest_energy_mode k (i + 1)

/-- Function `current_block_energy_mode()`: the value returned, paired with the counter
array as the call leaves it (the function only reads the array). -/
def current_block_energy_mode (MAX_ENERGY_MODES : Nat) (lowest_energy_mode : List Int) :
    Nat × List Int :=
  (current_block_energy_mode_loop MAX_ENERGY_MODES lowest_energy_mode MAX_ENERGY_MODES 0,
    lowest_energy_mode)

/-! ## Constants of headers that are not among the sources -/

/-- Constants that the sources use while the headers declaring them
(sleep_routines.h, leuart.h, the current i2c.h) are not among the sources. They
are parameters of the embedding. `READ_DATA`, `INIT_SEND_ADDR_W`, `SEND_CMD_W`,
`SEND_DATA` and `WAIT_COMPLETE` are the case labels of i2c.c that the state
enumeration of legacy/i2c.h does not have. -/
structure Consts where
  MAX_ENERGY_MODES : Nat
  EM0 : Nat
  EM1 : Nat
  EM2 : Nat
  EM3 : Nat
  LEUART_TX_EM : Nat
  READ_DATA : Nat
  INIT_SEND_ADDR_W : Nat
  SEND_CMD_W : Nat
  SEND_DATA : Nat
  WAIT_COMPLETE : Nat

/-- Line 31 of legacy/i2c.h: `#define I2C_EM_BLOCK EM2`. -/
def I2C_EM_BLOCK (K : Consts) : Nat := K.EM2

/-! ## The state of the program -/

/-- Modelled from the spec: the state enumeration of leuart.h is not among the
sources; section 4.4 lists the states in the order INIT, SEND_DATA, STOP_CLOSE,
numbered from 0 as a C enumeration is. -/
def INIT_UART : Nat := 0

/-- Modelled from the spec: second state of the serial engine (see `INIT_UART`). -/
def SEND_DATA : Nat := 1

/-- Modelled from the spec: third state of the serial engine (see `INIT_UART`). -/
def STOP_CLOSE : Nat := 2

/-- The record `LEUART_SM_STRUCT` of leuart.h (not among the sources), with the
fields leuart.c uses. `leuart` names the peripheral, `output` is the internal
character array (its capacity is the length of the list), `count` and `length`
are taken to be `uint32_t` like the `string_len` argument. -/
structure LEUART_SM_STRUCT where
  leuart : Nat
  length : Nat
  count : Nat
  output : List Nat
  SMbusy : Bool
  current_state : Nat

/-- Commands of the LEUART `CMD` register that leuart.c issues. -/
inductive LEUART_CMD where
  | TXEN
  | TXDIS
  deriving DecidableEq, Repr

/-- The registers of the LEUART0 peripheral that the transmit path touches:
the bytes written to `TXDATA` (oldest first), the `TXBL` and `TXC` bits of
`IEN`, and the commands written to `CMD` (oldest first). -/
structure LEUART_TypeDef where
  TXDATA : List Nat
  IEN_TXBL : Bool
  IEN_TXC : Bool
  CMD : List LEUART_CMD

/-- The record `BLE_CIRCULAR_BUF` of ble.c. -/
structure BLE_CIRCULAR_BUF where
  cbuf : List Nat
  size_mask : Nat
  size : Nat
  read_ptr : Nat
  write_ptr : Nat

/-- The record `I2C_STATE_MACHINE_STRUCT` of legacy/i2c.h with the field
`bytesDone` that i2c.c adds (`i2c_reg` is never used). `i2c` names the
peripheral and `readData` is the address of the destination word. -/
structure I2C_STATE_MACHINE_STRUCT where
  i2c : Nat
  current_state : Nat
  device_addr : Nat
  command : Nat
  readWrite : Bool
  readData : Nat
  numBytes : Nat
  bytesDone : Nat
  SMbusy : Bool
  callback : Nat

/-- Command bits of the I2C `CMD` register. -/
inductive I2C_CMD where
  | START
  | STOP
  | ACK
  | NACK
  | ABORT
  | CLEARTX
  deriving DecidableEq, Repr

/-- The interrupt-enable bits of the I2C peripheral that i2c.c names. -/
structure I2C_IEN where
  ACK : Bool
  NACK : Bool
  MSTOP : Bool
  RXDATAV : Bool
  deriving DecidableEq, Repr

/-- The registers of the I2C peripheral that the transaction path touches: the
values written to `TXDATA` and the command words written to `CMD` (oldest
first, a command word being the list of its bits), the byte the peripheral
presents in `RXDATA`, `IEN`, the `AUTOACK` bit of `CTRL`, and whether the state
field of `STATE` reads idle. -/
structure I2C_TypeDef where
  TXDATA : List Nat
  CMD : List (List I2C_CMD)
  RXDATA : Nat
  IEN : I2C_IEN
  CTRL_AUTOACK : Bool
  STATE_IDLE : Bool

/-- All the static data of the program that the embedded functions touch.
`posted` lists the arguments of the calls of `add_scheduled_event`, oldest
first; `result_str` is `test_struct.result_str`, the bytes from
`result_str[0]` on (64 cells, more when the last diagnostic pop wrote past the
end of the array); `mem` holds the `uint32_t` objects a transaction can store
into, by address. -/
structure Sys where
  event_scheduled : Nat
  posted : List Nat
  lowest_energy_mode : List Int
  tx_done_evt : Nat
  leuart_sm : LEUART_SM_STRUCT
  LEUART0 : LEUART_TypeDef
  ble_cbuf : BLE_CIRCULAR_BUF
  result_str : List Nat
  i2c_sm : I2C_STATE_MACHINE_STRUCT
  I2C0 : I2C_TypeDef
  mem : Nat → Nat

/-- The sleep-arbiter calls made by the engines act on the counter array of the
whole state. -/
def Sys.withSleep (s : Sys) (c : List Int) : Sys := { s with lowest_energy_mode := c }

/-! ## scheduler.c -/

/-- Function `scheduler_open()`: `event_scheduled = 0`. -/
def scheduler_open (s : Sys) : Sys := { s with event_scheduled := 0 }

/-- Function `add_scheduled_event(event)`: `event_scheduled |= event`. -/
def add_scheduled_event (event : Nat) (s : Sys) : Sys :=
  { s with event_scheduled := s.event_scheduled ||| event, posted := s.posted ++ [event] }

/-- Function `remove_scheduled_event(event)`: `event_scheduled &= ~event` on
32-bit words. -/
def remove_scheduled_event (event : Nat) (s : Sys) : Sys :=
  { s with event_scheduled := s.event_scheduled &&& (2 ^ 32 - 1 - event % 2 ^ 32) }

/-- Function `get_scheduled_events()`: the pending set, and the state as the
call leaves it. -/
def get_scheduled_events (s : Sys) : Nat × Sys := (s.event_scheduled, s)

/-! ## leuart.c -/

/-- Function `leuart_tx_busy`: `return leuart_sm.SMbusy`. -/
def leuart_tx_busy (s : Sys) : Bool := s.leuart_sm.SMbusy

/-- Library function `strlen`: a `char *` argument is the list of the bytes at
that address, all bytes after the end of the list being NUL. -/
def strlen (string : List Nat) : Nat := (string.takeWhile (fun c => c != 0)).length

/-- Library function `strcpy(dst + i, src)`: copy the bytes of `src` up to and
including the first NUL into `dst`, starting at cell `i`. -/
def strcpy_at : List Nat → Nat → List Nat → List Nat
  | [], i, dst => dst.set i 0
  | c :: cs, i, dst => if c = 0 then dst.set i 0 else strcpy_at cs (i + 1) (dst.set i c)

/-- Library function `strcpy(dst, src)`. -/
def strcpy (dst src : List Nat) : List Nat := strcpy_at src 0 dst

/-- Handler `txbl_int()` of leuart.c. -/
def txbl_int (s : Sys) : Outcome Unit Sys :=
  if s.leuart_sm.current_state = INIT_UART then
    Outcome.ok () { s with leuart_sm := { s.leuart_sm with current_state := SEND_DATA } }
  else if s.leuart_sm.current_state = SEND_DATA then
    let s1 : Sys := { s with LEUART0 := { s.LEUART0 with
      TXDATA := s.LEUART0.TXDATA ++ [s.leuart_sm.output.getD s.leuart_sm.count 0] } }
    let s2 : Sys := { s1 with leuart_sm := { s1.leuart_sm with
      count := (s1.leuart_sm.count + 1) % 2 ^ 32 } }
    if s2.leuart_sm.count = s2.leuart_sm.length then
      Outcome.ok () { s2 with
        leuart_sm := { s2.leuart_sm with current_state := STOP_CLOSE },
        LEUART0 := { s2.LEUART0 with IEN_TXBL := false, IEN_TXC := true } }
    else Outcome.ok () s2
  else if s.leuart_sm.current_state = STOP_CLOSE then Outcome.fatal s
  else Outcome.fatal s

/-- Handler `txc_int()` of leuart.c. In `STOP_CLOSE`: `CMD |= TXDIS`, post
`tx_done_evt`, `IEN &= ~TXC`, `sleep_unblock_mode(LEUART_TX_EM)`, clear
`SMbusy`, back to `INIT_UART`. -/
def txc_int (K : Consts) (s : Sys) : Outcome Unit Sys :=
  if s.leuart_sm.current_state = INIT_UART then Outcome.fatal s
  else if s.leuart_sm.current_state = SEND_DATA then Outcome.fatal s
  else if s.leuart_sm.current_state = STOP_CLOSE then
    let s1 : Sys := { s with LEUART0 := { s.LEUART0 with
      CMD := s.LEUART0.CMD ++ [LEUART_CMD.TXDIS] } }
    let s2 := add_scheduled_event s1.tx_done_evt s1
    let s3 : Sys := { s2 with LEUART0 := { s2.LEUART0 with IEN_TXC := false } }
    ((sleep_unblock_mode K.LEUART_TX_EM s3.lowest_energy_mode).lift s3.withSleep).bind
      fun _ s4 => Outcome.ok () { s4 with
        leuart_sm := { s4.leuart_sm with SMbusy := false, current_state := INIT_UART } }
  else Outcome.fatal s

/-- Case `STOP_CLOSE` of `txc_int()`, the statement before the call of
`add_scheduled_event`: `CMD |= LEUART_CMD_TXDIS`. -/
def txc_int_to_post (s : Sys) : Sys :=
  { s with LEUART0 := { s.LEUART0 with CMD := s.LEUART0.CMD ++ [LEUART_CMD.TXDIS] } }

/-- Case `STOP_CLOSE` of `txc_int()`, the statements after the call of
`add_scheduled_event`: `IEN &= ~TXC`, `sleep_unblock_mode(LEUART_TX_EM)`,
`SMbusy = false`, `current_state = INIT_UART`. -/
def txc_int_from_post (K : Consts) (s : Sys) : Outcome Unit Sys :=
  let s3 : Sys := { s with LEUART0 := { s.LEUART0 with IEN_TXC := false } }
  ((sleep_unblock_mode K.LEUART_TX_EM s3.lowest_energy_mode).lift s3.withSleep).bind
    fun _ s4 => Outcome.ok () { s4 with
      leuart_sm := { s4.leuart_sm with SMbusy := false, current_state := INIT_UART } }

/-- Function `leuart_start(leuart, string, string_len)`. The call first spins
on `while (leuart_tx_busy(leuart));`: no handler runs inside a call of the
embedding, so with the engine busy the call does not return. -/
def leuart_start (K : Consts) (leuart : Nat) (string : List Nat) (string_len : Nat)
    (s : Sys) : Outcome Unit Sys :=
  if leuart_tx_busy s then Outcome.diverge
  else
    let s1 : Sys := { s with leuart_sm := { s.leuart_sm with
      leuart := leuart, length := string_len % 2 ^ 32, count := 0,
      output := strcpy s.leuart_sm.output string, SMbusy := true } }
    ((sleep_block_mode K.LEUART_TX_EM s1.lowest_energy_mode).lift s1.withSleep).bind
      fun _ s2 => Outcome.ok () { s2 with LEUART0 := { s2.LEUART0 with
        CMD := s2.LEUART0.CMD ++ [LEUART_CMD.TXEN], IEN_TXBL := true } }

/-- Interrupt flags of LEUART0 that the transmit path uses. -/
inductive LEUART_IRQ where
  | TXBL
  | TXC
  deriving DecidableEq, Repr

/-- Function `LEUART0_IRQHandler()`, entered with the flags `IF_TXBL` and
`IF_TXC` of the `IF` register: `int_flag = IF & IEN`, then `txbl_int()` when
`int_flag` has `TXBL` and `txc_int()` when it has `TXC`. -/
def LEUART0_IRQHandler (K : Consts) (IF_TXBL IF_TXC : Bool) (s : Sys) : Outcome Unit Sys :=
  let int_flag_TXBL := IF_TXBL && s.LEUART0.IEN_TXBL
  let int_flag_TXC := IF_TXC && s.LEUART0.IEN_TXC
  (if int_flag_TXBL then txbl_int s else Outcome.ok () s).bind
    fun _ s1 => if int_flag_TXC then txc_int K s1 else Outcome.ok () s1

/-- One interrupt: the peripheral raises the flag `e` and the handler runs. -/
def leuart_irq (K : Consts) (e : LEUART_IRQ) (s : Sys) : Outcome Unit Sys :=
  LEUART0_IRQHandler K (decide (e = LEUART_IRQ.TXBL)) (decide (e = LEUART_IRQ.TXC)) s

/-- A sequence of LEUART0 interrupts serviced one after the other. -/
def leuart_irqs (K : Consts) : List LEUART_IRQ → Sys → Outcome Unit Sys
  | [], s => Outcome.ok () s
  | e :: es, s => (leuart_irq K e s).bind fun _ s1 => leuart_irqs K es s1

/-! ## ble.c -/

/-- Line 27 of ble.c: `#define CSIZE 64`. -/
def CSIZE : Nat := 64

/-- Modelled from the spec: ble.h is not among the sources; `CIRC_TEST` selects
the diagnostic mode of `ble_circ_pop`, the branch `test == true`. -/
def CIRC_TEST : Bool := true

/-- Modelled from the spec: ble.h is not among the sources; `CIRC_OPER` is the
mode in which `ble_write` pops, handing the payload to the serial engine. -/
def CIRC_OPER : Bool := false

/-- Function `update_circ_wrtindex`: `write_ptr += update_by` on 32 bits, then
`write_ptr &= size_mask`. -/
def update_circ_wrtindex (index_struct : BLE_CIRCULAR_BUF) (update_by : Nat) :
    BLE_CIRCULAR_BUF :=
  { index_struct with
    write_ptr := ((index_struct.write_ptr + update_by) % 2 ^ 32) &&& index_struct.size_mask }

/-- Function `update_circ_readindex`: `read_ptr += update_by` on 32 bits, then
`read_ptr &= size_mask`. -/
def update_circ_readindex (index_struct : BLE_CIRCULAR_BUF) (update_by : Nat) :
    BLE_CIRCULAR_BUF :=
  { index_struct with
    read_ptr := ((index_struct.read_ptr + update_by) % 2 ^ 32) &&& index_struct.size_mask }

/-- Function `ble_circ_init()`. -/
def ble_circ_init (ble_cbuf : BLE_CIRCULAR_BUF) : BLE_CIRCULAR_BUF :=
  { ble_cbuf with read_ptr := 0, write_ptr := 0, size := CSIZE, size_mask := CSIZE - 1 }

/-- Function `ble_circ_space()`: `size - ((write_ptr - read_ptr) & size_mask)`
computed on 32 bits and returned as `uint8_t`. -/
def ble_circ_space (ble_cbuf : BLE_CIRCULAR_BUF) : Nat :=
  ((ble_cbuf.size + 2 ^ 32 -
    (((ble_cbuf.write_ptr + 2 ^ 32 - ble_cbuf.read_ptr) % 2 ^ 32) &&& ble_cbuf.size_mask))
      % 2 ^ 32) % 256

/-- The `while (n < length)` loop of `ble_circ_push`; `n` is a `uint8_t`, so
`n++` wraps at 256. The first argument bounds the number of loop tests. -/
def ble_circ_push_loop (string : List Nat) (length : Nat) :
    Nat → Nat → BLE_CIRCULAR_BUF → Outcome Unit BLE_CIRCULAR_BUF
  | 0, _, _ => Outcome.diverge
  | fuel + 1, n, b =>
    if n < length then
      ble_circ_push_loop string length fuel ((n + 1) % 256)
        (update_circ_wrtindex { b with cbuf := b.cbuf.set b.write_ptr (string.getD n 0) } 1)
    else Outcome.ok () b

/-- Function `ble_circ_push(string)`. The guard `(space - length - 1) < 0` is
evaluated as C does: `length` is a `uint32_t`, so the difference is an unsigned
32-bit value. The loop counter takes at most 256 values before it repeats, so
256 loop tests decide whether the loop ends. -/
def ble_circ_push (string : List Nat) (ble_cbuf : BLE_CIRCULAR_BUF) :
    Outcome Unit BLE_CIRCULAR_BUF :=
  let space := ble_circ_space ble_cbuf
  let length := strlen string % 2 ^ 32
  if ((space + 2 ^ 32 - length) % 2 ^ 32 + 2 ^ 32 - 1) % 2 ^ 32 < 0 then
    Outcome.fatal ble_cbuf
  else
    let b1 := { ble_cbuf with cbuf := ble_cbuf.cbuf.set ble_cbuf.write_ptr ((length + 1) % 256) }
    let b2 := update_circ_wrtindex b1 1
    ble_circ_push_loop string length 256 0 b2

/-- The assignment `a[n] = v` to a `char` array held as the list of the bytes
from `a[0]` on. Inside the array it replaces cell `n`. Nothing in C bounds the
index: a write past the end of the array is not dropped, the list grows to
record the byte as cell `n` (cells skipped read 0), so that the overrun stays
visible. Which object the byte lands in depends on the layout of memory, which
is not modelled: after such a write only the cells of the list say what the
code did. -/
def array_store (a : List Nat) (n v : Nat) : List Nat :=
  if n < a.length then a.set n v else a ++ List.replicate (n - a.length) 0 ++ [v]

/-- The `while (n < (length-1))` loop of `ble_circ_pop` (both branches have the
same loop, writing to `result_str` or to `str`): `n` and `length` are
`uint8_t`, compared after promotion to `int`. The state is the pair of the
array written and the circular buffer. The loop bounds `n` by the length byte
only, not by the size of the array it writes: `result_str[n]` with `n` at 64 or
above is a write past the end of `result_str`, see `array_store`. -/
def ble_circ_pop_loop (length : Nat) :
    Nat → Nat → List Nat → BLE_CIRCULAR_BUF → Option (Nat × List Nat × BLE_CIRCULAR_BUF)
  | 0, _, _, _ => none
  | fuel + 1, n, dst, b =>
    if (n : Int) < (length : Int) - 1 then
      ble_circ_pop_loop length fuel ((n + 1) % 256)
        (array_store dst n (b.cbuf.getD b.read_ptr 0)) (update_circ_readindex b 1)
    else some (n, dst, b)

/-- Function `ble_circ_pop(test)`. In the diagnostic branch `result_str` is
the array of `CSIZE` cells that `memset` clears; with a length byte above
`CSIZE + 1` the loop writes past its end and the list left in `result_str` is
longer than `CSIZE`. In the operational branch `str` is the
variable-length array `char str[length + 1]`, whose cells are indeterminate
until written (the embedding starts them at 0; `strcpy` in `leuart_start`
stops at `str[n] = 0` and never reads an unwritten cell); the loop stays inside
it. -/
def ble_circ_pop (K : Consts) (test : Bool) (s : Sys) : Outcome Bool Sys :=
  if leuart_tx_busy s then Outcome.ok true s
  else if ble_circ_space s.ble_cbuf = CSIZE then Outcome.ok true s
  else
    let length := s.ble_cbuf.cbuf.getD s.ble_cbuf.read_ptr 0 % 256
    let b1 := update_circ_readindex s.ble_cbuf 1
    if test = true then
      match ble_circ_pop_loop length 256 0 (List.replicate CSIZE 0) b1 with
      | none => Outcome.diverge
      | some (_, result_str, b2) =>
        Outcome.ok false { s with ble_cbuf := b2, result_str := result_str }
    else
      match ble_circ_pop_loop length 256 0 (List.replicate (length + 1) 0) b1 with
      | none => Outcome.diverge
      | some (n, str, b2) =>
        (leuart_start K 0 (str.set n 0) length { s with ble_cbuf := b2 }).bind
          fun _ s1 => Outcome.ok false s1

/-- Function `ble_write(string)`: push, then pop in operational mode. -/
def ble_write (K : Consts) (string : List Nat) (s : Sys) : Outcome Unit Sys :=
  ((ble_circ_push string s.ble_cbuf).lift fun b => { s with ble_cbuf := b }).bind
    fun _ s1 => (ble_circ_pop K CIRC_OPER s1).bind fun _ s2 => Outcome.ok () s2

/-! ## app.c -/

/-- Line 36 of app.h: `#define BLE_TX_DONE_CB 0x20`. -/
def BLE_TX_DONE_CB : Nat := 0x20

/-- Function `ble_tx_done_cb()` of app.c:
`EFM_ASSERT(get_scheduled_events() & BLE_TX_DONE_CB)`,
`remove_scheduled_event(BLE_TX_DONE_CB)`, `ble_circ_pop(false)`. -/
def ble_tx_done_cb (K : Consts) (s : Sys) : Outcome Unit Sys :=
  if (get_scheduled_events s).1 &&& BLE_TX_DONE_CB ≠ 0 then
    (ble_circ_pop K false (remove_scheduled_event BLE_TX_DONE_CB (get_scheduled_events s).2)).bind
      fun _ s1 => Outcome.ok () s1
  else Outcome.fatal (get_scheduled_events s).2

/-! ## i2c.c -/

/-- First enumerator of `DEFINED_STATES` (legacy/i2c.h, lines 63 to 70). -/
def INIT_SEND_ADDR : Nat := 0

/-- Second enumerator of `DEFINED_STATES`. -/
def SEND_MEASURE_TEMP_NHOLD : Nat := 1

/-- Third enumerator of `DEFINED_STATES`. -/
def SEND_RPT_START_ADDR : Nat := 2

/-- Fourth enumerator of `DEFINED_STATES`. -/
def READ_MS_BYTE : Nat := 3

/-- Fifth enumerator of `DEFINED_STATES`. -/
def READ_LS : Nat := 4

/-- Sixth enumerator of `DEFINED_STATES`. -/
def STOP_END : Nat := 5

/-- Modelled from the spec: the case label `INIT_SEND_ADDR_R` of i2c.c is not
declared in legacy/i2c.h; the spec has this case ("acknowledge in
INIT_SEND_ADDR: transmit the command byte") in the state `INIT_SEND_ADDR`. -/
def INIT_SEND_ADDR_R : Nat := INIT_SEND_ADDR

/-- Modelled from the spec: the case label `SEND_CMD_R` of i2c.c is not declared
in legacy/i2c.h; the spec has this case ("acknowledge in SEND_COMMAND: issue a
repeated START") in the state reached from `INIT_SEND_ADDR`, which the code
names `SEND_MEASURE_TEMP_NHOLD`. -/
def SEND_CMD_R : Nat := SEND_MEASURE_TEMP_NHOLD

/-- Modelled from the spec: the case label `QUERY_READY` of i2c.c is not
declared in legacy/i2c.h; the spec has its two cases (retry on a negative
acknowledge, enable data-received on an acknowledge) in the state
`SEND_RPT_START_ADDR`. -/
def QUERY_READY : Nat := SEND_RPT_START_ADDR

/-- The `switch` of the write direction, the same in `ack_int`, `nack_int` and
`mstop_int`: the five labelled cases do nothing, `default` asserts. -/
def write_switch (K : Consts) (s : Sys) : Outcome Unit Sys :=
  if s.i2c_sm.current_state = K.INIT_SEND_ADDR_W then Outcome.ok () s
  else if s.i2c_sm.current_state = K.SEND_CMD_W then Outcome.ok () s
  else if s.i2c_sm.current_state = K.SEND_DATA then Outcome.ok () s
  else if s.i2c_sm.current_state = K.WAIT_COMPLETE then Outcome.ok () s
  else if s.i2c_sm.current_state = STOP_END then Outcome.ok () s
  else Outcome.fatal s

/-- The `switch` of `ack_int()` for `readWrite == true`. -/
def ack_int_read (K : Consts) (s : Sys) : Outcome Unit Sys :=
  if s.i2c_sm.current_state = INIT_SEND_ADDR_R then
    Outcome.ok () { s with
      I2C0 := { s.I2C0 with TXDATA := s.I2C0.TXDATA ++ [s.i2c_sm.command] },
      i2c_sm := { s.i2c_sm with current_state := SEND_MEASURE_TEMP_NHOLD } }
  else if s.i2c_sm.current_state = SEND_CMD_R then
    Outcome.ok () { s with
      I2C0 := { s.I2C0 with
        CMD := s.I2C0.CMD ++ [[I2C_CMD.START]],
        TXDATA := s.I2C0.TXDATA ++ [((s.i2c_sm.command <<< 1) % 2 ^ 32) ||| 1] },
      i2c_sm := { s.i2c_sm with readWrite := true, current_state := SEND_RPT_START_ADDR } }
  else if s.i2c_sm.current_state = QUERY_READY then
    Outcome.ok () { s with
      i2c_sm := { s.i2c_sm with current_state := READ_MS_BYTE },
      I2C0 := { s.I2C0 with IEN := { s.I2C0.IEN with RXDATAV := true } } }
  else if s.i2c_sm.current_state = K.READ_DATA then Outcome.fatal s
  else if s.i2c_sm.current_state = STOP_END then Outcome.fatal s
  else Outcome.fatal s

/-- Handler `ack_int()` of i2c.c: the read `switch` when `readWrite` is true,
then the write `switch` when `readWrite` is false. -/
def ack_int (K : Consts) (s : Sys) : Outcome Unit Sys :=
  (if s.i2c_sm.readWrite = true then ack_int_read K s else Outcome.ok () s).bind
    fun _ s1 => if s1.i2c_sm.readWrite = false then write_switch K s1 else Outcome.ok () s1

/-- The `switch` of `nack_int()` for `readWrite == true`. -/
def nack_int_read (K : Consts) (s : Sys) : Outcome Unit Sys :=
  if s.i2c_sm.current_state = INIT_SEND_ADDR then Outcome.fatal s
  else if s.i2c_sm.current_state = SEND_CMD_R then Outcome.fatal s
  else if s.i2c_sm.current_state = QUERY_READY then
    Outcome.ok () { s with
      I2C0 := { s.I2C0 with
        CMD := s.I2C0.CMD ++ [[I2C_CMD.START]],
        TXDATA := s.I2C0.TXDATA ++ [((s.i2c_sm.device_addr <<< 1) % 2 ^ 32) ||| 1] },
      i2c_sm := { s.i2c_sm with readWrite := true } }
  else if s.i2c_sm.current_state = K.READ_DATA then Outcome.fatal s
  else if s.i2c_sm.current_state = STOP_END then Outcome.fatal s
  else Outcome.fatal s

/-- Handler `nack_int()` of i2c.c. -/
def nack_int (K : Consts) (s : Sys) : Outcome Unit Sys :=
  (if s.i2c_sm.readWrite = true then nack_int_read K s else Outcome.ok () s).bind
    fun _ s1 => if s1.i2c_sm.readWrite = false then write_switch K s1 else Outcome.ok () s1

/-- Handler `rxdatav_int()` of i2c.c. `RXDATA << 8` is a 32-bit shift; `CMD |=`
on the write-only command register writes the one bit. -/
def rxdatav_int (s : Sys) : Outcome Unit Sys :=
  if s.i2c_sm.current_state = INIT_SEND_ADDR then Outcome.fatal s
  else if s.i2c_sm.current_state = SEND_MEASURE_TEMP_NHOLD then Outcome.fatal s
  else if s.i2c_sm.current_state = SEND_RPT_START_ADDR then Outcome.fatal s
  else if s.i2c_sm.current_state = READ_MS_BYTE then
    Outcome.ok () { s with
      mem := Function.update s.mem s.i2c_sm.readData ((s.I2C0.RXDATA <<< 8) % 2 ^ 32),
      I2C0 := { s.I2C0 with CMD := s.I2C0.CMD ++ [[I2C_CMD.ACK]] },
      i2c_sm := { s.i2c_sm with current_state := READ_LS } }
  else if s.i2c_sm.current_state = READ_LS then
    Outcome.ok () { s with
      mem := Function.update s.mem s.i2c_sm.readData
        (s.mem s.i2c_sm.readData ||| s.I2C0.RXDATA),
      I2C0 := { s.I2C0 with CMD := s.I2C0.CMD ++ [[I2C_CMD.NACK], [I2C_CMD.STOP]] },
      i2c_sm := { s.i2c_sm with current_state := STOP_END } }
  else if s.i2c_sm.current_state = STOP_END then Outcome.fatal s
  else Outcome.fatal s

/-- The `switch` of `mstop_int()` for `readWrite == true`. -/
def mstop_int_read (K : Consts) (s : Sys) : Outcome Unit Sys :=
  if s.i2c_sm.current_state = INIT_SEND_ADDR then Outcome.fatal s
  else if s.i2c_sm.current_state = SEND_MEASURE_TEMP_NHOLD then Outcome.fatal s
  else if s.i2c_sm.current_state = SEND_RPT_START_ADDR then Outcome.fatal s
  else if s.i2c_sm.current_state = READ_MS_BYTE then Outcome.fatal s
  else if s.i2c_sm.current_state = READ_LS then Outcome.fatal s
  else if s.i2c_sm.current_state = STOP_END then
    let s1 : Sys := { s with i2c_sm := { s.i2c_sm with SMbusy := false } }
    ((sleep_unblock_mode (I2C_EM_BLOCK K) s1.lowest_energy_mode).lift s1.withSleep).bind
      fun _ s2 =>
        let s3 := add_scheduled_event s2.i2c_sm.callback s2
        Outcome.ok () { s3 with i2c_sm := { s3.i2c_sm with current_state := INIT_SEND_ADDR } }
  else Outcome.fatal s

/-- Handler `mstop_int()` of i2c.c. -/
def mstop_int (K : Consts) (s : Sys) : Outcome Unit Sys :=
  (if s.i2c_sm.readWrite = true then mstop_int_read K s else Outcome.ok () s).bind
    fun _ s1 => if s1.i2c_sm.readWrite = false then write_switch K s1 else Outcome.ok () s1

/-- Function `i2c_start(i2c, slaveAddr, data, numBytes, command, readWrite,
cb_event)`; `data` is the address of the destination word. -/
def i2c_start (K : Consts) (i2c slaveAddr data numBytes command : Nat) (readWrite : Bool)
    (cb_event : Nat) (s : Sys) : Outcome Unit Sys :=
  if s.I2C0.STATE_IDLE = true then
    ((sleep_block_mode (I2C_EM_BLOCK K) s.lowest_energy_mode).lift s.withSleep).bind
      fun _ s1 =>
        let s2 : Sys := { s1 with i2c_sm := { s1.i2c_sm with
          current_state := 0, device_addr := slaveAddr, i2c := i2c, command := command,
          readWrite := readWrite, readData := data, numBytes := numBytes, bytesDone := 0,
          SMbusy := true, callback := cb_event } }
        Outcome.ok () { s2 with I2C0 := { s2.I2C0 with
          CTRL_AUTOACK := false,
          TXDATA := s2.I2C0.TXDATA ++ [((slaveAddr <<< 1) % 2 ^ 32) ||| readWrite.toNat],
          CMD := s2.I2C0.CMD ++ [[I2C_CMD.START]] } }
  else Outcome.fatal s

/-- Function `i2c_sm_busy(i2c)`. -/
def i2c_sm_busy (i2c : Nat) (s : Sys) : Bool :=
  if i2c = s.i2c_sm.i2c then s.i2c_sm.SMbusy else false

/-- What the code reads from the volatile registers of the peripheral during
`i2c_bus_reset`: the `BUSY` bit of `STATE` at the first test, whether the spin
`while (i2c->STATE & I2C_STATE_BUSY);` comes to read the bit clear, and whether
the spin `while (!(i2c->IF & I2C_IF_MSTOP));` comes to read the flag set. -/
structure I2C_BUS where
  STATE_BUSY : Bool
  BUSY_clears : Bool
  MSTOP_sets : Bool
  deriving DecidableEq, Repr

/-- Function `i2c_bus_reset(i2c)`: save `IEN` and write 0 to it; when the bus is
busy, `ABORT` and spin until it is not; clear the flags (the `IF` register is
not part of the state), `CLEARTX`, `START | STOP`, spin until `MSTOP` is
flagged, `ABORT`; reset `SMbusy` and `current_state`; `ABORT`, restore `IEN`.
A spin that the peripheral never ends does not return. The argument names the
peripheral; the state has the registers of one, `I2C0`. -/
def i2c_bus_reset (hw : I2C_BUS) (_i2c : Nat) (s : Sys) : Outcome Unit Sys :=
  let IENstate := s.I2C0.IEN
  let s1 : Sys := { s with I2C0 := { s.I2C0 with
    IEN := { ACK := false, NACK := false, MSTOP := false, RXDATAV := false } } }
  (if hw.STATE_BUSY = true then
    if hw.BUSY_clears = true then
      Outcome.ok () { s1 with I2C0 := { s1.I2C0 with CMD := s1.I2C0.CMD ++ [[I2C_CMD.ABORT]] } }
    else Outcome.diverge
  else Outcome.ok () s1).bind
    fun _ s2 =>
      let s3 : Sys := { s2 with I2C0 := { s2.I2C0 with
        CMD := s2.I2C0.CMD ++ [[I2C_CMD.CLEARTX], [I2C_CMD.START, I2C_CMD.STOP]] } }
      if hw.MSTOP_sets = true then
        let s4 : Sys := { s3 with I2C0 := { s3.I2C0 with
          CMD := s3.I2C0.CMD ++ [[I2C_CMD.ABORT]] } }
        let s5 : Sys := { s4 with i2c_sm := { s4.i2c_sm with
          SMbusy := false, current_state := 0 } }
        Outcome.ok () { s5 with I2C0 := { s5.I2C0 with
          CMD := s5.I2C0.CMD ++ [[I2C_CMD.ABORT]], IEN := IENstate } }
      else Outcome.diverge

/-- Case `STOP_END` of the read `switch` of `mstop_int()`, the statements before
the call of `add_scheduled_event`: `SMbusy = false` and
`sleep_unblock_mode(I2C_EM_BLOCK)`. -/
def mstop_int_to_post (K : Consts) (s : Sys) : Outcome Unit Sys :=
  let s1 : Sys := { s with i2c_sm := { s.i2c_sm with SMbusy := false } }
  (sleep_unblock_mode (I2C_EM_BLOCK K) s1.lowest_energy_mode).lift s1.withSleep

/-- Case `STOP_END` of the read `switch` of `mstop_int()`, the statement after
the call of `add_scheduled_event`: `current_state = INIT_SEND_ADDR`. -/
def mstop_int_from_post (s : Sys) : Outcome Unit Sys :=
  Outcome.ok () { s with i2c_sm := { s.i2c_sm with current_state := INIT_SEND_ADDR } }

/-- Interrupts of the I2C peripheral that the transaction path uses; the
data-received interrupt comes with the byte the peripheral presents in
`RXDATA`. -/
inductive I2C_IRQ where
  | ACK
  | NACK
  | RXDATAV (byte : Nat)
  | MSTOP
  deriving DecidableEq, Repr

/-- One interrupt serviced: the handler of the flag runs (for data-received,
after the peripheral has put the byte into `RXDATA`). -/
def i2c_irq (K : Consts) (e : I2C_IRQ) (s : Sys) : Outcome Unit Sys :=
  match e with
  | I2C_IRQ.ACK => ack_int K s
  | I2C_IRQ.NACK => nack_int K s
  | I2C_IRQ.RXDATAV byte => rxdatav_int { s with I2C0 := { s.I2C0 with RXDATA := byte } }
  | I2C_IRQ.MSTOP => mstop_int K s

/-- A sequence of I2C interrupts serviced one after the other. -/
def i2c_irqs (K : Consts) : List I2C_IRQ → Sys → Outcome Unit Sys
  | [], s => Outcome.ok () s
  | e :: es, s => (i2c_irq K e s).bind fun _ s1 => i2c_irqs K es s1

/-! ## The contents of the circular buffer -/

/-- The circular buffer as `ble_circ_init` sets it up, at any position of the
indices: 64 cells, `size` 64, `size_mask` 63, both indices below 64. -/
def Initialised (b : BLE_CIRCULAR_BUF) : Prop :=
  b.cbuf.length = CSIZE ∧ b.size = CSIZE ∧ b.size_mask = CSIZE - 1 ∧
    b.read_ptr < CSIZE ∧ b.write_ptr < CSIZE

/-- The bytes of the frame of a payload: the length byte `length + 1`, then the
payload. -/
def frame (p : List Nat) : List Nat := (p.length + 1) :: p

/-- The bytes of the frames of a list of payloads, in order. -/
def frames : List (List Nat) → List Nat
  | [] => []
  | p :: ps => frame p ++ frames ps

/-- The circular buffer holds the bytes `bytes` between the read index and the
write index, fewer than 64 of them. -/
def Holds (b : BLE_CIRCULAR_BUF) (bytes : List Nat) : Prop :=
  bytes.length < 64 ∧ b.write_ptr = (b.read_ptr + bytes.length) % 64 ∧
    ∀ i, i < bytes.length → b.cbuf.getD ((b.read_ptr + i) % 64) 0 = bytes.getD i 0

/-- What the diagnostic pop leaves in `result_str` for the payload `p`: the
payload, then NUL up to the 64 cells. -/
def capture (p : List Nat) : List Nat := p ++ List.replicate (CSIZE - p.length) 0

/-- The framed size of a list of payloads: the sum of `length + 1`. -/
def framed_size : List (List Nat) → Nat
  | [] => 0
  | p :: ps => (p.length + 1) + framed_size ps

/-- The payloads pushed one after the other with `ble_circ_push`. -/
def push_each : List (List Nat) → BLE_CIRCULAR_BUF → Outcome Unit BLE_CIRCULAR_BUF
  | [], b => Outcome.ok () b
  | p :: ps, b => (ble_circ_push p b).bind fun _ b1 => push_each ps b1

/-- The call `ble_circ_pop(CIRC_TEST)` made `k` times in a row; the
value returned lists, for each pop, what it returned, the capture buffer
`result_str` after it and `ble_circ_space()` after it. -/
def pop_each (K : Consts) : Nat → Sys → Outcome (List (Bool × List Nat × Nat)) Sys
  | 0, s => Outcome.ok [] s
  | k + 1, s =>
    (ble_circ_pop K CIRC_TEST s).bind fun r s1 =>
      (pop_each K k s1).bind fun log s2 =>
        Outcome.ok ((r, s1.result_str, ble_circ_space s1.ble_cbuf) :: log) s2

/-- What popping the payloads `ps` in order must give: each pop returns false,
captures its payload, and gives back the framed size of that payload, so that
the free space after it is the capacity less the frames still queued. -/
def round_trip_log : List (List Nat) → List (Bool × List Nat × Nat)
  | [] => []
  | p :: ps => (false, capture p, CSIZE - framed_size ps) :: round_trip_log ps

/-! ## Sequences of calls -/

/-- The instructions of the energy management unit that `enter_sleep` issues:
`EMU_EnterEM1()`, `EMU_EnterEM2(restore)` and `EMU_EnterEM3(restore)`. -/
inductive EMU_CALL where
  | EnterEM1
  | EnterEM2 (restore : Bool)
  | EnterEM3 (restore : Bool)
  deriving DecidableEq, Repr

/-- The depth of the mode an instruction enters. -/
def EMU_CALL.depth (K : Consts) : EMU_CALL → Nat
  | EMU_CALL.EnterEM1 => K.EM1
  | EMU_CALL.EnterEM2 _ => K.EM2
  | EMU_CALL.EnterEM3 _ => K.EM3

/-- Function `enter_sleep()`: the instruction issued, if any, paired with the
counter array as the call leaves it. -/
def enter_sleep (K : Consts) (lowest_energy_mode : List Int) : Option EMU_CALL × List Int :=
  if lowest_energy_mode.getD K.EM0 0 > 0 then (none, lowest_energy_mode)
  else if lowest_energy_mode.getD K.EM1 0 > 0 then (none, lowest_energy_mode)
  else if lowest_energy_mode.getD K.EM2 0 > 0 then (some EMU_CALL.EnterEM1, lowest_energy_mode)
  else if lowest_energy_mode.getD K.EM3 0 > 0 then
    (some (EMU_CALL.EnterEM2 true), lowest_energy_mode)
  else (some (EMU_CALL.EnterEM3 true), lowest_energy_mode)

/-- The rule the spec gives for entering the lowest available mode, as a
function of the floor `f` that `current_block_energy_mode` returns: nothing to
issue for `EM0` and `EM1`, otherwise the mode one level shallower than `f`
(`EM1` for `EM2`, `EM2` for `EM3`, and `EM3` beyond). -/
def enter_lowest_available (K : Consts) (f : Nat) : Option EMU_CALL :=
  if f = K.EM0 ∨ f = K.EM1 then none
  else if f = K.EM2 then some EMU_CALL.EnterEM1
  else if f = K.EM3 then some (EMU_CALL.EnterEM2 true)
  else some (EMU_CALL.EnterEM3 true)

/-- A call of the sleep arbiter: `sleep_block_mode(EM)` or
`sleep_unblock_mode(EM)`. -/
inductive SLEEP_CALL where
  | block (EM : Nat)
  | unblock (EM : Nat)
  deriving DecidableEq, Repr

/-- The depth a call of the sleep arbiter is about. -/
def SLEEP_CALL.EM : SLEEP_CALL → Nat
  | SLEEP_CALL.block d => d
  | SLEEP_CALL.unblock d => d

/-- A sequence of calls of the sleep arbiter, made one after the other; a call
that stops in its assertion ends the sequence. -/
def sleep_calls : List SLEEP_CALL → List Int → Outcome Unit (List Int)
  | [], c => Outcome.ok () c
  | SLEEP_CALL.block d :: l, c => (sleep_block_mode d c).bind fun _ c1 => sleep_calls l c1
  | SLEEP_CALL.unblock d :: l, c => (sleep_unblock_mode d c).bind fun _ c1 => sleep_calls l c1

/-- The number of `sleep_block_mode(d)` calls in a sequence. -/
def blocks (d : Nat) (l : List SLEEP_CALL) : Nat := l.count (SLEEP_CALL.block d)

/-- The number of `sleep_unblock_mode(d)` calls in a sequence. -/
def unblocks (d : Nat) (l : List SLEEP_CALL) : Nat := l.count (SLEEP_CALL.unblock d)

/-- A call on the output queue: `ble_circ_push(string)` or `ble_circ_pop(test)`. -/
inductive QUEUE_CALL where
  | push (string : List Nat)
  | pop (test : Bool)
  deriving DecidableEq, Repr

/-- One call on the output queue. -/
def queue_call (K : Consts) : QUEUE_CALL → Sys → Outcome Unit Sys
  | QUEUE_CALL.push string, s =>
    (ble_circ_push string s.ble_cbuf).lift fun b => { s with ble_cbuf := b }
  | QUEUE_CALL.pop test, s => (ble_circ_pop K test s).bind fun _ s1 => Outcome.ok () s1

/-- A sequence of calls on the output queue, made one after the other; a call
that does not return ends the sequence. -/
def queue_calls (K : Consts) : List QUEUE_CALL → Sys → Outcome Unit Sys
  | [], s => Outcome.ok () s
  | c :: cs, s => (queue_call K c s).bind fun _ s1 => queue_calls K cs s1

/-- The calls `ble_write(p)` for the payloads of a list, made back to back. -/
def ble_writes (K : Consts) : List (List Nat) → Sys → Outcome Unit Sys
  | [], s => Outcome.ok () s
  | p :: ps, s => (ble_write K p s).bind fun _ s1 => ble_writes K ps s1

/-- The interrupts of the transmission in flight, run to completion: one
transmit-buffer-level interrupt that arms the engine, one for each of the
`length` bytes, then the transmit-complete interrupt. -/
def leuart_transmission (K : Consts) (s : Sys) : Outcome Unit Sys :=
  leuart_irqs K
    (List.replicate (s.leuart_sm.length + 1) LEUART_IRQ.TXBL ++ [LEUART_IRQ.TXC]) s

/-- The draining of the queue, `k` rounds: the transmission in flight runs to
completion and posts the TX-done event, then the foreground calls
`ble_tx_done_cb()`. -/
def drain (K : Consts) : Nat → Sys → Outcome Unit Sys
  | 0, s => Outcome.ok () s
  | k + 1, s =>
    (leuart_transmission K s).bind fun _ s1 =>
      (ble_tx_done_cb K s1).bind fun _ s2 => drain K k s2

/-- A step of the serial engine: a call `leuart_start(LEUART0, string,
string_len)` from the foreground, or an entry of `LEUART0_IRQHandler()` with
the flags `IF_TXBL` and `IF_TXC` of the `IF` register as the peripheral has
raised them. -/
inductive LEUART_STEP where
  | start (string : List Nat) (string_len : Nat)
  | irq (IF_TXBL IF_TXC : Bool)
  deriving DecidableEq, Repr

/-- One step of the serial engine. A call of `leuart_start` made while the
engine is busy spins, so it leaves no state. -/
def leuart_step (K : Consts) : LEUART_STEP → Sys → Outcome Unit Sys
  | LEUART_STEP.start string string_len, s => leuart_start K 0 string string_len s
  | LEUART_STEP.irq IF_TXBL IF_TXC, s => LEUART0_IRQHandler K IF_TXBL IF_TXC s

/-- A sequence of steps of the serial engine, made one after the other; a step
that does not return ends the sequence. -/
def leuart_steps (K : Consts) : List LEUART_STEP → Sys → Outcome Unit Sys
  | [], s => Outcome.ok () s
  | e :: es, s => (leuart_step K e s).bind fun _ s1 => leuart_steps K es s1

/-- The phases of the serial engine between its steps: idle in `INIT_UART`
with both interrupts disabled; started, in `INIT_UART` with the buffer-empty
interrupt enabled and a positive length; sending, in `SEND_DATA` with the byte
index below the length; or closing, in `STOP_CLOSE` with only the
transmit-complete interrupt enabled. The length fits 32 bits throughout. -/
def LeuartPhase (s : Sys) : Prop :=
  s.leuart_sm.length < 2 ^ 32 ∧
  ((s.leuart_sm.SMbusy = false ∧ s.leuart_sm.current_state = INIT_UART ∧
      s.LEUART0.IEN_TXBL = false ∧ s.LEUART0.IEN_TXC = false) ∨
    (s.leuart_sm.SMbusy = true ∧ s.leuart_sm.current_state = INIT_UART ∧
      s.LEUART0.IEN_TXBL = true ∧ s.LEUART0.IEN_TXC = false ∧
      s.leuart_sm.count = 0 ∧ 1 ≤ s.leuart_sm.length) ∨
    (s.leuart_sm.SMbusy = true ∧ s.leuart_sm.current_state = SEND_DATA ∧
      s.LEUART0.IEN_TXBL = true ∧ s.LEUART0.IEN_TXC = false ∧
      s.leuart_sm.count < s.leuart_sm.length) ∨
    (s.leuart_sm.SMbusy = true ∧ s.leuart_sm.current_state = STOP_CLOSE ∧
      s.LEUART0.IEN_TXBL = false ∧ s.LEUART0.IEN_TXC = true))

/-- The bytes a list of payloads puts on the wire when each is transmitted with
its terminating NUL, in order. -/
def wire_bytes : List (List Nat) → List Nat
  | [] => []
  | p :: ps => (p ++ [0]) ++ wire_bytes ps

/-- The commands of `k` transmissions: each enables the transmitter when it
starts and disables it when it completes. -/
def tx_commands : Nat → List LEUART_CMD
  | 0 => []
  | k + 1 => tx_commands k ++ [LEUART_CMD.TXEN, LEUART_CMD.TXDIS]

/-- The state `s`, reached from `s0`, in the middle of draining: the payloads
`sent` have been transmitted, the transmission of `p` has just been started
and the frames of `queued` wait in the queue. -/
def Draining (K : Consts) (s0 s : Sys) (sent : List (List Nat)) (p : List Nat)
    (queued : List (List Nat)) : Prop :=
  Initialised s.ble_cbuf ∧ Holds s.ble_cbuf (frames queued) ∧
  s.leuart_sm.SMbusy = true ∧ s.leuart_sm.current_state = INIT_UART ∧
  s.leuart_sm.count = 0 ∧ s.leuart_sm.length = p.length + 1 ∧ p.length < CSIZE ∧
  (∀ i, i ≤ p.length → s.leuart_sm.output.getD i 0 = (p ++ [0]).getD i 0) ∧
  s.leuart_sm.output.length = s0.leuart_sm.output.length ∧
  s.LEUART0.IEN_TXBL = true ∧
  s.LEUART0.TXDATA = s0.LEUART0.TXDATA ++ wire_bytes sent ∧
  s.LEUART0.CMD = s0.LEUART0.CMD ++ tx_commands sent.length ++ [LEUART_CMD.TXEN] ∧
  s.posted = s0.posted ++ List.replicate sent.length BLE_TX_DONE_CB ∧
  s.tx_done_evt = BLE_TX_DONE_CB ∧
  s.lowest_energy_mode.length = s0.lowest_energy_mode.length ∧
  ∀ d, s.lowest_energy_mode.getD d 0 =
    s0.lowest_energy_mode.getD d 0 + if d = K.LEUART_TX_EM then 1 else 0

/-- The state `s`, reached from `s0`, between two transmissions: the payloads
`sent` have been transmitted, the engine is idle and the frames of `queued`
wait in the queue. -/
def Idle (s0 s : Sys) (sent queued : List (List Nat)) : Prop :=
  Initialised s.ble_cbuf ∧ Holds s.ble_cbuf (frames queued) ∧
  s.leuart_sm.SMbusy = false ∧ s.leuart_sm.current_state = INIT_UART ∧
  s.leuart_sm.output.length = s0.leuart_sm.output.length ∧
  s.LEUART0.TXDATA = s0.LEUART0.TXDATA ++ wire_bytes sent ∧
  s.LEUART0.CMD = s0.LEUART0.CMD ++ tx_commands sent.length ∧
  s.posted = s0.posted ++ List.replicate sent.length BLE_TX_DONE_CB ∧
  s.tx_done_evt = BLE_TX_DONE_CB ∧
  s.lowest_energy_mode.length = s0.lowest_energy_mode.length ∧
  ∀ d, s.lowest_energy_mode.getD d 0 = s0.lowest_energy_mode.getD d 0

/-! ## A concrete configuration

Every theorem below is stated for all values of the constants and all states;
the following instance serves to evaluate the embedding on concrete inputs. -/

/-- Modelled from the spec: one choice of the constants of the missing headers:
five depths `EM0` to `EM4` numbered from the shallowest, the serial engine
blocking `EM3`, and the case labels absent from legacy/i2c.h numbered after
its six states. -/
def demoConsts : Consts where
  MAX_ENERGY_MODES := 5
  EM0 := 0
  EM1 := 1
  EM2 := 2
  EM3 := 3
  LEUART_TX_EM := 3
  READ_DATA := 6
  INIT_SEND_ADDR_W := 7
  SEND_CMD_W := 8
  SEND_DATA := 9
  WAIT_COMPLETE := 10

/-- The static data after start-up: everything zero-initialised, the five sleep
counters cleared by `sleep_open`, the circular buffer set up by
`ble_circ_init`, the I2C peripheral idle with the interrupts that `i2c_open`
enables, the TX-done event `BLE_TX_DONE_CB` (0x20 in app.h), and an internal
serial buffer of 80 cells. -/
def bootState : Sys where
  event_scheduled := 0
  posted := []
  lowest_energy_mode := List.replicate 5 0
  tx_done_evt := 32
  leuart_sm := { leuart := 0, length := 0, count := 0, output := List.replicate 80 0,
                 SMbusy := false, current_state := 0 }
  LEUART0 := { TXDATA := [], IEN_TXBL := false, IEN_TXC := false, CMD := [] }
  ble_cbuf := ble_circ_init { cbuf := List.replicate 64 0, size_mask := 0, size := 0,
                              read_ptr := 0, write_ptr := 0 }
  result_str := List.replicate 64 0
  i2c_sm := { i2c := 0, current_state := 0, device_addr := 0, command := 0, readWrite := false,
              readData := 0, numBytes := 0, bytesDone := 0, SMbusy := false, callback := 0 }
  I2C0 := { TXDATA := [], CMD := [], RXDATA := 0,
            IEN := { ACK := true, NACK := true, MSTOP := true, RXDATAV := false },
            CTRL_AUTOACK := false, STATE_IDLE := true }
  mem := fun _ => 0

/-- The static data in the middle of the read that `si7021_read` starts, with
the engine at the state tag `current_state`: the transaction record as
`i2c_start` stores it (slave address 0x40, command 0xF3, two bytes, read
direction, destination word at address 0, completion event 8) and one block
of the depth `I2C_EM_BLOCK`. -/
def readState (current_state : Nat) : Sys :=
  { bootState with
    lowest_energy_mode := [0, 0, 1, 0, 0]
    i2c_sm := { i2c := 0, current_state := current_state, device_addr := 64, command := 243,
                readWrite := true, readData := 0, numBytes := 2, bytesDone := 0,
                SMbusy := true, callback := 8 } }

/-- The static data at the end of a transmission of the two bytes of "Hi": the
serial engine busy in `STOP_CLOSE` with both bytes sent, the transmit-complete
interrupt enabled, and one block of the depth `LEUART_TX_EM`. -/
def closingState : Sys :=
  { bootState with
    lowest_energy_mode := [0, 0, 0, 1, 0]
    leuart_sm := { leuart := 0, length := 2, count := 2,
                   output := [72, 105] ++ List.replicate 78 0,
                   SMbusy := true, current_state := STOP_CLOSE }
    LEUART0 := { TXDATA := [72, 105], IEN_TXBL := false, IEN_TXC := true,
                 CMD := [LEUART_CMD.TXEN] } }

/-- The static data of `bootState` with the empty queue at index 51, where
`circular_buff_test` has it after its first push and pop. -/
def wrapState : Sys :=
  { bootState with
    ble_cbuf := { bootState.ble_cbuf with read_ptr := 51, write_ptr := 51 } }

/-- The three test strings of `circular_buff_test`: 50 bytes `i + 1`, 25 bytes
`i + 20` and 5 bytes `i + 35`. -/
def test_str : List (List Nat) :=
  [(List.range 50).map (fun i => i + 1), (List.range 25).map (fun i => i + 20),
    (List.range 5).map (fun i => i + 35)]

/-- The calls `circular_buff_test` makes on the queue, in order: push the first
string and pop it, push the second and the third and pop both, then pop the
empty queue. -/
def circular_buff_test_calls : List QUEUE_CALL :=
  [QUEUE_CALL.push (test_str.getD 0 []), QUEUE_CALL.pop CIRC_TEST,
    QUEUE_CALL.push (test_str.getD 1 []), QUEUE_CALL.push (test_str.getD 2 []),
    QUEUE_CALL.pop CIRC_TEST, QUEUE_CALL.pop CIRC_TEST, QUEUE_CALL.pop CIRC_TEST]

/-! ## Theorems: sleep_routines.c -/

theorem getD_set_self {α : Type} (l : List α) (i : Nat) (v d : α) (h : i < l.length) :
    (l.set i v).getD i d = v := by
  simp [List.getD_eq_getElem?_getD, List.getElem?_set, h]

theorem getD_set_other {α : Type} (l : List α) (i j : Nat) (v d : α) (h : i ≠ j) :
    (l.set i v).getD j d = l.getD j d := by
  simp [List.getD_eq_getElem?_getD, List.getElem?_set, h]

/-- C8. `sleep_block_mode(d)` leaves the array with `counters[d]` one higher and
every other counter as it was, and it stops in the assertion exactly when the
incremented value exceeds 4, that is when the counter was 4 (or more) before. -/
theorem sleep_block_mode_increments (d : Nat) (c : List Int) (hd : d < c.length) :
    ∃ c', (sleep_block_mode d c).state = some c' ∧
      c'.length = c.length ∧
      c'.getD d 0 = c.getD d 0 + 1 ∧
      (∀ j, j ≠ d → c'.getD j 0 = c.getD j 0) ∧
      ((sleep_block_mode d c).isFatal = true ↔ 4 < c'.getD d 0) ∧
      ((sleep_block_mode d c).isFatal = true ↔ 4 ≤ c.getD d 0) ∧
      ((sleep_block_mode d c).isOk = true ↔ c.getD d 0 < 4) ∧
      (c.getD d 0 ≤ 4 → ((sleep_block_mode d c).isFatal = true ↔ c.getD d 0 = 4)) := by
  refine ⟨c.set d (c.getD d 0 + 1), ?_, by simp, getD_set_self c d _ 0 hd,
    fun j hj => getD_set_other c d j _ 0 (Ne.symm hj), ?_, ?_, ?_, ?_⟩
  all_goals
    simp only [sleep_block_mode, getD_set_self c d _ 0 hd]
    generalize c.getD d 0 = x
    split <;> simp only [Outcome.state, Outcome.isFatal, Outcome.isOk] <;> simp <;> omega

theorem sleep_block_mode_increments_witness :
    ∃ c', (sleep_block_mode 2 [0, 0, 4, 1, 0]).state = some c' ∧
      c'.length = [(0 : Int), 0, 4, 1, 0].length ∧
      c'.getD 2 0 = [(0 : Int), 0, 4, 1, 0].getD 2 0 + 1 ∧
      (∀ j, j ≠ 2 → c'.getD j 0 = [(0 : Int), 0, 4, 1, 0].getD j 0) ∧
      ((sleep_block_mode 2 [0, 0, 4, 1, 0]).isFatal = true ↔ 4 < c'.getD 2 0) ∧
      ((sleep_block_mode 2 [0, 0, 4, 1, 0]).isFatal = true ↔
        4 ≤ [(0 : Int), 0, 4, 1, 0].getD 2 0) ∧
      ((sleep_block_mode 2 [0, 0, 4, 1, 0]).isOk = true ↔
        [(0 : Int), 0, 4, 1, 0].getD 2 0 < 4) ∧
      ([(0 : Int), 0, 4, 1, 0].getD 2 0 ≤ 4 →
        ((sleep_block_mode 2 [0, 0, 4, 1, 0]).isFatal = true ↔
          [(0 : Int), 0, 4, 1, 0].getD 2 0 = 4)) :=
  sleep_block_mode_increments 2 [0, 0, 4, 1, 0] (by decide)

/-- C9. `sleep_unblock_mode(d)` always returns (its assertion cannot fail) and
never touches another counter; it changes nothing when `counters[d]` is zero
and takes exactly one off a counter that is positive, hence off every nonzero
counter, the cells being the non-negative block counts of the data model. -/
theorem sleep_unblock_mode_decrements (d : Nat) (c : List Int) (hd : d < c.length) :
    ∃ c', sleep_unblock_mode d c = Outcome.ok () c' ∧
      c'.length = c.length ∧
      (∀ j, j ≠ d → c'.getD j 0 = c.getD j 0) ∧
      (c.getD d 0 = 0 → c' = c) ∧
      (0 < c.getD d 0 → c'.getD d 0 = c.getD d 0 - 1) ∧
      (0 ≤ c.getD d 0 → c.getD d 0 ≠ 0 → c'.getD d 0 = c.getD d 0 - 1) := by
  by_cases h : c.getD d 0 > 0
  · refine ⟨c.set d (c.getD d 0 - 1), ?_, by simp,
      fun j hj => getD_set_other c d j _ 0 (Ne.symm hj), fun h0 => by omega,
      fun _ => getD_set_self c d _ 0 hd, fun _ _ => getD_set_self c d _ 0 hd⟩
    simp only [sleep_unblock_mode, getD_set_self c d _ 0 hd, if_pos h]
    rw [if_pos (by omega)]
  · refine ⟨c, ?_, rfl, fun _ _ => rfl, fun _ => rfl, fun h0 => by omega,
      fun h0 h1 => by omega⟩
    simp only [sleep_unblock_mode, if_neg h]

theorem sleep_unblock_mode_decrements_witness :
    2 < [(0 : Int), 0, 3, 1, 0].length ∧
    ∃ c', sleep_unblock_mode 2 [0, 0, 3, 1, 0] = Outcome.ok () c' ∧
      c'.length = [(0 : Int), 0, 3, 1, 0].length ∧
      (∀ j, j ≠ 2 → c'.getD j 0 = [(0 : Int), 0, 3, 1, 0].getD j 0) ∧
      ([(0 : Int), 0, 3, 1, 0].getD 2 0 = 0 → c' = [0, 0, 3, 1, 0]) ∧
      (0 < [(0 : Int), 0, 3, 1, 0].getD 2 0 →
        c'.getD 2 0 = [(0 : Int), 0, 3, 1, 0].getD 2 0 - 1) ∧
      (0 ≤ [(0 : Int), 0, 3, 1, 0].getD 2 0 → [(0 : Int), 0, 3, 1, 0].getD 2 0 ≠ 0 →
        c'.getD 2 0 = [(0 : Int), 0, 3, 1, 0].getD 2 0 - 1) :=
  ⟨by decide, sleep_unblock_mode_decrements 2 [0, 0, 3, 1, 0] (by decide)⟩

theorem current_block_energy_mode_loop_first (MAX : Nat) (c : List Int) (d : Nat)
    (hnz : c.getD d 0 ≠ 0) :
    ∀ (k i : Nat), i ≤ d → d < i + k → (∀ j, i ≤ j → j < d → c.getD j 0 = 0) →
      current_block_energy_mode_loop MAX c k i = d := by
  intro k
  induction k with
  | zero => intro i h1 h2; omega
  | succ k ih =>
    intro i h1 h2 hz
    by_cases hid : i = d
    · subst hid
      simp only [current_block_energy_mode_loop, if_pos hnz]
    · have h0 : c.getD i 0 = 0 := hz i (le_refl i) (by omega)
      simp only [current_block_energy_mode_loop, h0, ne_eq, not_true_eq_false, if_false]
      exact ih (i + 1) (by omega) (by omega) (fun j hj1 hj2 => hz j (by omega) hj2)

theorem current_block_energy_mode_loop_none (MAX : Nat) (c : List Int) :
    ∀ (k i : Nat), (∀ j, i ≤ j → j < i + k → c.getD j 0 = 0) →
      current_block_energy_mode_loop MAX c k i = MAX - 1 := by
  intro k
  induction k with
  | zero => intro i _; rfl
  | succ k ih =>
    intro i hz
    have h0 : c.getD i 0 = 0 := hz i (le_refl i) (by omega)
    simp only [current_block_energy_mode_loop, h0, ne_eq, not_true_eq_false, if_false]
    exact ih (i + 1) (fun j hj1 hj2 => hz j (by omega) (by omega))

/-- C10. With the counter array of `MAX_ENERGY_MODES` cells,
`current_block_energy_mode()` returns the smallest depth whose counter is
nonzero, returns `MAX_ENERGY_MODES - 1` when every counter is zero, and leaves
the counters as they were. -/
theorem current_block_energy_mode_smallest_nonzero (MAX : Nat) (c : List Int)
    (_hlen : c.length = MAX) :
    (∀ d, d < MAX → c.getD d 0 ≠ 0 → (∀ j, j < d → c.getD j 0 = 0) →
      (current_block_energy_mode MAX c).1 = d) ∧
    ((∀ j, j < MAX → c.getD j 0 = 0) → (current_block_energy_mode MAX c).1 = MAX - 1) ∧
    (current_block_energy_mode MAX c).2 = c := by
  refine ⟨fun d hd hnz hz => ?_, fun hz => ?_, rfl⟩
  · exact current_block_energy_mode_loop_first MAX c d hnz MAX 0 (Nat.zero_le d) (by omega)
      (fun j _ hj => hz j hj)
  · exact current_block_energy_mode_loop_none MAX c MAX 0 (fun j _ hj => hz j (by omega))

theorem current_block_energy_mode_smallest_nonzero_witness :
    [(0 : Int), 0, 1, 2, 0].length = 5 ∧
    (current_block_energy_mode 5 [0, 0, 1, 2, 0]).1 = 2 ∧
    (current_block_energy_mode 5 [0, 0, 1, 2, 0]).2 = [0, 0, 1, 2, 0] :=
  ⟨rfl,
    (current_block_energy_mode_smallest_nonzero 5 [0, 0, 1, 2, 0] rfl).1 2 (by decide)
      (by decide) (by decide),
    (current_block_energy_mode_smallest_nonzero 5 [0, 0, 1, 2, 0] rfl).2.2⟩

/-! ## Theorems: sleep_routines.c, the floor and sequences of calls -/
/-- When the cell at depth d is nonzero and the scan entered at index i has not
passed d, the scan stops at or before d, at a nonzero cell, having skipped only
zero cells. -/
theorem current_block_energy_mode_loop_le (MAX : Nat) (c : List Int) (d : Nat)
    (hnz : c.getD d 0 ≠ 0) :
    ∀ (k i : Nat), i ≤ d → d < i + k →
      i ≤ current_block_energy_mode_loop MAX c k i ∧
      current_block_energy_mode_loop MAX c k i ≤ d ∧
      c.getD (current_block_energy_mode_loop MAX c k i) 0 ≠ 0 ∧
      ∀ j, i ≤ j → j < current_block_energy_mode_loop MAX c k i → c.getD j 0 = 0 := by
  intro k
  induction k with
  | zero => intro i h1 h2; omega
  | succ k ih =>
    intro i h1 h2
    by_cases h0 : c.getD i 0 ≠ 0
    · simp only [current_block_energy_mode_loop, if_pos h0]
      exact ⟨le_refl i, h1, h0, fun j hj1 hj2 => by omega⟩
    · have hid : i ≠ d := fun h => h0 (h ▸ hnz)
      simp only [current_block_energy_mode_loop, if_neg h0]
      obtain ⟨g1, g2, g3, g4⟩ := ih (i + 1) (by omega) (by omega)
      refine ⟨by omega, g2, g3, fun j hj1 hj2 => ?_⟩
      by_cases hji : j = i
      · subst hji
        exact not_not.mp h0
      · exact g4 j (by omega) hj2

/-- Claim C12, amended. For every counter array and every depth d below
MAX_ENERGY_MODES whose counter is nonzero, the depth returned by
current_block_energy_mode is not deeper than d (it is at most d), its own
counter is nonzero, and every shallower depth has a zero counter: the function
returns the shallowest blocked depth. -/
theorem current_block_energy_mode_not_deeper (MAX : Nat) (c : List Int) (d : Nat)
    (hd : d < MAX) (hnz : c.getD d 0 ≠ 0) :
    (current_block_energy_mode MAX c).1 ≤ d ∧
    c.getD (current_block_energy_mode MAX c).1 0 ≠ 0 ∧
    ∀ j, j < (current_block_energy_mode MAX c).1 → c.getD j 0 = 0 := by
  obtain ⟨_, g2, g3, g4⟩ :=
    current_block_energy_mode_loop_le MAX c d hnz MAX 0 (Nat.zero_le d) (by omega)
  exact ⟨g2, g3, fun j hj => g4 j (Nat.zero_le j) hj⟩

/-- Claim C12, instance of the amended statement: with depths 0 and 2 blocked,
the returned depth is at most 2. -/
theorem current_block_energy_mode_not_deeper_witness :
    (2 < 5 ∧ [(1 : Int), 0, 1, 0, 0].getD 2 0 ≠ 0) ∧
    (current_block_energy_mode 5 [1, 0, 1, 0, 0]).1 ≤ 2 :=
  ⟨⟨by decide, by decide⟩,
    (current_block_energy_mode_not_deeper 5 [1, 0, 1, 0, 0] 2 (by decide) (by decide)).1⟩

/-- Claim C12, counterexample to the statement as written: with the counters
1, 0, 1, 0, 0 depth 2 has a nonzero counter, and current_block_energy_mode
returns 0, which is shallower than 2. -/
theorem current_block_energy_mode_shallower_than_blocked :
    [(1 : Int), 0, 1, 0, 0].getD 2 0 ≠ 0 ∧
    (current_block_energy_mode 5 [1, 0, 1, 0, 0]).1 = 0 ∧
    (current_block_energy_mode 5 [1, 0, 1, 0, 0]).1 < 2 := by decide

/-- Every cell read from a list of non-negative counters is non-negative. -/
theorem getD_nonneg (c : List Int) (h : ∀ x ∈ c, 0 ≤ x) (d : Nat) : 0 ≤ c.getD d 0 := by
  by_cases hd : d < c.length
  · rw [List.getD_eq_getElem _ _ hd]
    exact h _ (List.getElem_mem hd)
  · rw [List.getD_eq_default _ _ (by omega)]

/-- Claim C13. With the energy modes numbered EM0 = 0 to EM3 = 3, five modes and
non-negative counters, enter_sleep issues exactly what the rule of the
specification gives for the floor f returned by current_block_energy_mode:
nothing when f is EM0 or EM1, and otherwise the mode one level shallower than f
(EM1 for f = EM2, EM2 for f = EM3, EM3 when f is the deepest depth). The mode
entered is therefore never deeper than the floor and never depth 4 (EM4), and
the counters are left as they were. -/
theorem enter_sleep_agrees_with_floor (K : Consts) (c : List Int)
    (h0 : K.EM0 = 0) (h1 : K.EM1 = 1) (h2 : K.EM2 = 2) (h3 : K.EM3 = 3)
    (hmax : K.MAX_ENERGY_MODES = 5) (hnn : ∀ x ∈ c, 0 ≤ x) :
    (enter_sleep K c).1 =
      enter_lowest_available K (current_block_energy_mode K.MAX_ENERGY_MODES c).1 ∧
    (((current_block_energy_mode K.MAX_ENERGY_MODES c).1 = K.EM0 ∨
      (current_block_energy_mode K.MAX_ENERGY_MODES c).1 = K.EM1) →
        (enter_sleep K c).1 = none) ∧
    (∀ call, (enter_sleep K c).1 = some call →
      call.depth K + 1 = (current_block_energy_mode K.MAX_ENERGY_MODES c).1 ∧
      call.depth K ≤ (current_block_energy_mode K.MAX_ENERGY_MODES c).1 ∧
      call.depth K ≠ 4) ∧
    (enter_sleep K c).2 = c := by
  have e0 := getD_nonneg c hnn 0
  have e1 := getD_nonneg c hnn 1
  have e2 := getD_nonneg c hnn 2
  have e3 := getD_nonneg c hnn 3
  have hfloor : (current_block_energy_mode K.MAX_ENERGY_MODES c).1 =
      if c.getD 0 0 ≠ 0 then 0 else if c.getD 1 0 ≠ 0 then 1 else if c.getD 2 0 ≠ 0 then 2
      else if c.getD 3 0 ≠ 0 then 3 else 4 := by
    simp only [current_block_energy_mode, hmax, current_block_energy_mode_loop]
    by_cases a0 : c.getD 0 0 ≠ 0
    · simp only [if_pos a0]
    · by_cases a1 : c.getD 1 0 ≠ 0
      · simp only [if_neg a0, if_pos a1]
      · by_cases a2 : c.getD 2 0 ≠ 0
        · simp only [if_neg a0, if_neg a1, if_pos a2]
        · by_cases a3 : c.getD 3 0 ≠ 0
          · simp only [if_neg a0, if_neg a1, if_neg a2, if_pos a3]
          · simp only [if_neg a0, if_neg a1, if_neg a2, if_neg a3]
            split <;> rfl
  have hsleep : (enter_sleep K c).1 =
      if c.getD 0 0 > 0 then none else if c.getD 1 0 > 0 then none
      else if c.getD 2 0 > 0 then some EMU_CALL.EnterEM1
      else if c.getD 3 0 > 0 then some (EMU_CALL.EnterEM2 true)
      else some (EMU_CALL.EnterEM3 true) := by
    simp only [enter_sleep, h0, h1, h2, h3]
    split
    · rfl
    · split
      · rfl
      · split
        · rfl
        · split <;> rfl
  generalize c.getD 0 0 = x0 at *
  generalize c.getD 1 0 = x1 at *
  generalize c.getD 2 0 = x2 at *
  generalize c.getD 3 0 = x3 at *
  have hst : (enter_sleep K c).2 = c := by
    simp only [enter_sleep]; split_ifs <;> rfl
  rw [hfloor, hsleep]
  simp only [enter_lowest_available, h0, h1, h2, h3, EMU_CALL.depth]
  refine ⟨?_, ?_, ?_, hst⟩
  all_goals
    rcases (by omega : x0 = 0 ∨ (0 < x0 ∧ x0 ≠ 0)) with rfl | ⟨p0, q0⟩
    · rcases (by omega : x1 = 0 ∨ (0 < x1 ∧ x1 ≠ 0)) with rfl | ⟨p1, q1⟩
      · rcases (by omega : x2 = 0 ∨ (0 < x2 ∧ x2 ≠ 0)) with rfl | ⟨p2, q2⟩
        · rcases (by omega : x3 = 0 ∨ (0 < x3 ∧ x3 ≠ 0)) with rfl | ⟨p3, q3⟩
          · simp [EMU_CALL.depth, h3]
          · simp [p3, q3, EMU_CALL.depth, h2]
        · simp [p2, q2, EMU_CALL.depth, h1]
      · simp [p1, q1]
    · simp [p0, q0]

/-- Claim C13, instance: with only depths 3 and 4 blocked the floor is EM3 and
enter_sleep enters EM2. -/
theorem enter_sleep_agrees_with_floor_witness :
    (demoConsts.EM0 = 0 ∧ demoConsts.EM1 = 1 ∧ demoConsts.EM2 = 2 ∧ demoConsts.EM3 = 3 ∧
      demoConsts.MAX_ENERGY_MODES = 5 ∧ ∀ x ∈ [(0 : Int), 0, 0, 2, 1], 0 ≤ x) ∧
    (enter_sleep demoConsts [0, 0, 0, 2, 1]).1 = some (EMU_CALL.EnterEM2 true) ∧
    (current_block_energy_mode 5 [0, 0, 0, 2, 1]).1 = 3 :=
  ⟨⟨rfl, rfl, rfl, rfl, rfl, by decide⟩,
    ((enter_sleep_agrees_with_floor demoConsts [0, 0, 0, 2, 1] rfl rfl rfl rfl rfl
      (by decide)).1).trans (by decide), by decide⟩

/-- After sleep_open the first MAX_ENERGY_MODES cells read 0 and the others are
as before. -/
theorem sleep_open_getD : ∀ (n : Nat) (c : List Int) (d : Nat),
    (sleep_open n c).getD d 0 = if d < n then 0 else c.getD d 0 := by
  intro n
  induction n with
  | zero => intro c d; simp [sleep_open]
  | succ n ih =>
    intro c d
    have hstep : sleep_open (n + 1) c = (sleep_open n c).set n 0 := by
      simp only [sleep_open, List.range_succ, List.foldl_append, List.foldl_cons, List.foldl_nil]
    rw [hstep]
    by_cases hdn : d = n
    · subst hdn
      rw [if_pos (by omega)]
      by_cases hl : d < (sleep_open d c).length
      · exact getD_set_self _ _ _ _ hl
      · exact List.getD_eq_default _ _ (by rw [List.length_set]; omega)
    · rw [getD_set_other _ _ _ _ _ (Ne.symm hdn), ih]
      by_cases h : d < n
      · rw [if_pos h, if_pos (by omega)]
      · rw [if_neg h, if_neg (by omega)]

/-- Function sleep_open keeps the length of the counter array. -/
theorem sleep_open_length (n : Nat) (c : List Int) : (sleep_open n c).length = c.length := by
  induction n with
  | zero => simp [sleep_open]
  | succ n ih =>
    have hstep : sleep_open (n + 1) c = (sleep_open n c).set n 0 := by
      simp only [sleep_open, List.range_succ, List.foldl_append, List.foldl_cons, List.foldl_nil]
    rw [hstep, List.length_set, ih]

/-- Counting the blocks of depth d in a sequence with one more call in front. -/
theorem blocks_cons (d : Nat) (call : SLEEP_CALL) (l : List SLEEP_CALL) :
    blocks d (call :: l) = blocks d l + if call = SLEEP_CALL.block d then 1 else 0 := by
  simp only [blocks, List.count_cons, beq_iff_eq]

/-- Counting the unblocks of depth d in a sequence with one more call in front. -/
theorem unblocks_cons (d : Nat) (call : SLEEP_CALL) (l : List SLEEP_CALL) :
    unblocks d (call :: l) = unblocks d l + if call = SLEEP_CALL.unblock d then 1 else 0 := by
  simp only [unblocks, List.count_cons, beq_iff_eq]

/-- A sequence of calls in which no counter is taken below 0 or above 4 runs
to its end and leaves every counter at its start value plus the blocks less
the unblocks. -/
theorem sleep_calls_counts : ∀ (l : List SLEEP_CALL) (c : List Int),
    (∀ call ∈ l, call.EM < c.length) →
    (∀ d k, 0 ≤ c.getD d 0 + blocks d (l.take k) - unblocks d (l.take k) ∧
      c.getD d 0 + blocks d (l.take k) - unblocks d (l.take k) ≤ 4) →
    ∃ c', sleep_calls l c = Outcome.ok () c' ∧ c'.length = c.length ∧
      ∀ d, c'.getD d 0 = c.getD d 0 + blocks d l - unblocks d l := by
  intro l
  induction l with
  | nil =>
    intro c _ _
    exact ⟨c, rfl, rfl, fun d => by simp [blocks, unblocks]⟩
  | cons call l ih =>
    intro c hrange hpre
    have hEM : call.EM < c.length := hrange call (List.mem_cons_self call l)
    cases call with
    | block e =>
      have hEM' : e < c.length := hEM
      have h1 := hpre e 1
      have hb1 : blocks e (List.take 1 (SLEEP_CALL.block e :: l)) = 1 := by simp [blocks]
      have hu1 : unblocks e (List.take 1 (SLEEP_CALL.block e :: l)) = 0 := by simp [unblocks]
      rw [hb1, hu1] at h1
      have hstep : sleep_block_mode e c = Outcome.ok () (c.set e (c.getD e 0 + 1)) := by
        simp only [sleep_block_mode, getD_set_self c e _ 0 hEM']
        rw [if_pos (by omega)]
      obtain ⟨c', g1, g2, g3⟩ := ih (c.set e (c.getD e 0 + 1))
        (fun x hx => by rw [List.length_set]; exact hrange x (List.mem_cons_of_mem _ hx))
        (fun d k => by
          have h := hpre d (k + 1)
          simp only [List.take_succ_cons, blocks_cons, unblocks_cons, reduceCtorEq, if_false,
            SLEEP_CALL.block.injEq] at h
          by_cases hde : d = e
          · subst hde
            rw [getD_set_self c d _ 0 hEM']
            simp only [if_true] at h
            omega
          · rw [getD_set_other c e d _ 0 (Ne.symm hde)]
            rw [if_neg (Ne.symm hde)] at h
            omega)
      refine ⟨c', ?_, by rw [g2, List.length_set], fun d => ?_⟩
      · simp only [sleep_calls, hstep, Outcome.bind]
        exact g1
      · rw [g3 d]
        simp only [blocks_cons, unblocks_cons, reduceCtorEq, if_false, SLEEP_CALL.block.injEq]
        by_cases hde : d = e
        · subst hde
          rw [getD_set_self c d _ 0 hEM']
          simp only [if_true]
          omega
        · rw [getD_set_other c e d _ 0 (Ne.symm hde), if_neg (Ne.symm hde)]
          omega
    | unblock e =>
      have hEM' : e < c.length := hEM
      have h1 := hpre e 1
      have hb1 : blocks e (List.take 1 (SLEEP_CALL.unblock e :: l)) = 0 := by simp [blocks]
      have hu1 : unblocks e (List.take 1 (SLEEP_CALL.unblock e :: l)) = 1 := by simp [unblocks]
      rw [hb1, hu1] at h1
      have hstep : sleep_unblock_mode e c = Outcome.ok () (c.set e (c.getD e 0 - 1)) := by
        simp only [sleep_unblock_mode, getD_set_self c e _ 0 hEM']
        rw [if_pos (by omega), if_pos (by omega)]
      obtain ⟨c', g1, g2, g3⟩ := ih (c.set e (c.getD e 0 - 1))
        (fun x hx => by rw [List.length_set]; exact hrange x (List.mem_cons_of_mem _ hx))
        (fun d k => by
          have h := hpre d (k + 1)
          simp only [List.take_succ_cons, blocks_cons, unblocks_cons, reduceCtorEq, if_false,
            SLEEP_CALL.unblock.injEq] at h
          by_cases hde : d = e
          · subst hde
            rw [getD_set_self c d _ 0 hEM']
            simp only [if_true] at h
            omega
          · rw [getD_set_other c e d _ 0 (Ne.symm hde)]
            rw [if_neg (Ne.symm hde)] at h
            omega)
      refine ⟨c', ?_, by rw [g2, List.length_set], fun d => ?_⟩
      · simp only [sleep_calls, hstep, Outcome.bind]
        exact g1
      · rw [g3 d]
        simp only [blocks_cons, unblocks_cons, reduceCtorEq, if_false, SLEEP_CALL.unblock.injEq]
        by_cases hde : d = e
        · subst hde
          rw [getD_set_self c d _ 0 hEM']
          simp only [if_true]
          omega
        · rw [getD_set_other c e d _ 0 (Ne.symm hde), if_neg (Ne.symm hde)]
          omega

/-- A sequence whose calls all name depths below MAX blocks no depth from MAX on. -/
theorem blocks_out_of_range (MAX d : Nat) (l : List SLEEP_CALL)
    (hrange : ∀ call ∈ l, call.EM < MAX) (hd : MAX ≤ d) : blocks d l = 0 := by
  refine List.count_eq_zero.mpr fun hmem => ?_
  have h := hrange _ hmem
  simp only [SLEEP_CALL.EM] at h
  omega

/-- A sequence whose calls all name depths below MAX unblocks no depth from MAX
on. -/
theorem unblocks_out_of_range (MAX d : Nat) (l : List SLEEP_CALL)
    (hrange : ∀ call ∈ l, call.EM < MAX) (hd : MAX ≤ d) : unblocks d l = 0 := by
  refine List.count_eq_zero.mpr fun hmem => ?_
  have h := hrange _ hmem
  simp only [SLEEP_CALL.EM] at h
  omega

/-- Claim C11, amended. Start from the state after sleep_open on an array of
MAX_ENERGY_MODES counters and run a sequence of sleep_block_mode and
sleep_unblock_mode calls on depths below MAX_ENERGY_MODES in which each depth
receives equally many block and unblock calls and, at every point of the
sequence, each depth has received at least as many blocks as unblocks and at
most four more. Then the sequence runs to its end without a failed assertion,
every counter is 0 again, and current_block_energy_mode returns the deepest
depth MAX_ENERGY_MODES - 1. -/
theorem sleep_balanced_calls_restore_floor (MAX : Nat) (c0 : List Int) (l : List SLEEP_CALL)
    (hlen : c0.length = MAX)
    (hrange : ∀ call ∈ l, call.EM < MAX)
    (hpre : ∀ d < MAX, ∀ k ≤ l.length,
      unblocks d (l.take k) ≤ blocks d (l.take k) ∧
        blocks d (l.take k) ≤ unblocks d (l.take k) + 4)
    (hbal : ∀ d < MAX, blocks d l = unblocks d l) :
    ∃ c, sleep_calls l (sleep_open MAX c0) = Outcome.ok () c ∧
      (∀ d, c.getD d 0 = 0) ∧
      (current_block_energy_mode MAX c).1 = MAX - 1 := by
  have hzero : ∀ d, (sleep_open MAX c0).getD d 0 = 0 := by
    intro d
    rw [sleep_open_getD]
    by_cases h : d < MAX
    · rw [if_pos h]
    · rw [if_neg h]
      exact List.getD_eq_default _ _ (by omega)
  have hcounts := sleep_calls_counts l (sleep_open MAX c0)
    (fun call hc => by rw [sleep_open_length, hlen]; exact hrange call hc)
    (fun d k => by
      rw [hzero d]
      by_cases hd : d < MAX
      · by_cases hk : k ≤ l.length
        · have h := hpre d hd k hk
          omega
        · have h := hpre d hd l.length (Nat.le_refl _)
          rw [List.take_of_length_le (Nat.le_refl _)] at h
          rw [List.take_of_length_le (by omega)]
          omega
      · have hr : ∀ call ∈ l.take k, call.EM < MAX :=
          fun call hc => hrange call (List.mem_of_mem_take hc)
        rw [blocks_out_of_range MAX d _ hr (by omega),
          unblocks_out_of_range MAX d _ hr (by omega)]
        omega)
  obtain ⟨c, g1, _, g3⟩ := hcounts
  have hall : ∀ d, c.getD d 0 = 0 := by
    intro d
    rw [g3 d, hzero d]
    by_cases hd : d < MAX
    · have h := hbal d hd
      omega
    · rw [blocks_out_of_range MAX d l hrange (by omega),
        unblocks_out_of_range MAX d l hrange (by omega)]
      omega
  refine ⟨c, g1, hall, ?_⟩
  exact current_block_energy_mode_loop_none MAX c MAX 0 (fun j _ _ => hall j)

/-- Claim C11, instance of the amended statement: six nested calls on depths 1
and 2 of a five-mode array. -/
theorem sleep_balanced_calls_restore_floor_witness :
    (([0, 0, 0, 0, 0] : List Int).length = 5 ∧
      (∀ call ∈ [SLEEP_CALL.block 2, SLEEP_CALL.block 1, SLEEP_CALL.unblock 2,
        SLEEP_CALL.block 2, SLEEP_CALL.unblock 1, SLEEP_CALL.unblock 2], call.EM < 5)) ∧
    ∃ c, sleep_calls [SLEEP_CALL.block 2, SLEEP_CALL.block 1, SLEEP_CALL.unblock 2,
        SLEEP_CALL.block 2, SLEEP_CALL.unblock 1, SLEEP_CALL.unblock 2]
        (sleep_open 5 [0, 0, 0, 0, 0]) = Outcome.ok () c ∧
      (∀ d, c.getD d 0 = 0) ∧ (current_block_energy_mode 5 c).1 = 5 - 1 :=
  ⟨⟨rfl, by decide⟩,
    sleep_balanced_calls_restore_floor 5 [0, 0, 0, 0, 0]
      [SLEEP_CALL.block 2, SLEEP_CALL.block 1, SLEEP_CALL.unblock 2,
        SLEEP_CALL.block 2, SLEEP_CALL.unblock 1, SLEEP_CALL.unblock 2]
      rfl (by decide) (by decide) (by decide)⟩

/-- Claim C11, counterexample to the statement as written: after sleep_open,
unblocking depth 0 (which does nothing, the counter being 0) and then blocking
it gives depth 0 one block and one unblock call, yet its counter ends at 1 and
current_block_energy_mode returns 0, not the deepest depth 4. -/
theorem sleep_unblock_before_block_stays_blocked :
    (∀ d, blocks d [SLEEP_CALL.unblock 0, SLEEP_CALL.block 0] =
        unblocks d [SLEEP_CALL.unblock 0, SLEEP_CALL.block 0]) ∧
    sleep_calls [SLEEP_CALL.unblock 0, SLEEP_CALL.block 0] (sleep_open 5 [0, 0, 0, 0, 0]) =
      Outcome.ok () [1, 0, 0, 0, 0] ∧
    (current_block_energy_mode 5 [1, 0, 0, 0, 0]).1 = 0 ∧
    (current_block_energy_mode 5 [1, 0, 0, 0, 0]).1 ≠ 5 - 1 := by
  refine ⟨fun d => ?_, rfl, by decide, by decide⟩
  by_cases h : d = 0
  · subst h; decide
  · simp [blocks, unblocks, h]

/-- With five modes, current_block_energy_mode as a case distinction on the
counters of the depths 0 to 3. -/
theorem current_block_energy_mode_five (c : List Int) :
    (current_block_energy_mode 5 c).1 =
      if c.getD 0 0 ≠ 0 then 0 else if c.getD 1 0 ≠ 0 then 1 else if c.getD 2 0 ≠ 0 then 2
      else if c.getD 3 0 ≠ 0 then 3 else 4 := by
  simp only [current_block_energy_mode, current_block_energy_mode_loop]
  by_cases a0 : c.getD 0 0 ≠ 0
  · simp only [if_pos a0]
  · by_cases a1 : c.getD 1 0 ≠ 0
    · simp only [if_neg a0, if_pos a1]
    · by_cases a2 : c.getD 2 0 ≠ 0
      · simp only [if_neg a0, if_neg a1, if_pos a2]
      · by_cases a3 : c.getD 3 0 ≠ 0
        · simp only [if_neg a0, if_neg a1, if_neg a2, if_pos a3]
        · simp only [if_neg a0, if_neg a1, if_neg a2, if_neg a3]
          split <;> rfl

/-- Claim C24, amended. With the five energy modes EM0 to EM4
(MAX_ENERGY_MODES = 5), current_block_energy_mode returns depth 4, that is
EM4, exactly when the counters of the depths 0 to 3 are all zero; it never
returns more than 4; and in the state sleep_open leaves, where nothing is
blocked, it returns 4. -/
theorem current_block_energy_mode_returns_deepest (c : List Int) :
    ((current_block_energy_mode 5 c).1 = 4 ↔ ∀ d, d < 4 → c.getD d 0 = 0) ∧
    (current_block_energy_mode 5 c).1 ≤ 4 ∧
    (current_block_energy_mode 5 (sleep_open 5 c)).1 = 4 := by
  have hopen : ∀ d, d < 5 → (sleep_open 5 c).getD d 0 = 0 := by
    intro d h
    rw [sleep_open_getD, if_pos h]
  refine ⟨⟨fun h d hd => ?_, fun h => ?_⟩, ?_, ?_⟩
  · rw [current_block_energy_mode_five] at h
    have hd' : d = 0 ∨ d = 1 ∨ d = 2 ∨ d = 3 := by omega
    by_contra hne
    rcases hd' with rfl | rfl | rfl | rfl
    · rw [if_pos hne] at h; omega
    · split_ifs at h
      omega
    · split_ifs at h <;> omega
    · split_ifs at h <;> omega
  · rw [current_block_energy_mode_five, if_neg (not_not.mpr (h 0 (by omega))),
      if_neg (not_not.mpr (h 1 (by omega))), if_neg (not_not.mpr (h 2 (by omega))),
      if_neg (not_not.mpr (h 3 (by omega)))]
  · rw [current_block_energy_mode_five]
    split_ifs <;> omega
  · rw [current_block_energy_mode_five, if_neg (not_not.mpr (hopen 0 (by omega))),
      if_neg (not_not.mpr (hopen 1 (by omega))), if_neg (not_not.mpr (hopen 2 (by omega))),
      if_neg (not_not.mpr (hopen 3 (by omega)))]

/-- Claim C24, counterexample to the statement as written: with five modes,
after sleep_open every counter is 0 and current_block_energy_mode returns 4,
the depth EM4; it also returns 4 when only EM4 is blocked. -/
theorem current_block_energy_mode_returns_EM4_when_free :
    sleep_open demoConsts.MAX_ENERGY_MODES [7, 7, 7, 7, 7] = [0, 0, 0, 0, 0] ∧
    (current_block_energy_mode demoConsts.MAX_ENERGY_MODES [0, 0, 0, 0, 0]).1 = 4 ∧
    (current_block_energy_mode demoConsts.MAX_ENERGY_MODES [0, 0, 0, 0, 2]).1 = 4 := by decide

/-! ## Theorems: scheduler.c -/

/-- Claim C14. For every pending set and every event mask e, calling
add_scheduled_event(e) twice in immediate succession leaves the same pending
set as calling it once. -/
theorem add_scheduled_event_idempotent (e : Nat) (s : Sys) :
    (add_scheduled_event e (add_scheduled_event e s)).event_scheduled =
      (add_scheduled_event e s).event_scheduled := by
  simp only [add_scheduled_event, Nat.or_assoc, Nat.or_self]

/-- Claim C15. For every pending set s and event mask e, get_scheduled_events
after add_scheduled_event(e) returns s | e: a bit is set exactly when it is set
in s or in e, so every bit of e is set and every other bit is as before.
Function get_scheduled_events returns the pending set and leaves the state as it
was, and after scheduler_open the pending set is 0. -/
theorem add_scheduled_event_sets_bits (e : Nat) (s : Sys) :
    (get_scheduled_events (add_scheduled_event e s)).1 = s.event_scheduled ||| e ∧
    (∀ i, (get_scheduled_events (add_scheduled_event e s)).1.testBit i =
      (s.event_scheduled.testBit i || e.testBit i)) ∧
    (get_scheduled_events s).1 = s.event_scheduled ∧
    (get_scheduled_events s).2 = s ∧
    (scheduler_open s).event_scheduled = 0 ∧
    (get_scheduled_events (scheduler_open s)).1 = 0 :=
  ⟨rfl, fun i => Nat.testBit_or _ _ i, rfl, rfl, rfl, rfl⟩

/-- The bits of the 32-bit complement of e: set below bit 32 exactly where e is
clear. -/
theorem not32_testBit (e i : Nat) :
    (2 ^ 32 - 1 - e % 2 ^ 32).testBit i = (decide (i < 32) && !e.testBit i) := by
  have h : 2 ^ 32 - 1 - e % 2 ^ 32 = 2 ^ 32 - (e % 2 ^ 32 + 1) := by omega
  rw [h, Nat.testBit_two_pow_sub_succ (Nat.mod_lt _ (by decide)), Nat.testBit_mod_two_pow]
  by_cases hi : i < 32 <;> simp [hi]

/-- Claim C16. For every pending set s and event mask e,
remove_scheduled_event(e) leaves the pending set equal to s & ~e, the complement
taken in 32 bits: each of the 32 bits is set afterwards exactly when it was set
in s and is not set in e, so every bit of e is cleared and every bit outside e
is unchanged. When s fits in 32 bits, as the uint32_t variable does, so does the
result, and the bitwise description holds at every bit position. -/
theorem remove_scheduled_event_clears_bits (e : Nat) (s : Sys) :
    (remove_scheduled_event e s).event_scheduled =
      s.event_scheduled &&& (2 ^ 32 - 1 - e % 2 ^ 32) ∧
    (∀ i, i < 32 → (remove_scheduled_event e s).event_scheduled.testBit i =
      (s.event_scheduled.testBit i && !e.testBit i)) ∧
    (∀ i, i < 32 → e.testBit i = true →
      (remove_scheduled_event e s).event_scheduled.testBit i = false) ∧
    (∀ i, i < 32 → e.testBit i = false →
      (remove_scheduled_event e s).event_scheduled.testBit i = s.event_scheduled.testBit i) ∧
    (s.event_scheduled < 2 ^ 32 →
      (remove_scheduled_event e s).event_scheduled < 2 ^ 32 ∧
      ∀ i, (remove_scheduled_event e s).event_scheduled.testBit i =
        (s.event_scheduled.testBit i && !e.testBit i)) := by
  have hbit : ∀ i, (remove_scheduled_event e s).event_scheduled.testBit i =
      (s.event_scheduled.testBit i && (decide (i < 32) && !e.testBit i)) := by
    intro i
    simp only [remove_scheduled_event, Nat.testBit_and, not32_testBit]
  refine ⟨rfl, fun i hi => ?_, fun i hi he => ?_, fun i hi he => ?_, fun hs => ⟨?_, fun i => ?_⟩⟩
  · rw [hbit]; simp [hi]
  · rw [hbit]; simp [he]
  · rw [hbit]; simp [hi, he]
  · exact Nat.lt_of_le_of_lt Nat.and_le_left hs
  · rw [hbit]
    by_cases hi : i < 32
    · simp [hi]
    · have : s.event_scheduled.testBit i = false :=
        Nat.testBit_lt_two_pow (Nat.lt_of_lt_of_le hs (Nat.pow_le_pow_right (by decide) (by omega)))
      simp [this]

/-! ## Theorems: i2c.c -/

theorem sleep_unblock_mode_returns (d : Nat) (c : List Int) :
    ∃ c', sleep_unblock_mode d c = Outcome.ok () c' := by
  unfold sleep_unblock_mode
  by_cases h : c.getD d 0 > 0
  · by_cases hd : d < c.length
    · simp only [if_pos h, getD_set_self c d _ 0 hd]
      rw [if_pos (by omega)]
      exact ⟨_, rfl⟩
    · have : c.getD d 0 = 0 := by
        simp [List.getD_eq_getElem?_getD, List.getElem?_eq_none (Nat.le_of_not_lt hd)]
      omega
  · simp only [if_neg h]
    exact ⟨_, rfl⟩

theorem ack_int_init_send_addr (K : Consts) (s : Sys) (hrw : s.i2c_sm.readWrite = true)
    (hst : s.i2c_sm.current_state = INIT_SEND_ADDR) :
    ack_int K s = Outcome.ok () { s with
      I2C0 := { s.I2C0 with TXDATA := s.I2C0.TXDATA ++ [s.i2c_sm.command] },
      i2c_sm := { s.i2c_sm with current_state := SEND_MEASURE_TEMP_NHOLD } } := by
  simp [ack_int, ack_int_read, hrw, hst, INIT_SEND_ADDR, INIT_SEND_ADDR_R, Outcome.bind]

theorem ack_int_send_command (K : Consts) (s : Sys) (hrw : s.i2c_sm.readWrite = true)
    (hst : s.i2c_sm.current_state = SEND_MEASURE_TEMP_NHOLD) :
    ack_int K s = Outcome.ok () { s with
      I2C0 := { s.I2C0 with
        CMD := s.I2C0.CMD ++ [[I2C_CMD.START]],
        TXDATA := s.I2C0.TXDATA ++ [((s.i2c_sm.command <<< 1) % 2 ^ 32) ||| 1] },
      i2c_sm := { s.i2c_sm with readWrite := true, current_state := SEND_RPT_START_ADDR } } := by
  simp [ack_int, ack_int_read, hrw, hst, INIT_SEND_ADDR, INIT_SEND_ADDR_R, SEND_CMD_R,
    SEND_MEASURE_TEMP_NHOLD, Outcome.bind]

theorem ack_int_rpt_start (K : Consts) (s : Sys) (hrw : s.i2c_sm.readWrite = true)
    (hst : s.i2c_sm.current_state = SEND_RPT_START_ADDR) :
    ack_int K s = Outcome.ok () { s with
      i2c_sm := { s.i2c_sm with current_state := READ_MS_BYTE },
      I2C0 := { s.I2C0 with IEN := { s.I2C0.IEN with RXDATAV := true } } } := by
  simp [ack_int, ack_int_read, hrw, hst, INIT_SEND_ADDR, INIT_SEND_ADDR_R, SEND_CMD_R,
    SEND_MEASURE_TEMP_NHOLD, QUERY_READY, SEND_RPT_START_ADDR, Outcome.bind]

theorem nack_int_retry (K : Consts) (s : Sys) (hrw : s.i2c_sm.readWrite = true)
    (hst : s.i2c_sm.current_state = SEND_RPT_START_ADDR) :
    nack_int K s = Outcome.ok () { s with
      I2C0 := { s.I2C0 with
        CMD := s.I2C0.CMD ++ [[I2C_CMD.START]],
        TXDATA := s.I2C0.TXDATA ++ [((s.i2c_sm.device_addr <<< 1) % 2 ^ 32) ||| 1] },
      i2c_sm := { s.i2c_sm with readWrite := true } } := by
  simp [nack_int, nack_int_read, hrw, hst, INIT_SEND_ADDR, SEND_CMD_R,
    SEND_MEASURE_TEMP_NHOLD, QUERY_READY, SEND_RPT_START_ADDR, Outcome.bind]

theorem rxdatav_int_ms_byte (s : Sys) (hst : s.i2c_sm.current_state = READ_MS_BYTE) :
    rxdatav_int s = Outcome.ok () { s with
      mem := Function.update s.mem s.i2c_sm.readData ((s.I2C0.RXDATA <<< 8) % 2 ^ 32),
      I2C0 := { s.I2C0 with CMD := s.I2C0.CMD ++ [[I2C_CMD.ACK]] },
      i2c_sm := { s.i2c_sm with current_state := READ_LS } } := by
  simp [rxdatav_int, hst, INIT_SEND_ADDR, SEND_MEASURE_TEMP_NHOLD, SEND_RPT_START_ADDR,
    READ_MS_BYTE]

theorem rxdatav_int_ls_byte (s : Sys) (hst : s.i2c_sm.current_state = READ_LS) :
    rxdatav_int s = Outcome.ok () { s with
      mem := Function.update s.mem s.i2c_sm.readData
        (s.mem s.i2c_sm.readData ||| s.I2C0.RXDATA),
      I2C0 := { s.I2C0 with CMD := s.I2C0.CMD ++ [[I2C_CMD.NACK], [I2C_CMD.STOP]] },
      i2c_sm := { s.i2c_sm with current_state := STOP_END } } := by
  simp [rxdatav_int, hst, INIT_SEND_ADDR, SEND_MEASURE_TEMP_NHOLD, SEND_RPT_START_ADDR,
    READ_MS_BYTE, READ_LS]

theorem mstop_int_stop_end (K : Consts) (s : Sys) (c' : List Int)
    (hrw : s.i2c_sm.readWrite = true) (hst : s.i2c_sm.current_state = STOP_END)
    (hc : sleep_unblock_mode (I2C_EM_BLOCK K) s.lowest_energy_mode = Outcome.ok () c') :
    mstop_int K s = Outcome.ok () { s with
      lowest_energy_mode := c',
      event_scheduled := s.event_scheduled ||| s.i2c_sm.callback,
      posted := s.posted ++ [s.i2c_sm.callback],
      i2c_sm := { s.i2c_sm with SMbusy := false, current_state := INIT_SEND_ADDR } } := by
  simp [mstop_int, mstop_int_read, hrw, hst, INIT_SEND_ADDR, SEND_MEASURE_TEMP_NHOLD,
    SEND_RPT_START_ADDR, READ_MS_BYTE, READ_LS, STOP_END, Outcome.bind, Outcome.lift, hc,
    Sys.withSleep, add_scheduled_event]

theorem i2c_irqs_append (K : Consts) (l1 l2 : List I2C_IRQ) :
    ∀ s : Sys, i2c_irqs K (l1 ++ l2) s = (i2c_irqs K l1 s).bind fun _ s1 => i2c_irqs K l2 s1 := by
  induction l1 with
  | nil => intro s; rfl
  | cons e es ih =>
    intro s
    simp only [List.cons_append, i2c_irqs]
    cases i2c_irq K e s with
    | ok a s1 => exact ih s1
    | fatal s1 => rfl
    | diverge => rfl

theorem i2c_two_acks (K : Consts) (s : Sys) (hrw : s.i2c_sm.readWrite = true)
    (hst : s.i2c_sm.current_state = INIT_SEND_ADDR) :
    ∃ s', i2c_irqs K [I2C_IRQ.ACK, I2C_IRQ.ACK] s = Outcome.ok () s' ∧
      s'.i2c_sm.readWrite = true ∧ s'.i2c_sm.current_state = SEND_RPT_START_ADDR ∧
      s'.i2c_sm.readData = s.i2c_sm.readData ∧ s'.i2c_sm.callback = s.i2c_sm.callback ∧
      s'.mem = s.mem ∧ s'.posted = s.posted ∧ s'.event_scheduled = s.event_scheduled ∧
      s'.lowest_energy_mode = s.lowest_energy_mode := by
  simp only [i2c_irqs, i2c_irq]
  rw [ack_int_init_send_addr K s hrw hst]
  simp only [Outcome.bind]
  rw [ack_int_send_command K _]
  · exact ⟨_, rfl, rfl, rfl, rfl, rfl, rfl, rfl, rfl, rfl⟩
  · exact hrw
  · rfl

theorem i2c_nack_retries (K : Consts) :
    ∀ (k : Nat) (s : Sys), s.i2c_sm.readWrite = true →
      s.i2c_sm.current_state = SEND_RPT_START_ADDR →
      ∃ s', i2c_irqs K (List.replicate k I2C_IRQ.NACK) s = Outcome.ok () s' ∧
        s'.i2c_sm = s.i2c_sm ∧ s'.mem = s.mem ∧ s'.posted = s.posted ∧
        s'.event_scheduled = s.event_scheduled ∧
        s'.lowest_energy_mode = s.lowest_energy_mode := by
  intro k
  induction k with
  | zero => intro s _ _; exact ⟨s, rfl, rfl, rfl, rfl, rfl, rfl⟩
  | succ k ih =>
    intro s hrw hst
    have hsm : ({ s.i2c_sm with readWrite := true } : I2C_STATE_MACHINE_STRUCT) = s.i2c_sm := by
      rw [← hrw]
    obtain ⟨s', h1, h2, h3, h4, h5, h6⟩ := ih { s with
      I2C0 := { s.I2C0 with
        CMD := s.I2C0.CMD ++ [[I2C_CMD.START]],
        TXDATA := s.I2C0.TXDATA ++ [((s.i2c_sm.device_addr <<< 1) % 2 ^ 32) ||| 1] },
      i2c_sm := { s.i2c_sm with readWrite := true } } rfl hst
    refine ⟨s', ?_, h2.trans hsm, h3, h4, h5, h6⟩
    rw [List.replicate_succ, i2c_irqs, i2c_irq, nack_int_retry K s hrw hst]
    exact h1

theorem i2c_read_tail (K : Consts) (s : Sys) (a b : Nat) (ha : a < 256)
    (hrw : s.i2c_sm.readWrite = true)
    (hst : s.i2c_sm.current_state = SEND_RPT_START_ADDR) :
    ∃ s1, i2c_irqs K [I2C_IRQ.ACK, I2C_IRQ.RXDATAV a, I2C_IRQ.RXDATAV b, I2C_IRQ.MSTOP] s
        = Outcome.ok () s1 ∧
      s1.mem s.i2c_sm.readData = (a <<< 8) ||| b ∧
      s1.posted = s.posted ++ [s.i2c_sm.callback] ∧
      s1.event_scheduled = s.event_scheduled ||| s.i2c_sm.callback ∧
      s1.i2c_sm.SMbusy = false ∧
      s1.i2c_sm.current_state = INIT_SEND_ADDR := by
  have ha32 : (a <<< 8) % 4294967296 = a <<< 8 := by
    rw [Nat.shiftLeft_eq]; omega
  obtain ⟨c', hc'⟩ := sleep_unblock_mode_returns (I2C_EM_BLOCK K) s.lowest_energy_mode
  simp only [i2c_irqs, i2c_irq, Outcome.bind]
  rw [ack_int_rpt_start K s hrw hst]
  simp only []
  rw [rxdatav_int_ms_byte _ rfl]
  simp only []
  rw [rxdatav_int_ls_byte _ rfl]
  simp only []
  rw [mstop_int_stop_end K _ c']
  · refine ⟨_, rfl, ?_, rfl, rfl, rfl, rfl⟩
    simp [ha32]
  · exact hrw
  · rfl
  · exact hc'

/-- C4. Bus read transaction, end to end. When `i2c_start` is called in the read
direction with the peripheral idle and the I2C sleep counter below its bound,
it returns, and then for every number `k` of negative acknowledges and all
received bytes `a`, `b` the interrupt sequence ACK, ACK, NACK x k, ACK,
data-received(a), data-received(b), bus-stop-complete is serviced without a
failing assertion and leaves the destination word equal to `(a << 8) | b`
(that is `256 * a + b`), the completion event posted exactly once (one more
entry in the log of posts, and its bits set in the pending set), the busy flag
false and the state `INIT_SEND_ADDR`. -/
theorem i2c_read_transaction (K : Consts) (s : Sys)
    (i2c slaveAddr data numBytes command cb_event k a b : Nat)
    (hidle : s.I2C0.STATE_IDLE = true)
    (hEM : I2C_EM_BLOCK K < s.lowest_energy_mode.length)
    (hblock : s.lowest_energy_mode.getD (I2C_EM_BLOCK K) 0 < 4)
    (ha : a < 256) (hb : b < 256) :
    ∃ s0 s1,
      i2c_start K i2c slaveAddr data numBytes command true cb_event s = Outcome.ok () s0 ∧
      i2c_irqs K ([I2C_IRQ.ACK, I2C_IRQ.ACK] ++ List.replicate k I2C_IRQ.NACK ++
        [I2C_IRQ.ACK, I2C_IRQ.RXDATAV a, I2C_IRQ.RXDATAV b, I2C_IRQ.MSTOP]) s0
        = Outcome.ok () s1 ∧
      s1.mem data = (a <<< 8) ||| b ∧
      s1.mem data = 256 * a + b ∧
      s1.posted = s.posted ++ [cb_event] ∧
      s1.event_scheduled = s.event_scheduled ||| cb_event ∧
      s1.i2c_sm.SMbusy = false ∧
      s1.i2c_sm.current_state = INIT_SEND_ADDR := by
  have hblk : sleep_block_mode (I2C_EM_BLOCK K) s.lowest_energy_mode = Outcome.ok ()
      (s.lowest_energy_mode.set (I2C_EM_BLOCK K)
        (s.lowest_energy_mode.getD (I2C_EM_BLOCK K) 0 + 1)) := by
    simp only [sleep_block_mode, getD_set_self _ _ _ 0 hEM]
    rw [if_pos (by omega)]
  have hor : (a <<< 8) ||| b = 256 * a + b := by
    have h := Nat.mul_add_lt_is_or (show b < 2 ^ 8 from hb) a
    rw [Nat.shiftLeft_eq, Nat.mul_comm a, ← h]
  obtain ⟨s0, hs0, f1, f2, f3, f4, f5, f6⟩ : ∃ s0,
      i2c_start K i2c slaveAddr data numBytes command true cb_event s = Outcome.ok () s0 ∧
      s0.i2c_sm.readWrite = true ∧ s0.i2c_sm.current_state = INIT_SEND_ADDR ∧
      s0.i2c_sm.readData = data ∧ s0.i2c_sm.callback = cb_event ∧
      s0.posted = s.posted ∧ s0.event_scheduled = s.event_scheduled := by
    simp only [i2c_start, hidle, if_true, hblk, Outcome.lift, Outcome.bind, Sys.withSleep]
    exact ⟨_, rfl, rfl, rfl, rfl, rfl, rfl, rfl⟩
  obtain ⟨s2, a0, a1, a2, a3, a4, _, a6, a7, _⟩ := i2c_two_acks K s0 f1 f2
  obtain ⟨s3, n0, n1, _, n3, n4, _⟩ := i2c_nack_retries K k s2 a1 a2
  obtain ⟨s1, g1, g2, g3, g4, g5, g6⟩ :=
    i2c_read_tail K s3 a b ha (by rw [n1]; exact a1) (by rw [n1]; exact a2)
  refine ⟨s0, s1, hs0, ?_, ?_, ?_, ?_, ?_, g5, g6⟩
  · rw [i2c_irqs_append, i2c_irqs_append, a0]
    simp only [Outcome.bind]
    rw [n0]
    exact g1
  · rw [← g2, n1, a3, f3]
  · rw [← hor, ← g2, n1, a3, f3]
  · rw [g3, n1, n3, a4, a6, f4, f5]
  · rw [g4, n1, n4, a4, a7, f4, f6]

/-- An idle peripheral and a counter of the blocked depth below its bound: the
call of i2c_start returns, and this is the state it leaves. -/
theorem i2c_start_returns (K : Consts) (i2c slaveAddr data numBytes command : Nat)
    (readWrite : Bool) (cb_event : Nat) (s : Sys) (hidle : s.I2C0.STATE_IDLE = true)
    (hlen : I2C_EM_BLOCK K < s.lowest_energy_mode.length)
    (hc : s.lowest_energy_mode.getD (I2C_EM_BLOCK K) 0 < 4) :
    i2c_start K i2c slaveAddr data numBytes command readWrite cb_event s =
      Outcome.ok ()
        { s with
          lowest_energy_mode := s.lowest_energy_mode.set (I2C_EM_BLOCK K)
            (s.lowest_energy_mode.getD (I2C_EM_BLOCK K) 0 + 1)
          i2c_sm := { i2c := i2c, current_state := INIT_SEND_ADDR, device_addr := slaveAddr,
                      command := command, readWrite := readWrite, readData := data,
                      numBytes := numBytes, bytesDone := 0, SMbusy := true,
                      callback := cb_event }
          I2C0 := { s.I2C0 with
            CTRL_AUTOACK := false
            TXDATA := s.I2C0.TXDATA ++ [((slaveAddr <<< 1) % 2 ^ 32) ||| readWrite.toNat]
            CMD := s.I2C0.CMD ++ [[I2C_CMD.START]] } } := by
  have hstep : sleep_block_mode (I2C_EM_BLOCK K) s.lowest_energy_mode =
      Outcome.ok () (s.lowest_energy_mode.set (I2C_EM_BLOCK K)
        (s.lowest_energy_mode.getD (I2C_EM_BLOCK K) 0 + 1)) := by
    simp only [sleep_block_mode, getD_set_self _ _ _ 0 hlen]
    rw [if_pos (by omega)]
  simp only [i2c_start, if_pos hidle, hstep, Outcome.lift, Outcome.bind, Sys.withSleep,
    INIT_SEND_ADDR]

/-- An idle peripheral and a counter of the blocked depth at its bound or
above: the assertion of sleep_block_mode fails, and the transaction record is
as it was. -/
theorem i2c_start_stops (K : Consts) (i2c slaveAddr data numBytes command : Nat)
    (readWrite : Bool) (cb_event : Nat) (s : Sys) (hidle : s.I2C0.STATE_IDLE = true)
    (hlen : I2C_EM_BLOCK K < s.lowest_energy_mode.length)
    (hc : 4 ≤ s.lowest_energy_mode.getD (I2C_EM_BLOCK K) 0) :
    i2c_start K i2c slaveAddr data numBytes command readWrite cb_event s =
      Outcome.fatal
        { s with
          lowest_energy_mode := s.lowest_energy_mode.set (I2C_EM_BLOCK K)
            (s.lowest_energy_mode.getD (I2C_EM_BLOCK K) 0 + 1) } := by
  have hstep : sleep_block_mode (I2C_EM_BLOCK K) s.lowest_energy_mode =
      Outcome.fatal (s.lowest_energy_mode.set (I2C_EM_BLOCK K)
        (s.lowest_energy_mode.getD (I2C_EM_BLOCK K) 0 + 1)) := by
    simp only [sleep_block_mode, getD_set_self _ _ _ 0 hlen]
    rw [if_neg (by omega)]
  simp only [i2c_start, if_pos hidle, hstep, Outcome.lift, Outcome.bind, Sys.withSleep]

/-- The address byte: bit 0 is the direction flag and the bits above it are
the slave address. -/
theorem address_byte_bit0 (slaveAddr : Nat) (readWrite : Bool) :
    (((slaveAddr <<< 1) % 2 ^ 32) ||| readWrite.toNat).testBit 0 = readWrite := by
  rw [Nat.testBit_or, Nat.testBit_mod_two_pow, Nat.testBit_shiftLeft]
  cases readWrite <;> simp

/-- Claim C19, as the code has it. For every call of i2c_start that finds the
peripheral idle and the counter of the blocked depth below its bound, the call
returns, the one byte it writes to the transmit-data register is the slave
address shifted left by one with the caller's direction flag readWrite in bit
0, and one START command follows. For a read-direction call (readWrite true, as
si7021_read passes) bit 0 is therefore set, where the claim has it clear. -/
theorem i2c_start_address_byte_carries_direction (K : Consts)
    (i2c slaveAddr data numBytes command : Nat) (readWrite : Bool) (cb_event : Nat) (s : Sys)
    (hidle : s.I2C0.STATE_IDLE = true)
    (hlen : I2C_EM_BLOCK K < s.lowest_energy_mode.length)
    (hc : s.lowest_energy_mode.getD (I2C_EM_BLOCK K) 0 < 4) :
    ∃ s', i2c_start K i2c slaveAddr data numBytes command readWrite cb_event s =
        Outcome.ok () s' ∧
      s'.I2C0.TXDATA = s.I2C0.TXDATA ++ [((slaveAddr <<< 1) % 2 ^ 32) ||| readWrite.toNat] ∧
      (((slaveAddr <<< 1) % 2 ^ 32) ||| readWrite.toNat).testBit 0 = readWrite ∧
      (readWrite = true →
        (((slaveAddr <<< 1) % 2 ^ 32) ||| readWrite.toNat).testBit 0 = true) ∧
      s'.I2C0.CMD = s.I2C0.CMD ++ [[I2C_CMD.START]] :=
  ⟨_, i2c_start_returns K i2c slaveAddr data numBytes command readWrite cb_event s hidle hlen hc,
    rfl, address_byte_bit0 slaveAddr readWrite,
    fun h => (address_byte_bit0 slaveAddr readWrite).trans h, rfl⟩

/-- Claim C19, instance: the call si7021_read makes (slave address 0x40, command
0xF3, two bytes, read direction) on the state after start-up. -/
theorem i2c_start_address_byte_carries_direction_witness :
    (bootState.I2C0.STATE_IDLE = true ∧
      I2C_EM_BLOCK demoConsts < bootState.lowest_energy_mode.length ∧
      bootState.lowest_energy_mode.getD (I2C_EM_BLOCK demoConsts) 0 < 4) ∧
    ∃ s', i2c_start demoConsts 0 64 0 2 243 true 8 bootState = Outcome.ok () s' ∧
      s'.I2C0.TXDATA = bootState.I2C0.TXDATA ++ [((64 <<< 1) % 2 ^ 32) ||| true.toNat] ∧
      (((64 <<< 1) % 2 ^ 32) ||| true.toNat).testBit 0 = true ∧
      (true = true → (((64 <<< 1) % 2 ^ 32) ||| true.toNat).testBit 0 = true) ∧
      s'.I2C0.CMD = bootState.I2C0.CMD ++ [[I2C_CMD.START]] :=
  ⟨⟨rfl, by decide, by decide⟩,
    i2c_start_address_byte_carries_direction demoConsts 0 64 0 2 243 true 8 bootState rfl
      (by decide) (by decide)⟩

/-- The call si7021_read makes writes 0x81 to the transmit-data register, not
the write address 0x80. -/
theorem si7021_read_address_byte :
    ((i2c_start demoConsts 0 64 0 2 243 true 8 bootState).state.map
      fun s => (s.I2C0.TXDATA, s.I2C0.CMD)) = some ([129], [[I2C_CMD.START]]) ∧
    (129 : Nat).testBit 0 = true ∧ 129 ≠ 64 <<< 1 := by
  refine ⟨rfl, by decide, by decide⟩

/-- Claim C20, amended. When the peripheral does not report idle, i2c_start
stops in its assertion and leaves the state as it was. When it reports idle and
counters[I2C_EM_BLOCK] is below its bound 4, i2c_start returns with the
transaction record holding exactly the peripheral, the slave address, the
command, the direction, the destination pointer, the byte count and the
completion event of the call, state INIT_SEND_ADDR, no bytes done and busy
true, whatever the record held before; counters[I2C_EM_BLOCK] is one more than
before and the other counters are unchanged. When it reports idle and
counters[I2C_EM_BLOCK] is already 4 or more, the call stops in the assertion of
sleep_block_mode and the transaction record is as it was. -/
theorem i2c_start_stores_transaction (K : Consts) (i2c slaveAddr data numBytes command : Nat)
    (readWrite : Bool) (cb_event : Nat) (s : Sys) :
    (s.I2C0.STATE_IDLE = false →
      i2c_start K i2c slaveAddr data numBytes command readWrite cb_event s = Outcome.fatal s) ∧
    (s.I2C0.STATE_IDLE = true → I2C_EM_BLOCK K < s.lowest_energy_mode.length →
      s.lowest_energy_mode.getD (I2C_EM_BLOCK K) 0 < 4 →
      ∃ s', i2c_start K i2c slaveAddr data numBytes command readWrite cb_event s =
          Outcome.ok () s' ∧
        s'.i2c_sm = { i2c := i2c, current_state := INIT_SEND_ADDR, device_addr := slaveAddr,
                      command := command, readWrite := readWrite, readData := data,
                      numBytes := numBytes, bytesDone := 0, SMbusy := true,
                      callback := cb_event } ∧
        i2c_sm_busy i2c s' = true ∧
        s'.lowest_energy_mode.getD (I2C_EM_BLOCK K) 0 =
          s.lowest_energy_mode.getD (I2C_EM_BLOCK K) 0 + 1 ∧
        ∀ d, d ≠ I2C_EM_BLOCK K →
          s'.lowest_energy_mode.getD d 0 = s.lowest_energy_mode.getD d 0) ∧
    (s.I2C0.STATE_IDLE = true → I2C_EM_BLOCK K < s.lowest_energy_mode.length →
      4 ≤ s.lowest_energy_mode.getD (I2C_EM_BLOCK K) 0 →
      ∃ s', i2c_start K i2c slaveAddr data numBytes command readWrite cb_event s =
          Outcome.fatal s' ∧
        s'.i2c_sm = s.i2c_sm) := by
  refine ⟨fun h => ?_, fun hidle hlen hc => ?_, fun hidle hlen hc => ?_⟩
  · simp only [i2c_start, h, Bool.false_eq_true, if_false]
  · refine ⟨_, i2c_start_returns K i2c slaveAddr data numBytes command readWrite cb_event s
      hidle hlen hc, rfl, ?_, ?_, fun d hd => ?_⟩
    · simp only [i2c_sm_busy, if_true]
    · exact getD_set_self _ _ _ 0 hlen
    · exact getD_set_other _ _ _ _ 0 (Ne.symm hd)
  · exact ⟨_, i2c_start_stops K i2c slaveAddr data numBytes command readWrite cb_event s
      hidle hlen hc, rfl⟩

/-- Claim C20, counterexample to the statement as written: the peripheral is
idle and counters[I2C_EM_BLOCK] is 4; i2c_start stops in the assertion of
sleep_block_mode with the counter at 5, busy still false and the slave address
not stored. -/
theorem i2c_start_stops_at_block_bound :
    ({ bootState with lowest_energy_mode := [0, 0, 4, 0, 0] } : Sys).I2C0.STATE_IDLE = true ∧
    (i2c_start demoConsts 0 64 0 2 243 true 8
      { bootState with lowest_energy_mode := [0, 0, 4, 0, 0] }).isFatal = true ∧
    ((i2c_start demoConsts 0 64 0 2 243 true 8
      { bootState with lowest_energy_mode := [0, 0, 4, 0, 0] }).state.map
        fun s => (s.i2c_sm.SMbusy, s.i2c_sm.device_addr, s.lowest_energy_mode)) =
      some (false, 0, [0, 0, 5, 0, 0]) := by
  refine ⟨rfl, rfl, rfl⟩

/-- Claim C21. For every state of the engine on entry (busy or idle, any state
tag) and every answer of the peripheral: when the peripheral ends the two
spins of i2c_bus_reset (the bus leaves busy after the abort, the stop-complete
flag comes up), the call returns; whenever the call returns, the busy flag is
false, the state tag is INIT_SEND_ADDR and the interrupt-enable register holds
the value it had on entry; and the call never stops in an assertion. -/
theorem i2c_bus_reset_leaves_idle (hw : I2C_BUS) (i2c : Nat) (s : Sys) :
    ((hw.STATE_BUSY = true → hw.BUSY_clears = true) → hw.MSTOP_sets = true →
      ∃ s', i2c_bus_reset hw i2c s = Outcome.ok () s') ∧
    (∀ s', i2c_bus_reset hw i2c s = Outcome.ok () s' →
      s'.i2c_sm.SMbusy = false ∧ i2c_sm_busy i2c s' = false ∧
      s'.i2c_sm.current_state = INIT_SEND_ADDR ∧ s'.I2C0.IEN = s.I2C0.IEN) ∧
    (i2c_bus_reset hw i2c s).isFatal = false := by
  obtain ⟨b1, b2, b3⟩ := hw
  cases b1 <;> cases b2 <;> cases b3 <;>
    simp [i2c_bus_reset, Outcome.bind, Outcome.isFatal, i2c_sm_busy, INIT_SEND_ADDR]

/-- The byte of a repeated START for the address x: twice the low 31 bits of
x, plus one. -/
theorem read_address_byte (x : Nat) : ((x <<< 1) % 2 ^ 32) ||| 1 = 2 * (x % 2 ^ 31) + 1 := by
  have h : (x <<< 1) % 2 ^ 32 = 2 ^ 1 * (x % 2 ^ 31) := by
    rw [Nat.shiftLeft_eq]; omega
  rw [h, ← Nat.mul_add_lt_is_or (by decide : 1 < 2 ^ 1)]

/-- Claim C27, as the code has it. On an acknowledge in the state after
INIT_SEND_ADDR (SEND_COMMAND in the specification, SEND_MEASURE_TEMP_NHOLD in
the code) of a read transaction, ack_int issues one START command, advances to
SEND_RPT_START_ADDR and writes (command << 1) | 1 to the transmit-data
register: the stored command byte, not the stored slave address. Whenever the
command and the slave address differ in their low 31 bits, the byte written is
not (slave address << 1) | 1. -/
theorem ack_int_send_command_writes_command (K : Consts) (s : Sys)
    (hrw : s.i2c_sm.readWrite = true)
    (hst : s.i2c_sm.current_state = SEND_MEASURE_TEMP_NHOLD) :
    ∃ s', ack_int K s = Outcome.ok () s' ∧
      s'.I2C0.CMD = s.I2C0.CMD ++ [[I2C_CMD.START]] ∧
      s'.I2C0.TXDATA = s.I2C0.TXDATA ++ [((s.i2c_sm.command <<< 1) % 2 ^ 32) ||| 1] ∧
      s'.i2c_sm.current_state = SEND_RPT_START_ADDR ∧
      (s.i2c_sm.command % 2 ^ 31 ≠ s.i2c_sm.device_addr % 2 ^ 31 →
        s'.I2C0.TXDATA ≠ s.I2C0.TXDATA ++ [((s.i2c_sm.device_addr <<< 1) % 2 ^ 32) ||| 1]) := by
  refine ⟨_, ack_int_send_command K s hrw hst, rfl, rfl, rfl, fun hne h => ?_⟩
  have h1 := List.append_cancel_left h
  simp only [List.cons.injEq, and_true] at h1
  rw [read_address_byte, read_address_byte] at h1
  omega

/-- Claim C27, instance: in the read that si7021_read starts (slave address
0x40, command 0xF3) the byte written is 0x1E7, not 0x81. -/
theorem ack_int_send_command_writes_command_witness :
    ((readState SEND_MEASURE_TEMP_NHOLD).i2c_sm.readWrite = true ∧
      (readState SEND_MEASURE_TEMP_NHOLD).i2c_sm.current_state = SEND_MEASURE_TEMP_NHOLD) ∧
    ∃ s', ack_int demoConsts (readState SEND_MEASURE_TEMP_NHOLD) = Outcome.ok () s' ∧
      s'.I2C0.TXDATA = [487] ∧ s'.I2C0.TXDATA ≠ [129] :=
  ⟨⟨rfl, rfl⟩,
    (ack_int_send_command_writes_command demoConsts (readState SEND_MEASURE_TEMP_NHOLD)
      rfl rfl).imp fun _ h => ⟨h.1, h.2.2.1, h.2.2.2.2 (by decide)⟩⟩

/-- Any number of negative acknowledges in SEND_RPT_START_ADDR: the state they
leave. -/
theorem i2c_nack_retries_registers (K : Consts) :
    ∀ (k : Nat) (s : Sys), s.i2c_sm.readWrite = true →
      s.i2c_sm.current_state = SEND_RPT_START_ADDR →
      i2c_irqs K (List.replicate k I2C_IRQ.NACK) s = Outcome.ok () { s with
        I2C0 := { s.I2C0 with
          CMD := s.I2C0.CMD ++ List.replicate k [I2C_CMD.START],
          TXDATA := s.I2C0.TXDATA ++
            List.replicate k (((s.i2c_sm.device_addr <<< 1) % 2 ^ 32) ||| 1) } } := by
  intro k
  induction k with
  | zero =>
    intro s _ _
    simp [i2c_irqs]
  | succ k ih =>
    intro s hrw hst
    have hsm : ({ s.i2c_sm with readWrite := true } : I2C_STATE_MACHINE_STRUCT) = s.i2c_sm := by
      rw [← hrw]
    rw [List.replicate_succ, i2c_irqs, i2c_irq, nack_int_retry K s hrw hst]
    simp only [Outcome.bind, hsm]
    refine (ih _ ?_ ?_).trans ?_
    · exact hrw
    · exact hst
    simp only [List.append_assoc, List.replicate_succ, List.singleton_append]

/-- Claim C28. In a read transaction in state SEND_RPT_START_ADDR, any number
k of consecutive negative acknowledges is serviced without a failed assertion:
each one issues a START command and writes (slave address << 1) | 1 to the
transmit-data register, and after all of them the state tag is still
SEND_RPT_START_ADDR and the busy flag, the whole transaction record, the
destination word (all of memory), the sleep counters and the pending events
are as before. There is no bound on k. -/
theorem nack_int_retries_without_cap (K : Consts) (k : Nat) (s : Sys)
    (hrw : s.i2c_sm.readWrite = true)
    (hst : s.i2c_sm.current_state = SEND_RPT_START_ADDR) :
    ∃ s', i2c_irqs K (List.replicate k I2C_IRQ.NACK) s = Outcome.ok () s' ∧
      s'.I2C0.CMD = s.I2C0.CMD ++ List.replicate k [I2C_CMD.START] ∧
      s'.I2C0.TXDATA = s.I2C0.TXDATA ++
        List.replicate k (((s.i2c_sm.device_addr <<< 1) % 2 ^ 32) ||| 1) ∧
      s'.i2c_sm.current_state = SEND_RPT_START_ADDR ∧
      s'.i2c_sm.SMbusy = s.i2c_sm.SMbusy ∧
      s'.i2c_sm = s.i2c_sm ∧
      s'.mem = s.mem ∧
      s'.lowest_energy_mode = s.lowest_energy_mode ∧
      s'.event_scheduled = s.event_scheduled ∧ s'.posted = s.posted :=
  ⟨_, i2c_nack_retries_registers K k s hrw hst, rfl, rfl, hst, rfl, rfl, rfl, rfl, rfl, rfl⟩

/-- Claim C28, instance: three negative acknowledges in the read of the sensor
write the read address 0x81 three times. -/
theorem nack_int_retries_without_cap_witness :
    ((readState SEND_RPT_START_ADDR).i2c_sm.readWrite = true ∧
      (readState SEND_RPT_START_ADDR).i2c_sm.current_state = SEND_RPT_START_ADDR) ∧
    ∃ s', i2c_irqs demoConsts (List.replicate 3 I2C_IRQ.NACK) (readState SEND_RPT_START_ADDR) =
        Outcome.ok () s' ∧
      s'.I2C0.TXDATA = [129, 129, 129] ∧
      s'.i2c_sm.current_state = SEND_RPT_START_ADDR ∧ s'.i2c_sm.SMbusy = true :=
  ⟨⟨rfl, rfl⟩,
    (nack_int_retries_without_cap demoConsts 3 (readState SEND_RPT_START_ADDR) rfl rfl).imp
      fun _ h => ⟨h.1, h.2.2.1, h.2.2.2.1, h.2.2.2.2.1⟩⟩

/-- Claim C29. For every prior content of the destination word and all
received bytes a and b below 256: data-received in READ_MS_BYTE with the byte
a sets the destination word to a << 8, issues ACK and moves to READ_LS;
data-received in READ_LS with the byte b then ORs b into the word, issues NACK
and then STOP, and moves to STOP_END. The destination word is then exactly
256 * a + b, and no other word of memory has changed. -/
theorem rxdatav_int_assembles_word (K : Consts) (s : Sys) (a b : Nat)
    (ha : a < 256) (hb : b < 256) (hst : s.i2c_sm.current_state = READ_MS_BYTE) :
    ∃ s1 s2, i2c_irq K (I2C_IRQ.RXDATAV a) s = Outcome.ok () s1 ∧
      s1.mem s.i2c_sm.readData = a <<< 8 ∧
      s1.I2C0.CMD = s.I2C0.CMD ++ [[I2C_CMD.ACK]] ∧
      s1.i2c_sm.current_state = READ_LS ∧
      i2c_irq K (I2C_IRQ.RXDATAV b) s1 = Outcome.ok () s2 ∧
      s2.mem s.i2c_sm.readData = (a <<< 8) ||| b ∧
      s2.I2C0.CMD = s1.I2C0.CMD ++ [[I2C_CMD.NACK], [I2C_CMD.STOP]] ∧
      s2.i2c_sm.current_state = STOP_END ∧
      s2.mem s.i2c_sm.readData = 256 * a + b ∧
      (∀ addr, addr ≠ s.i2c_sm.readData → s2.mem addr = s.mem addr) := by
  have ha32 : (a <<< 8) % 2 ^ 32 = a <<< 8 := by
    rw [Nat.shiftLeft_eq]; omega
  have hsum : (a <<< 8) ||| b = 256 * a + b := by
    rw [Nat.shiftLeft_eq, Nat.mul_comm a (2 ^ 8), ← Nat.mul_add_lt_is_or (by omega : b < 2 ^ 8)]
  refine ⟨_, _, rxdatav_int_ms_byte _ hst, ?_, rfl, rfl, rxdatav_int_ls_byte _ rfl, ?_, rfl, rfl,
    ?_, ?_⟩
  · simp only [Function.update_same]
    exact ha32
  · simp only [Function.update_same, ha32]
  · simp only [Function.update_same, ha32, hsum]
  · intro addr hne
    simp only [Function.update_noteq hne]

/-- Claim C29, instance: the bytes 0xAB and 0xCD received into a destination
word that held 0xFFFFFFFF leave 0xABCD. -/
theorem rxdatav_int_assembles_word_witness :
    (171 < 256 ∧ 205 < 256 ∧
      ({ readState READ_MS_BYTE with mem := fun _ => 4294967295 } : Sys).i2c_sm.current_state =
        READ_MS_BYTE) ∧
    ∃ s1 s2, i2c_irq demoConsts (I2C_IRQ.RXDATAV 171)
        { readState READ_MS_BYTE with mem := fun _ => 4294967295 } = Outcome.ok () s1 ∧
      i2c_irq demoConsts (I2C_IRQ.RXDATAV 205) s1 = Outcome.ok () s2 ∧
      s2.mem 0 = 43981 :=
  ⟨⟨by decide, by decide, rfl⟩,
    (rxdatav_int_assembles_word demoConsts
      { readState READ_MS_BYTE with mem := fun _ => 4294967295 } 171 205
      (by decide) (by decide) rfl).imp fun _ h1 => h1.imp fun _ h =>
        ⟨h.1, h.2.2.2.2.1, h.2.2.2.2.2.2.2.2.1⟩⟩

/-- Claim C30. Bus-stop-complete in STOP_END of a read transaction that holds
its block of the depth I2C_EM_BLOCK (the counter is positive): mstop_int
returns with busy false, counters[I2C_EM_BLOCK] one less than before and the
other counters unchanged, the stored completion event ORed into the pending
set (posted once), the state tag INIT_SEND_ADDR, and memory, the destination
word included, as before. -/
theorem mstop_int_completes_read (K : Consts) (s : Sys)
    (hrw : s.i2c_sm.readWrite = true) (hst : s.i2c_sm.current_state = STOP_END)
    (hlen : I2C_EM_BLOCK K < s.lowest_energy_mode.length)
    (hpos : 0 < s.lowest_energy_mode.getD (I2C_EM_BLOCK K) 0) :
    ∃ s', mstop_int K s = Outcome.ok () s' ∧
      s'.i2c_sm.SMbusy = false ∧
      s'.lowest_energy_mode.getD (I2C_EM_BLOCK K) 0 =
        s.lowest_energy_mode.getD (I2C_EM_BLOCK K) 0 - 1 ∧
      (∀ d, d ≠ I2C_EM_BLOCK K →
        s'.lowest_energy_mode.getD d 0 = s.lowest_energy_mode.getD d 0) ∧
      s'.event_scheduled = s.event_scheduled ||| s.i2c_sm.callback ∧
      s'.posted = s.posted ++ [s.i2c_sm.callback] ∧
      s'.i2c_sm.current_state = INIT_SEND_ADDR ∧
      s'.mem = s.mem := by
  have hc : sleep_unblock_mode (I2C_EM_BLOCK K) s.lowest_energy_mode =
      Outcome.ok () (s.lowest_energy_mode.set (I2C_EM_BLOCK K)
        (s.lowest_energy_mode.getD (I2C_EM_BLOCK K) 0 - 1)) := by
    simp only [sleep_unblock_mode, gt_iff_lt, if_pos hpos, getD_set_self _ _ _ 0 hlen]
    rw [if_pos (by omega)]
  refine ⟨_, mstop_int_stop_end K s _ hrw hst hc, rfl, ?_, fun d hd => ?_, rfl, rfl, rfl, rfl⟩
  · exact getD_set_self _ _ _ 0 hlen
  · exact getD_set_other _ _ _ _ 0 (Ne.symm hd)

/-- Claim C30, instance: the end of the read of the sensor releases the one
block of depth 2 and posts event 8. -/
theorem mstop_int_completes_read_witness :
    ((readState STOP_END).i2c_sm.readWrite = true ∧
      (readState STOP_END).i2c_sm.current_state = STOP_END ∧
      I2C_EM_BLOCK demoConsts < (readState STOP_END).lowest_energy_mode.length ∧
      0 < (readState STOP_END).lowest_energy_mode.getD (I2C_EM_BLOCK demoConsts) 0) ∧
    ∃ s', mstop_int demoConsts (readState STOP_END) = Outcome.ok () s' ∧
      s'.i2c_sm.SMbusy = false ∧
      s'.lowest_energy_mode.getD (I2C_EM_BLOCK demoConsts) 0 = 0 ∧
      s'.event_scheduled = 8 :=
  ⟨⟨rfl, rfl, by decide, by decide⟩,
    (mstop_int_completes_read demoConsts (readState STOP_END) rfl rfl
      (by decide) (by decide)).imp fun _ h =>
        ⟨h.1, h.2.1, h.2.2.1.trans (by decide), h.2.2.2.2.1.trans (by decide)⟩⟩

/-! ## Theorems: the order of the statements in the completion handlers -/

/-- The transmit-complete handler in STOP_CLOSE is its first statement, the
post of the TX-done event, and the statements that follow, in this order. -/
theorem txc_int_through_post (K : Consts) (s : Sys)
    (hst : s.leuart_sm.current_state = STOP_CLOSE) :
    txc_int K s = txc_int_from_post K
      (add_scheduled_event (txc_int_to_post s).tx_done_evt (txc_int_to_post s)) := by
  simp only [txc_int, hst, STOP_CLOSE, INIT_UART, SEND_DATA, txc_int_from_post,
    txc_int_to_post, add_scheduled_event]
  rfl

/-- The bus stop-complete handler in STOP_END of a read is the statements
before the post, the post of the completion event, and the statement that
follows, in this order. -/
theorem mstop_int_through_post (K : Consts) (s : Sys) (hrw : s.i2c_sm.readWrite = true)
    (hst : s.i2c_sm.current_state = STOP_END) :
    mstop_int K s = (mstop_int_to_post K s).bind fun _ s1 =>
      mstop_int_from_post (add_scheduled_event s1.i2c_sm.callback s1) := by
  obtain ⟨c', hc'⟩ := sleep_unblock_mode_returns (I2C_EM_BLOCK K) s.lowest_energy_mode
  rw [mstop_int_stop_end K s c' hrw hst hc']
  simp only [mstop_int_to_post, hc', Outcome.lift, Outcome.bind, mstop_int_from_post,
    add_scheduled_event, Sys.withSleep]

/-- Claim C23, amended. The serial transmit-complete handler in STOP_CLOSE is,
in this order: disable the transmitter, post the TX-done event, and only then
disable the transmit-complete interrupt, release the sleep block, clear the
busy flag and reset the state tag; at the post the transmission record and the
sleep counters are still as on entry. The bus stop-complete handler in
STOP_END of a read is, in this order: clear the busy flag and release the
sleep block, post the completion event, and only then reset the state tag to
INIT_SEND_ADDR; at the post the busy flag is false and the state tag is still
STOP_END. Both handlers return, and when they have returned every one of
these updates is done and the event is pending. -/
theorem completion_handlers_order (K : Consts) (s : Sys) :
    (s.leuart_sm.current_state = STOP_CLOSE →
      txc_int K s = txc_int_from_post K
        (add_scheduled_event (txc_int_to_post s).tx_done_evt (txc_int_to_post s)) ∧
      (txc_int_to_post s).leuart_sm = s.leuart_sm ∧
      (txc_int_to_post s).lowest_energy_mode = s.lowest_energy_mode ∧
      (txc_int_to_post s).LEUART0.IEN_TXC = s.LEUART0.IEN_TXC ∧
      ∃ s', txc_int K s = Outcome.ok () s' ∧
        s'.leuart_sm.SMbusy = false ∧ s'.leuart_sm.current_state = INIT_UART ∧
        s'.LEUART0.IEN_TXC = false ∧
        s'.posted = s.posted ++ [s.tx_done_evt] ∧
        s'.event_scheduled = s.event_scheduled ||| s.tx_done_evt) ∧
    (s.i2c_sm.readWrite = true → s.i2c_sm.current_state = STOP_END →
      mstop_int K s = ((mstop_int_to_post K s).bind fun _ s1 =>
        mstop_int_from_post (add_scheduled_event s1.i2c_sm.callback s1)) ∧
      ∃ s1 s', mstop_int_to_post K s = Outcome.ok () s1 ∧
        s1.i2c_sm.SMbusy = false ∧
        sleep_unblock_mode (I2C_EM_BLOCK K) s.lowest_energy_mode =
          Outcome.ok () s1.lowest_energy_mode ∧
        s1.i2c_sm.current_state = STOP_END ∧
        s1.posted = s.posted ∧
        mstop_int K s = Outcome.ok () s' ∧
        s'.i2c_sm.SMbusy = false ∧ s'.i2c_sm.current_state = INIT_SEND_ADDR ∧
        s'.lowest_energy_mode = s1.lowest_energy_mode ∧
        s'.posted = s.posted ++ [s.i2c_sm.callback] ∧
        s'.event_scheduled = s.event_scheduled ||| s.i2c_sm.callback) := by
  refine ⟨fun hst => ⟨txc_int_through_post K s hst, rfl, rfl, rfl, ?_⟩, fun hrw hst =>
    ⟨mstop_int_through_post K s hrw hst, ?_⟩⟩
  · obtain ⟨c', hc'⟩ := sleep_unblock_mode_returns K.LEUART_TX_EM s.lowest_energy_mode
    refine ⟨{ s with
      LEUART0 := { s.LEUART0 with
        CMD := s.LEUART0.CMD ++ [LEUART_CMD.TXDIS], IEN_TXC := false },
      event_scheduled := s.event_scheduled ||| s.tx_done_evt,
      posted := s.posted ++ [s.tx_done_evt],
      lowest_energy_mode := c',
      leuart_sm := { s.leuart_sm with SMbusy := false, current_state := INIT_UART } },
      ?_, rfl, rfl, rfl, rfl, rfl⟩
    rw [txc_int_through_post K s hst]
    simp only [txc_int_from_post, txc_int_to_post, add_scheduled_event, hc', Outcome.lift,
      Outcome.bind, Sys.withSleep]
  · obtain ⟨c', hc'⟩ := sleep_unblock_mode_returns (I2C_EM_BLOCK K) s.lowest_energy_mode
    refine ⟨{ s with i2c_sm := { s.i2c_sm with SMbusy := false }, lowest_energy_mode := c' }, _,
      ?_, rfl, hc', hst, rfl, mstop_int_stop_end K s c' hrw hst hc', rfl, rfl, rfl, rfl, rfl⟩
    simp only [mstop_int_to_post, hc', Outcome.lift, Sys.withSleep]

/-- Claim C23, counterexample to the statement as written: at the end of a
transmission, right after txc_int has posted the TX-done event the busy flag
is still true and the sleep block is still held; they are cleared by the
statements that follow the post. -/
theorem txc_int_posts_while_busy :
    closingState.leuart_sm.current_state = STOP_CLOSE ∧
    txc_int demoConsts closingState = txc_int_from_post demoConsts
      (add_scheduled_event (txc_int_to_post closingState).tx_done_evt
        (txc_int_to_post closingState)) ∧
    (add_scheduled_event (txc_int_to_post closingState).tx_done_evt
      (txc_int_to_post closingState)).posted = [32] ∧
    (add_scheduled_event (txc_int_to_post closingState).tx_done_evt
      (txc_int_to_post closingState)).leuart_sm.SMbusy = true ∧
    (add_scheduled_event (txc_int_to_post closingState).tx_done_evt
      (txc_int_to_post closingState)).lowest_energy_mode = [0, 0, 0, 1, 0] ∧
    ((txc_int demoConsts closingState).state.map
      fun s => (s.leuart_sm.SMbusy, s.lowest_energy_mode, s.posted)) =
        some (false, [0, 0, 0, 0, 0], [32]) :=
  ⟨rfl, rfl, rfl, rfl, rfl, rfl⟩

/-! ## Theorems: leuart.c -/

theorem leuart_irqs_append (K : Consts) (l1 l2 : List LEUART_IRQ) :
    ∀ s : Sys, leuart_irqs K (l1 ++ l2) s =
      (leuart_irqs K l1 s).bind fun _ s1 => leuart_irqs K l2 s1 := by
  induction l1 with
  | nil => intro s; rfl
  | cons e es ih =>
    intro s
    simp only [List.cons_append, leuart_irqs]
    cases leuart_irq K e s with
    | ok a s1 => exact ih s1
    | fatal s1 => rfl
    | diverge => rfl

theorem txbl_irq_arms (K : Consts) (t : Sys) (hst : t.leuart_sm.current_state = INIT_UART)
    (hien : t.LEUART0.IEN_TXBL = true) :
    leuart_irq K LEUART_IRQ.TXBL t =
      Outcome.ok () { t with leuart_sm := { t.leuart_sm with current_state := SEND_DATA } } := by
  simp [leuart_irq, LEUART0_IRQHandler, txbl_int, hst, hien, Outcome.bind]

theorem txbl_irq_sends (K : Consts) (t : Sys) (hst : t.leuart_sm.current_state = SEND_DATA)
    (hien : t.LEUART0.IEN_TXBL = true) (hlt : t.leuart_sm.count + 1 < t.leuart_sm.length)
    (hlen : t.leuart_sm.length < 2 ^ 32) :
    leuart_irq K LEUART_IRQ.TXBL t = Outcome.ok () { t with
      LEUART0 := { t.LEUART0 with
        TXDATA := t.LEUART0.TXDATA ++ [t.leuart_sm.output.getD t.leuart_sm.count 0] },
      leuart_sm := { t.leuart_sm with count := t.leuart_sm.count + 1 } } := by
  have h1 : (t.leuart_sm.count + 1) % 2 ^ 32 = t.leuart_sm.count + 1 := by omega
  have h2 : ¬ (t.leuart_sm.count + 1 = t.leuart_sm.length) := by omega
  simp only [leuart_irq, LEUART0_IRQHandler, txbl_int, hst, hien, Outcome.bind, h1, if_neg h2]
  simp [INIT_UART, SEND_DATA]

theorem txbl_irq_sends_last (K : Consts) (t : Sys)
    (hst : t.leuart_sm.current_state = SEND_DATA)
    (hien : t.LEUART0.IEN_TXBL = true) (hlt : t.leuart_sm.count + 1 = t.leuart_sm.length)
    (hlen : t.leuart_sm.length < 2 ^ 32) :
    leuart_irq K LEUART_IRQ.TXBL t = Outcome.ok () { t with
      LEUART0 := { t.LEUART0 with
        TXDATA := t.LEUART0.TXDATA ++ [t.leuart_sm.output.getD t.leuart_sm.count 0],
        IEN_TXBL := false, IEN_TXC := true },
      leuart_sm := { t.leuart_sm with
        count := t.leuart_sm.count + 1, current_state := STOP_CLOSE } } := by
  have h1 : (t.leuart_sm.count + 1) % 2 ^ 32 = t.leuart_sm.count + 1 := by omega
  simp only [leuart_irq, LEUART0_IRQHandler, txbl_int, hst, hien, Outcome.bind, h1, if_pos hlt]
  simp [INIT_UART, SEND_DATA]

theorem txbl_irqs_send (K : Consts) :
    ∀ (j : Nat) (t : Sys), t.leuart_sm.current_state = SEND_DATA →
      t.LEUART0.IEN_TXBL = true → t.leuart_sm.count + j < t.leuart_sm.length →
      t.leuart_sm.length < 2 ^ 32 →
      leuart_irqs K (List.replicate j LEUART_IRQ.TXBL) t = Outcome.ok () { t with
        LEUART0 := { t.LEUART0 with
          TXDATA := t.LEUART0.TXDATA ++
            (List.range j).map fun i => t.leuart_sm.output.getD (t.leuart_sm.count + i) 0 },
        leuart_sm := { t.leuart_sm with count := t.leuart_sm.count + j } } := by
  intro j
  induction j with
  | zero => intro t _ _ _ _; simp [leuart_irqs]
  | succ j ih =>
    intro t hst hien hlt hlen
    rw [List.replicate_succ, leuart_irqs, txbl_irq_sends K t hst hien (by omega) hlen]
    simp only [Outcome.bind]
    rw [ih]
    · have e1 : ∀ (c : Nat) (o : List Nat),
          [o.getD c 0] ++ (List.range j).map (fun i => o.getD (c + (1 + i)) 0) =
            (List.range (j + 1)).map (fun i => o.getD (c + i) 0) := by
        intro c o
        rw [List.range_succ_eq_map]
        simp [Function.comp, Nat.add_assoc, Nat.add_comm 1]
      simp only [List.append_assoc, Nat.add_assoc, Nat.add_comm 1 j, e1]
    · exact hst
    · exact hien
    · simp only []; omega
    · exact hlen

theorem txc_irq_finishes (K : Consts) (t : Sys) (c' : List Int)
    (hst : t.leuart_sm.current_state = STOP_CLOSE) (hien : t.LEUART0.IEN_TXC = true)
    (hc : sleep_unblock_mode K.LEUART_TX_EM t.lowest_energy_mode = Outcome.ok () c') :
    leuart_irq K LEUART_IRQ.TXC t = Outcome.ok () { t with
      LEUART0 := { t.LEUART0 with
        CMD := t.LEUART0.CMD ++ [LEUART_CMD.TXDIS], IEN_TXC := false },
      event_scheduled := t.event_scheduled ||| t.tx_done_evt,
      posted := t.posted ++ [t.tx_done_evt],
      lowest_energy_mode := c',
      leuart_sm := { t.leuart_sm with SMbusy := false, current_state := INIT_UART } } := by
  simp [leuart_irq, LEUART0_IRQHandler, txc_int, hst, hien, Outcome.bind, Outcome.lift, hc,
    Sys.withSleep, add_scheduled_event, INIT_UART, SEND_DATA, STOP_CLOSE]

theorem leuart_start_returns (K : Consts) (s : Sys) (leuart : Nat) (string : List Nat)
    (string_len : Nat) (hidle : s.leuart_sm.SMbusy = false)
    (hEM : K.LEUART_TX_EM < s.lowest_energy_mode.length)
    (hblock : s.lowest_energy_mode.getD K.LEUART_TX_EM 0 < 4) :
    leuart_start K leuart string string_len s = Outcome.ok () { s with
      leuart_sm := { s.leuart_sm with
        leuart := leuart, length := string_len % 2 ^ 32, count := 0,
        output := strcpy s.leuart_sm.output string, SMbusy := true },
      lowest_energy_mode := s.lowest_energy_mode.set K.LEUART_TX_EM
        (s.lowest_energy_mode.getD K.LEUART_TX_EM 0 + 1),
      LEUART0 := { s.LEUART0 with
        CMD := s.LEUART0.CMD ++ [LEUART_CMD.TXEN], IEN_TXBL := true } } := by
  have hblk : sleep_block_mode K.LEUART_TX_EM s.lowest_energy_mode = Outcome.ok ()
      (s.lowest_energy_mode.set K.LEUART_TX_EM
        (s.lowest_energy_mode.getD K.LEUART_TX_EM 0 + 1)) := by
    simp only [sleep_block_mode, getD_set_self _ _ _ 0 hEM]
    rw [if_pos (by omega)]
  simp only [leuart_start, leuart_tx_busy, hidle, Bool.false_eq_true, if_false, hblk,
    Outcome.lift, Outcome.bind, Sys.withSleep]

theorem txbl_irqs_before_last (K : Consts) (t : Sys) (j : Nat)
    (hst : t.leuart_sm.current_state = INIT_UART) (hien : t.LEUART0.IEN_TXBL = true)
    (hcount : t.leuart_sm.count = 0) (hlen : t.leuart_sm.length < 2 ^ 32)
    (hj : j < t.leuart_sm.length) :
    leuart_irqs K (List.replicate (j + 1) LEUART_IRQ.TXBL) t = Outcome.ok () { t with
      LEUART0 := { t.LEUART0 with
        TXDATA := t.LEUART0.TXDATA ++
          (List.range j).map fun i => t.leuart_sm.output.getD i 0 },
      leuart_sm := { t.leuart_sm with count := j, current_state := SEND_DATA } } := by
  rw [List.replicate_succ, leuart_irqs, txbl_irq_arms K t hst hien]
  simp only [Outcome.bind]
  rw [txbl_irqs_send K j]
  · simp only [hcount, Nat.zero_add]
  · rfl
  · exact hien
  · simp only [hcount]; omega
  · exact hlen

theorem txbl_irqs_all (K : Consts) (t : Sys)
    (hst : t.leuart_sm.current_state = INIT_UART) (hien : t.LEUART0.IEN_TXBL = true)
    (hcount : t.leuart_sm.count = 0) (hlen : t.leuart_sm.length < 2 ^ 32)
    (hpos : 1 ≤ t.leuart_sm.length) :
    leuart_irqs K (List.replicate (t.leuart_sm.length + 1) LEUART_IRQ.TXBL) t =
      Outcome.ok () { t with
        LEUART0 := { t.LEUART0 with
          TXDATA := t.LEUART0.TXDATA ++
            (List.range t.leuart_sm.length).map fun i => t.leuart_sm.output.getD i 0,
          IEN_TXBL := false, IEN_TXC := true },
        leuart_sm := { t.leuart_sm with
          count := t.leuart_sm.length, current_state := STOP_CLOSE } } := by
  obtain ⟨m, hm⟩ : ∃ m, t.leuart_sm.length = m + 1 := ⟨t.leuart_sm.length - 1, by omega⟩
  rw [hm, List.replicate_succ', leuart_irqs_append,
    txbl_irqs_before_last K t m hst hien hcount hlen (by omega)]
  simp only [Outcome.bind, leuart_irqs]
  rw [txbl_irq_sends_last K]
  · simp only [List.range_succ, List.map_append, List.map_cons, List.map_nil, List.append_assoc]
  · rfl
  · exact hien
  · simp only [hm]
  · exact hlen

/-- C5. Serial transmit sequencing. A transmission of `n >= 1` bytes started by
`leuart_start` from the state `INIT_UART` (engine idle, sleep counter below its
bound) consumes exactly `n + 1` buffer-empty interrupts before it reaches
`STOP_CLOSE`: after `j + 1` of them with `j < n` the engine is in `SEND_DATA`
with index `j` and `j` bytes written (so the first only arms `SEND_DATA` and
each later one writes one byte and advances the index), and after `n + 1` it is
in `STOP_CLOSE` with `TXBL` disabled and `TXC` enabled. One transmit-complete
interrupt then finishes the transmission: busy is cleared, the state is
`INIT_UART` again and the TX-done event has been posted exactly once. -/
theorem leuart_transmit_sequencing (K : Consts) (s : Sys) (leuart : Nat) (string : List Nat)
    (n : Nat) (hn : 1 ≤ n) (hn32 : n < 2 ^ 32)
    (hidle : s.leuart_sm.SMbusy = false)
    (hinit : s.leuart_sm.current_state = INIT_UART)
    (hEM : K.LEUART_TX_EM < s.lowest_energy_mode.length)
    (hblock : s.lowest_energy_mode.getD K.LEUART_TX_EM 0 < 4) :
    ∃ s0, leuart_start K leuart string n s = Outcome.ok () s0 ∧
      s0.leuart_sm.current_state = INIT_UART ∧ s0.leuart_sm.SMbusy = true ∧
      s0.LEUART0.IEN_TXBL = true ∧
      (∀ j, j < n → ∃ sj,
        leuart_irqs K (List.replicate (j + 1) LEUART_IRQ.TXBL) s0 = Outcome.ok () sj ∧
        sj.leuart_sm.current_state = SEND_DATA ∧
        sj.leuart_sm.count = j ∧
        sj.LEUART0.TXDATA = s.LEUART0.TXDATA ++
          (List.range j).map (fun i => s0.leuart_sm.output.getD i 0) ∧
        sj.LEUART0.IEN_TXBL = true ∧
        sj.leuart_sm.SMbusy = true ∧
        sj.posted = s.posted) ∧
      ∃ s1 s2,
        leuart_irqs K (List.replicate (n + 1) LEUART_IRQ.TXBL) s0 = Outcome.ok () s1 ∧
        s1.leuart_sm.current_state = STOP_CLOSE ∧
        s1.leuart_sm.count = n ∧
        s1.LEUART0.TXDATA = s.LEUART0.TXDATA ++
          (List.range n).map (fun i => s0.leuart_sm.output.getD i 0) ∧
        s1.LEUART0.IEN_TXBL = false ∧ s1.LEUART0.IEN_TXC = true ∧
        s1.leuart_sm.SMbusy = true ∧
        s1.posted = s.posted ∧
        leuart_irq K LEUART_IRQ.TXC s1 = Outcome.ok () s2 ∧
        s2.posted = s.posted ++ [s.tx_done_evt] ∧
        s2.event_scheduled = s.event_scheduled ||| s.tx_done_evt ∧
        s2.leuart_sm.SMbusy = false ∧
        s2.leuart_sm.current_state = INIT_UART ∧
        s2.LEUART0.TXDATA = s1.LEUART0.TXDATA := by
  have hmod : n % 2 ^ 32 = n := Nat.mod_eq_of_lt hn32
  have hstart := leuart_start_returns K s leuart string n hidle hEM hblock
  rw [hmod] at hstart
  refine ⟨_, hstart, hinit, rfl, rfl, ?_, ?_⟩
  · intro j hj
    exact ⟨_, txbl_irqs_before_last K _ j hinit rfl rfl hn32 hj, rfl, rfl, rfl, rfl, rfl, rfl⟩
  · obtain ⟨c', hc'⟩ := sleep_unblock_mode_returns K.LEUART_TX_EM
      (s.lowest_energy_mode.set K.LEUART_TX_EM (s.lowest_energy_mode.getD K.LEUART_TX_EM 0 + 1))
    exact ⟨_, _, txbl_irqs_all K _ hinit rfl rfl hn32 hn, rfl, rfl, rfl, rfl, rfl, rfl, rfl,
      txc_irq_finishes K _ c' rfl rfl hc', rfl, rfl, rfl, rfl, rfl⟩

theorem strcpy_at_length : ∀ (src : List Nat) (i : Nat) (dst : List Nat),
    (strcpy_at src i dst).length = dst.length := by
  intro src
  induction src with
  | nil => intro i dst; simp [strcpy_at]
  | cons c cs ih =>
    intro i dst
    by_cases hc : c = 0
    · simp [strcpy_at, hc]
    · simp [strcpy_at, hc, ih]

theorem strlen_cons_nonzero (c : Nat) (cs : List Nat) (hc : c ≠ 0) :
    strlen (c :: cs) = strlen cs + 1 := by
  simp [strlen, List.takeWhile_cons, hc]

theorem strlen_cons_zero (cs : List Nat) : strlen (0 :: cs) = 0 := by
  simp [strlen, List.takeWhile_cons]

theorem strcpy_at_getD : ∀ (src : List Nat) (i : Nat) (dst : List Nat) (j : Nat),
    i + strlen src < dst.length →
    (strcpy_at src i dst).getD j 0 =
      if i ≤ j ∧ j ≤ i + strlen src then src.getD (j - i) 0 else dst.getD j 0 := by
  intro src
  induction src with
  | nil =>
    intro i dst j h
    simp only [strcpy_at, strlen, List.takeWhile_nil, List.length_nil, Nat.add_zero] at h ⊢
    by_cases hj : j = i
    · subst hj
      rw [getD_set_self dst j 0 0 h]
      simp
    · rw [getD_set_other dst i j 0 0 (Ne.symm hj), if_neg (by omega)]
  | cons c cs ih =>
    intro i dst j h
    by_cases hc : c = 0
    · subst hc
      rw [strlen_cons_zero] at h ⊢
      simp only [strcpy_at, if_true, Nat.add_zero]
      by_cases hj : j = i
      · subst hj
        rw [getD_set_self dst j 0 0 (by omega)]
        simp
      · rw [getD_set_other dst i j 0 0 (Ne.symm hj), if_neg (by omega)]
    · rw [strlen_cons_nonzero c cs hc] at h ⊢
      simp only [strcpy_at, if_neg hc]
      rw [ih (i + 1) (dst.set i c) j (by simp only [List.length_set]; omega)]
      by_cases hj : j = i
      · subst hj
        rw [if_neg (by omega), if_pos (by omega), getD_set_self dst j c 0 (by omega)]
        simp
      · rw [getD_set_other dst i j c 0 (Ne.symm hj)]
        by_cases hlt : i + 1 ≤ j ∧ j ≤ i + 1 + strlen cs
        · rw [if_pos hlt, if_pos (by omega)]
          obtain ⟨m, hm⟩ : ∃ m, j - i = m + 1 := ⟨j - i - 1, by omega⟩
          rw [hm, show j - (i + 1) = m by omega]
          simp
        · rw [if_neg hlt, if_neg (by omega)]

theorem strcpy_getD (dst src : List Nat) (j : Nat) (hfit : strlen src + 1 ≤ dst.length)
    (hj : j ≤ strlen src) : (strcpy dst src).getD j 0 = src.getD j 0 := by
  rw [strcpy, strcpy_at_getD src 0 dst j (by omega), if_pos (by omega), Nat.sub_zero]

/-- C6, counterexample. The copy is a `strcpy`: it stops at the first NUL. With
the bytes 65, 0, 66 and length 3 (inside the 80-cell buffer) the internal
buffer holds 65, 0, 0 and these three values, not 65, 0, 66, are written to the
transmit-data register. -/
theorem leuart_start_stops_at_nul :
    ∃ s0 s1, leuart_start demoConsts 0 [65, 0, 66] 3 bootState = Outcome.ok () s0 ∧
      s0.leuart_sm.output.take 3 = [65, 0, 0] ∧
      s0.leuart_sm.output.take 3 ≠ [65, 0, 66] ∧
      leuart_irqs demoConsts (List.replicate 4 LEUART_IRQ.TXBL) s0 = Outcome.ok () s1 ∧
      s1.leuart_sm.current_state = STOP_CLOSE ∧
      s1.LEUART0.TXDATA = [65, 0, 0] ∧
      s1.LEUART0.TXDATA ≠ [65, 0, 66] :=
  ⟨_, _, rfl, by decide, by decide, rfl, by decide, by decide, by decide⟩

/-- C6, as amended. For a string whose copy with its terminating NUL fits the
internal buffer, and a length `n >= 1` that does not reach beyond that NUL
(`n <= strlen + 1`), `leuart_start` leaves `string[0..n)` in the first `n`
cells of the internal buffer, and the `n + 1` buffer-empty interrupts of the
transmission write exactly `string[0], ..., string[n-1]`, in order, to the
transmit-data register. -/
theorem leuart_start_copies_string (K : Consts) (s : Sys) (leuart : Nat) (string : List Nat)
    (n : Nat) (hn : 1 ≤ n) (hn32 : n < 2 ^ 32)
    (hidle : s.leuart_sm.SMbusy = false)
    (hinit : s.leuart_sm.current_state = INIT_UART)
    (hEM : K.LEUART_TX_EM < s.lowest_energy_mode.length)
    (hblock : s.lowest_energy_mode.getD K.LEUART_TX_EM 0 < 4)
    (hfit : strlen string + 1 ≤ s.leuart_sm.output.length)
    (hnul : n ≤ strlen string + 1) :
    ∃ s0 s1, leuart_start K leuart string n s = Outcome.ok () s0 ∧
      (∀ i, i < n → s0.leuart_sm.output.getD i 0 = string.getD i 0) ∧
      leuart_irqs K (List.replicate (n + 1) LEUART_IRQ.TXBL) s0 = Outcome.ok () s1 ∧
      s1.leuart_sm.current_state = STOP_CLOSE ∧
      s1.LEUART0.TXDATA = s.LEUART0.TXDATA ++ (List.range n).map (fun i => string.getD i 0) := by
  have hmod : n % 2 ^ 32 = n := Nat.mod_eq_of_lt hn32
  have hstart := leuart_start_returns K s leuart string n hidle hEM hblock
  rw [hmod] at hstart
  have hcopy : ∀ i, i < n → (strcpy s.leuart_sm.output string).getD i 0 = string.getD i 0 :=
    fun i hi => strcpy_getD s.leuart_sm.output string i hfit (by omega)
  refine ⟨_, _, hstart, hcopy, txbl_irqs_all K _ hinit rfl rfl hn32 hn, rfl, ?_⟩
  simp only []
  congr 1
  apply List.map_congr_left
  intro i hi
  exact hcopy i (List.mem_range.mp hi)


/-! ## Theorems: ble.c -/

theorem and_mask_eq_mod (x : Nat) : x &&& 63 = x % 64 :=
  Nat.and_pow_two_sub_one_eq_mod x 6

theorem ble_circ_space_eq (b : BLE_CIRCULAR_BUF) (h : Initialised b) :
    ble_circ_space b = 64 - (b.write_ptr + 64 - b.read_ptr) % 64 := by
  obtain ⟨_, hs, hm, hr, hw⟩ := h
  have hs' : b.size = 64 := hs
  have hm' : b.size_mask = 63 := hm
  have hr' : b.read_ptr < 64 := hr
  have hw' : b.write_ptr < 64 := hw
  simp only [ble_circ_space, hs', hm', and_mask_eq_mod]
  omega

theorem update_circ_wrtindex_one (b : BLE_CIRCULAR_BUF) (hm : b.size_mask = 63) :
    update_circ_wrtindex b 1 = { b with write_ptr := (b.write_ptr + 1) % 64 } := by
  simp only [update_circ_wrtindex, hm, and_mask_eq_mod]
  congr 1
  omega

theorem update_circ_readindex_one (b : BLE_CIRCULAR_BUF) (hm : b.size_mask = 63) :
    update_circ_readindex b 1 = { b with read_ptr := (b.read_ptr + 1) % 64 } := by
  simp only [update_circ_readindex, hm, and_mask_eq_mod]
  congr 1
  omega

/-- The `while` loop of `ble_circ_push` with `m` bytes left to copy. -/
theorem ble_circ_push_loop_spec (string : List Nat) (length : Nat) (hlen : length ≤ 255) :
    ∀ (m fuel n : Nat) (b : BLE_CIRCULAR_BUF), n + m = length → m < fuel → m ≤ 64 →
      b.size_mask = 63 → b.cbuf.length = 64 → b.write_ptr < 64 →
      ∃ b', ble_circ_push_loop string length fuel n b = Outcome.ok () b' ∧
        b'.cbuf.length = 64 ∧ b'.size = b.size ∧ b'.size_mask = 63 ∧
        b'.read_ptr = b.read_ptr ∧ b'.write_ptr = (b.write_ptr + m) % 64 ∧
        (∀ i, i < m → b'.cbuf.getD ((b.write_ptr + i) % 64) 0 = string.getD (n + i) 0) ∧
        (∀ pos, (∀ i, i < m → pos ≠ (b.write_ptr + i) % 64) →
          b'.cbuf.getD pos 0 = b.cbuf.getD pos 0) := by
  intro m
  induction m with
  | zero =>
    intro fuel n b hn hf _ hmask hcl hw
    obtain ⟨f, rfl⟩ : ∃ f, fuel = f + 1 := ⟨fuel - 1, by omega⟩
    refine ⟨b, ?_, hcl, rfl, hmask, rfl, by omega, fun i hi => by omega, fun _ _ => rfl⟩
    simp only [ble_circ_push_loop]
    rw [if_neg (by omega)]
  | succ m ih =>
    intro fuel n b hn hf hm64 hmask hcl hw
    obtain ⟨f, rfl⟩ : ∃ f, fuel = f + 1 := ⟨fuel - 1, by omega⟩
    have hstep : ble_circ_push_loop string length (f + 1) n b =
        ble_circ_push_loop string length f (n + 1)
          { b with cbuf := b.cbuf.set b.write_ptr (string.getD n 0),
                   write_ptr := (b.write_ptr + 1) % 64 } := by
      simp only [ble_circ_push_loop]
      rw [if_pos (by omega), update_circ_wrtindex_one,
        show (n + 1) % 256 = n + 1 by omega]
      exact hmask
    obtain ⟨b', h0, h1, h2, h3, h4, h5, h6, h7⟩ := ih f (n + 1)
      { b with cbuf := b.cbuf.set b.write_ptr (string.getD n 0),
               write_ptr := (b.write_ptr + 1) % 64 }
      (by omega) (by omega) (by omega) hmask (by simp [hcl]) (by simp only []; omega)
    simp only [] at h2 h4 h5 h6 h7
    refine ⟨b', hstep.trans h0, h1, h2, h3, h4, by rw [h5]; omega, ?_, ?_⟩
    · intro i hi
      cases i with
      | zero =>
        rw [h7 _ (fun i hi => by omega), Nat.add_zero, Nat.mod_eq_of_lt hw, Nat.add_zero]
        exact getD_set_self b.cbuf b.write_ptr _ 0 (by omega)
      | succ i =>
        have := h6 i (by omega)
        rw [show ((b.write_ptr + 1) % 64 + i) % 64 = (b.write_ptr + (i + 1)) % 64 by omega,
          show n + 1 + i = n + (i + 1) by omega] at this
        exact this
    · intro pos hpos
      rw [h7 pos (fun i hi => by
        have := hpos (i + 1) (by omega)
        omega)]
      have h0' := hpos 0 (by omega)
      rw [Nat.add_zero, Nat.mod_eq_of_lt hw] at h0'
      exact getD_set_other b.cbuf b.write_ptr pos _ 0 (Ne.symm h0')

theorem strlen_eq_length (p : List Nat) (h : ∀ x ∈ p, x ≠ 0) : strlen p = p.length := by
  induction p with
  | nil => rfl
  | cons c cs ih =>
    rw [strlen_cons_nonzero c cs (h c (List.mem_cons_self c cs)),
      ih (fun x hx => h x (List.mem_cons_of_mem c hx)), List.length_cons]

theorem getD_append_left {α : Type} (l1 l2 : List α) (i : Nat) (d : α) (h : i < l1.length) :
    (l1 ++ l2).getD i d = l1.getD i d := by
  simp [List.getD_eq_getElem?_getD, List.getElem?_append_left h]

theorem getD_append_right {α : Type} (l1 l2 : List α) (i : Nat) (d : α) :
    (l1 ++ l2).getD (l1.length + i) d = l2.getD i d := by
  simp [List.getD_eq_getElem?_getD, List.getElem?_append_right]

theorem ble_circ_push_holds (p bytes : List Nat) (b : BLE_CIRCULAR_BUF)
    (hinit : Initialised b) (hb : Holds b bytes) (hnul : ∀ x ∈ p, x ≠ 0)
    (hfit : bytes.length + (p.length + 1) < 64) :
    ∃ b', ble_circ_push p b = Outcome.ok () b' ∧ Initialised b' ∧
      Holds b' (bytes ++ frame p) ∧ b'.read_ptr = b.read_ptr ∧
      ble_circ_space b' + (p.length + 1) = ble_circ_space b := by
  obtain ⟨hcl, hs, hm, hr, hw⟩ := hinit
  have hcl' : b.cbuf.length = 64 := hcl
  have hs' : b.size = 64 := hs
  have hm' : b.size_mask = 63 := hm
  have hr' : b.read_ptr < 64 := hr
  have hw' : b.write_ptr < 64 := hw
  obtain ⟨hlen, hwp, hcont⟩ := hb
  have hstr : strlen p % 2 ^ 32 = p.length := by
    rw [strlen_eq_length p hnul]; omega
  obtain ⟨b', h0, h1, h2, h3, h4, h5, h6, h7⟩ := ble_circ_push_loop_spec p p.length (by omega)
    p.length 256 0
    { b with cbuf := b.cbuf.set b.write_ptr ((p.length + 1) % 256),
             write_ptr := (b.write_ptr + 1) % 64 }
    (by omega) (by omega) (by omega) hm' (by simp [hcl']) (by simp only []; omega)
  simp only [] at h2 h4 h5 h6 h7
  have hinit' : Initialised b' :=
    ⟨h1, h2.trans hs, h3, by rw [h4]; exact hr, by rw [h5]; exact Nat.mod_lt _ (by decide)⟩
  have hpush : ble_circ_push p b = Outcome.ok () b' := by
    simp only [ble_circ_push, hstr]
    rw [if_neg (Nat.not_lt_zero _), update_circ_wrtindex_one]
    · exact h0
    · exact hm'
  refine ⟨b', hpush, hinit', ⟨?_, ?_, ?_⟩, h4, ?_⟩
  · simp only [List.length_append, frame, List.length_cons]; omega
  · simp only [List.length_append, frame, List.length_cons]
    rw [h5, h4, hwp]; omega
  · intro i hi
    simp only [List.length_append, frame, List.length_cons] at hi
    rw [h4]
    by_cases hlt : i < bytes.length
    · rw [getD_append_left _ _ _ _ hlt, ← hcont i hlt, h7 _ (fun k hk => by omega)]
      exact getD_set_other _ _ _ _ 0 (by omega)
    · obtain ⟨k, rfl⟩ : ∃ k, i = bytes.length + k := ⟨i - bytes.length, by omega⟩
      rw [getD_append_right]
      cases k with
      | zero =>
        have e : (b.read_ptr + (bytes.length + 0)) % 64 = b.write_ptr := by omega
        rw [h7 _ (fun k hk => by omega), e, frame, List.getD_cons_zero,
          getD_set_self _ _ _ 0 (by omega)]
        omega
      | succ k =>
        have := h6 k (by omega)
        rw [Nat.zero_add] at this
        rw [frame, List.getD_cons_succ, ← this]
        congr 1
        omega
  · rw [ble_circ_space_eq b' hinit', ble_circ_space_eq b ⟨hcl, hs, hm, hr, hw⟩, h4, h5, hwp]
    omega

theorem ble_circ_pop_loop_total (length : Nat) :
    ∀ (m fuel n : Nat) (dst : List Nat) (b : BLE_CIRCULAR_BUF),
      length ≤ n + m + 1 → m < fuel → n + m ≤ 255 →
      ∃ r, ble_circ_pop_loop length fuel n dst b = some r := by
  intro m
  induction m with
  | zero =>
    intro fuel n dst b h1 h2 _
    obtain ⟨f, rfl⟩ : ∃ f, fuel = f + 1 := ⟨fuel - 1, by omega⟩
    simp only [ble_circ_pop_loop]
    rw [if_neg (by omega)]
    exact ⟨_, rfl⟩
  | succ m ih =>
    intro fuel n dst b h1 h2 h3
    obtain ⟨f, rfl⟩ : ∃ f, fuel = f + 1 := ⟨fuel - 1, by omega⟩
    simp only [ble_circ_pop_loop]
    by_cases hc : (n : Int) < (length : Int) - 1
    · rw [if_pos hc, show (n + 1) % 256 = n + 1 by omega]
      exact ih f (n + 1) _ _ (by omega) (by omega) (by omega)
    · rw [if_neg hc]
      exact ⟨_, rfl⟩

/-- The `while` loop of `ble_circ_pop` with `m` bytes left to copy. -/
theorem ble_circ_pop_loop_spec (length : Nat) (hlen : length ≤ 255) :
    ∀ (m fuel n : Nat) (dst : List Nat) (b : BLE_CIRCULAR_BUF),
      n + m + 1 = length → m < fuel → b.size_mask = 63 → b.read_ptr < 64 →
      n + m ≤ dst.length →
      ∃ dst', ble_circ_pop_loop length fuel n dst b =
          some (n + m, dst', { b with read_ptr := (b.read_ptr + m) % 64 }) ∧
        dst'.length = dst.length ∧
        (∀ i, i < m → n + i < dst.length →
          dst'.getD (n + i) 0 = b.cbuf.getD ((b.read_ptr + i) % 64) 0) ∧
        (∀ j, j < n ∨ n + m ≤ j → dst'.getD j 0 = dst.getD j 0) := by
  intro m
  induction m with
  | zero =>
    intro fuel n dst b hn hf _ hr _
    obtain ⟨f, rfl⟩ : ∃ f, fuel = f + 1 := ⟨fuel - 1, by omega⟩
    refine ⟨dst, ?_, rfl, fun i hi => by omega, fun _ _ => rfl⟩
    simp only [ble_circ_pop_loop]
    rw [if_neg (by omega)]
    simp only [Nat.add_zero, Nat.mod_eq_of_lt hr]
  | succ m ih =>
    intro fuel n dst b hn hf hmask hr hin
    obtain ⟨f, rfl⟩ : ∃ f, fuel = f + 1 := ⟨fuel - 1, by omega⟩
    have hstore : array_store dst n (b.cbuf.getD b.read_ptr 0) =
        dst.set n (b.cbuf.getD b.read_ptr 0) := if_pos (by omega)
    obtain ⟨dst', h0, h1, h2, h3⟩ := ih f (n + 1) (dst.set n (b.cbuf.getD b.read_ptr 0))
      { b with read_ptr := (b.read_ptr + 1) % 64 } (by omega) (by omega) hmask
      (Nat.mod_lt _ (by decide)) (by rw [List.length_set]; omega)
    simp only [] at h0 h2
    refine ⟨dst', ?_, by rw [h1, List.length_set], ?_, ?_⟩
    · simp only [ble_circ_pop_loop]
      rw [if_pos (by omega), show (n + 1) % 256 = n + 1 by omega, hstore,
        update_circ_readindex_one, h0]
      · simp only [Option.some.injEq, Prod.mk.injEq, true_and]
        refine ⟨by omega, ?_⟩
        congr 1
        omega
      · exact hmask
    · intro i hi hlt
      cases i with
      | zero =>
        rw [Nat.add_zero, h3 n (Or.inl (by omega)), Nat.add_zero, Nat.mod_eq_of_lt hr]
        exact getD_set_self dst n _ 0 hlt
      | succ i =>
        have := h2 i (by omega) (by rw [List.length_set]; omega)
        rw [show n + 1 + i = n + (i + 1) by omega,
          show ((b.read_ptr + 1) % 64 + i) % 64 = (b.read_ptr + (i + 1)) % 64 by omega] at this
        exact this
    · intro j hj
      rw [h3 j (by omega)]
      exact getD_set_other dst n j _ 0 (by omega)

theorem list_ext_getD (l1 l2 : List Nat) (hlen : l1.length = l2.length)
    (h : ∀ j, j < l1.length → l1.getD j 0 = l2.getD j 0) : l1 = l2 := by
  apply List.ext_getElem hlen
  intro n h1 h2
  have := h n h1
  rw [List.getD_eq_getElem _ _ h1, List.getD_eq_getElem _ _ h2] at this
  exact this

theorem getD_replicate_zero (n j : Nat) : (List.replicate n (0 : Nat)).getD j 0 = 0 := by
  by_cases h : j < n
  · rw [List.getD_eq_getElem _ _ (by simpa using h)]
    simp
  · rw [List.getD_eq_default _ _ (by simpa using h)]

theorem ble_circ_pop_test_holds (K : Consts) (s : Sys) (p rest : List Nat)
    (hinit : Initialised s.ble_cbuf) (hb : Holds s.ble_cbuf (frame p ++ rest))
    (hidle : leuart_tx_busy s = false) :
    ∃ b', ble_circ_pop K true s =
        Outcome.ok false { s with ble_cbuf := b', result_str := capture p } ∧
      Initialised b' ∧ Holds b' rest ∧ b'.cbuf = s.ble_cbuf.cbuf ∧
      b'.write_ptr = s.ble_cbuf.write_ptr ∧
      ble_circ_space b' = ble_circ_space s.ble_cbuf + (p.length + 1) := by
  obtain ⟨hcl, hs, hm, hr, hw⟩ := hinit
  have hcl' : s.ble_cbuf.cbuf.length = 64 := hcl
  have hm' : s.ble_cbuf.size_mask = 63 := hm
  have hr' : s.ble_cbuf.read_ptr < 64 := hr
  have hw' : s.ble_cbuf.write_ptr < 64 := hw
  obtain ⟨hlen, hwp, hcont⟩ := hb
  simp only [List.length_append, frame, List.length_cons] at hlen hwp
  have hcont' : ∀ i, i < p.length + 1 + rest.length →
      s.ble_cbuf.cbuf.getD ((s.ble_cbuf.read_ptr + i) % 64) 0 = (frame p ++ rest).getD i 0 :=
    fun i hi => hcont i (by simp only [List.length_append, frame, List.length_cons]; exact hi)
  have hspace := ble_circ_space_eq s.ble_cbuf ⟨hcl, hs, hm, hr, hw⟩
  have hne : ¬ (ble_circ_space s.ble_cbuf = CSIZE) := by
    rw [hspace, CSIZE, hwp]; omega
  have hhead : s.ble_cbuf.cbuf.getD s.ble_cbuf.read_ptr 0 % 256 = p.length + 1 := by
    have := hcont' 0 (by omega)
    rw [Nat.add_zero, Nat.mod_eq_of_lt hr'] at this
    rw [this, frame, List.cons_append, List.getD_cons_zero]
    omega
  obtain ⟨dst', h0, h1, h2, h3⟩ := ble_circ_pop_loop_spec (p.length + 1) (by omega) p.length 256 0
    (List.replicate CSIZE 0) { s.ble_cbuf with read_ptr := (s.ble_cbuf.read_ptr + 1) % 64 }
    (by omega) (by omega) hm' (Nat.mod_lt _ (by decide))
    (by rw [List.length_replicate, CSIZE]; omega)
  simp only [] at h0 h2
  have hdst : dst' = capture p := by
    apply list_ext_getD
    · rw [h1, capture, List.length_append, List.length_replicate, List.length_replicate, CSIZE]
      omega
    · intro j hj
      rw [h1, List.length_replicate, CSIZE] at hj
      by_cases hjp : j < p.length
      · have := h2 j hjp (by rw [List.length_replicate, CSIZE, Nat.zero_add]; exact hj)
        rw [Nat.zero_add] at this
        rw [this, capture, getD_append_left _ _ _ _ hjp,
          show ((s.ble_cbuf.read_ptr + 1) % 64 + j) % 64 = (s.ble_cbuf.read_ptr + (j + 1)) % 64
            by omega,
          hcont' (j + 1) (by omega), frame, List.cons_append, List.getD_cons_succ,
          getD_append_left _ _ _ _ hjp]
      · obtain ⟨k, rfl⟩ : ∃ k, j = p.length + k := ⟨j - p.length, by omega⟩
        rw [h3 _ (Or.inr (by omega)), capture, getD_append_right, getD_replicate_zero,
          getD_replicate_zero]
  have hinit' : Initialised
      { s.ble_cbuf with read_ptr := ((s.ble_cbuf.read_ptr + 1) % 64 + p.length) % 64 } :=
    ⟨hcl, hs, hm, Nat.mod_lt _ (by decide), hw⟩
  refine ⟨{ s.ble_cbuf with read_ptr := ((s.ble_cbuf.read_ptr + 1) % 64 + p.length) % 64 },
    ?_, hinit', ⟨by omega, ?_, ?_⟩, rfl, rfl, ?_⟩
  · simp only [ble_circ_pop, hidle, Bool.false_eq_true, if_false, if_neg hne, hhead, if_true]
    rw [update_circ_readindex_one _ hm', h0, hdst]
  · simp only []
    rw [hwp]; omega
  · intro i hi
    simp only []
    rw [show (((s.ble_cbuf.read_ptr + 1) % 64 + p.length) % 64 + i) % 64 =
        (s.ble_cbuf.read_ptr + (p.length + 1 + i)) % 64 by omega,
      hcont' (p.length + 1 + i) (by omega)]
    have := getD_append_right (frame p) rest i 0
    rw [frame, List.length_cons] at this
    exact this
  · rw [ble_circ_space_eq _ hinit', hspace]
    simp only []
    rw [hwp]; omega

theorem frames_length (ps : List (List Nat)) : (frames ps).length = framed_size ps := by
  induction ps with
  | nil => rfl
  | cons p ps ih => simp only [frames, framed_size, List.length_append, frame, List.length_cons, ih]

theorem holds_space (b : BLE_CIRCULAR_BUF) (bytes : List Nat) (hinit : Initialised b)
    (hb : Holds b bytes) : ble_circ_space b = 64 - bytes.length := by
  obtain ⟨hlen, hwp, _⟩ := hb
  have hr : b.read_ptr < 64 := hinit.2.2.2.1
  rw [ble_circ_space_eq b hinit, hwp]
  omega

theorem push_each_holds : ∀ (ps : List (List Nat)) (b : BLE_CIRCULAR_BUF) (bytes : List Nat),
    Initialised b → Holds b bytes → (∀ p ∈ ps, ∀ x ∈ p, x ≠ 0) →
    bytes.length + framed_size ps < 64 →
    ∃ b', push_each ps b = Outcome.ok () b' ∧ Initialised b' ∧
      Holds b' (bytes ++ frames ps) ∧ b'.read_ptr = b.read_ptr := by
  intro ps
  induction ps with
  | nil =>
    intro b bytes hinit hb _ _
    exact ⟨b, rfl, hinit, by simpa [frames] using hb, rfl⟩
  | cons p ps ih =>
    intro b bytes hinit hb hnul hfit
    simp only [framed_size] at hfit
    obtain ⟨b1, h1, h2, h3, h4, _⟩ := ble_circ_push_holds p bytes b hinit hb
      (hnul p (List.mem_cons_self p ps)) (by omega)
    obtain ⟨b2, g1, g2, g3, g4⟩ := ih b1 (bytes ++ frame p) h2 h3
      (fun q hq => hnul q (List.mem_cons_of_mem p hq))
      (by simp only [List.length_append, frame, List.length_cons]; omega)
    refine ⟨b2, ?_, g2, ?_, g4.trans h4⟩
    · simp only [push_each, h1, Outcome.bind]
      exact g1
    · simpa [frames, List.append_assoc] using g3

theorem pop_each_holds (K : Consts) : ∀ (ps : List (List Nat)) (s : Sys),
    Initialised s.ble_cbuf → Holds s.ble_cbuf (frames ps) → leuart_tx_busy s = false →
    ∃ s', pop_each K ps.length s = Outcome.ok (round_trip_log ps) s' ∧
      Initialised s'.ble_cbuf ∧ Holds s'.ble_cbuf [] ∧
      s'.ble_cbuf.write_ptr = s.ble_cbuf.write_ptr ∧
      s'.ble_cbuf.cbuf = s.ble_cbuf.cbuf := by
  intro ps
  induction ps with
  | nil =>
    intro s hinit hb _
    exact ⟨s, rfl, hinit, hb, rfl, rfl⟩
  | cons p ps ih =>
    intro s hinit hb hidle
    obtain ⟨b1, h1, h2, h3, h4, h5, _⟩ := ble_circ_pop_test_holds K s p (frames ps) hinit hb hidle
    obtain ⟨s', g1, g2, g3, g4, g5⟩ := ih { s with ble_cbuf := b1, result_str := capture p }
      h2 h3 hidle
    refine ⟨s', ?_, g2, g3, g4.trans h5, g5.trans h4⟩
    simp only [List.length_cons, pop_each, CIRC_TEST, h1, Outcome.bind, g1, round_trip_log]
    rw [holds_space b1 (frames ps) h2 h3, frames_length, CSIZE]

/-- C1, as amended. Starting from an empty queue (read index equal to write
index) with an idle transmitter, for every sequence of NUL-free payloads whose
framed sizes (length + 1) total strictly less than the capacity 64, pushing
them all with `ble_circ_push` succeeds, and popping as many times with
`ble_circ_pop` in diagnostic mode returns false each time and leaves in the
capture buffer that payload followed by NUL padding; each pop gives back
exactly the framed size of its payload, so the free space after a pop is 64
less the frames still queued, and after the last pop `ble_circ_space()` is back
at 64, its value before the first push. -/
theorem ring_buffer_round_trip (K : Consts) (s : Sys) (ps : List (List Nat))
    (hinit : Initialised s.ble_cbuf)
    (hempty : s.ble_cbuf.read_ptr = s.ble_cbuf.write_ptr)
    (hidle : leuart_tx_busy s = false)
    (hnul : ∀ p ∈ ps, ∀ x ∈ p, x ≠ 0)
    (hsize : framed_size ps < CSIZE) :
    ble_circ_space s.ble_cbuf = CSIZE ∧
    ∃ b1 s2, push_each ps s.ble_cbuf = Outcome.ok () b1 ∧
      ble_circ_space b1 = CSIZE - framed_size ps ∧
      pop_each K ps.length { s with ble_cbuf := b1 } = Outcome.ok (round_trip_log ps) s2 ∧
      ble_circ_space s2.ble_cbuf = CSIZE := by
  have hr : s.ble_cbuf.read_ptr < 64 := hinit.2.2.2.1
  have h0 : Holds s.ble_cbuf [] :=
    ⟨by decide, by rw [← hempty, List.length_nil, Nat.add_zero, Nat.mod_eq_of_lt hr],
      fun i hi => by simp at hi⟩
  obtain ⟨b1, h1, h2, h3, _⟩ := push_each_holds ps s.ble_cbuf [] hinit h0 hnul
    (by rw [List.length_nil, Nat.zero_add]; exact hsize)
  rw [List.nil_append] at h3
  obtain ⟨s2, g1, g2, g3, _, _⟩ := pop_each_holds K ps { s with ble_cbuf := b1 } h2 h3 hidle
  refine ⟨by rw [holds_space _ _ hinit h0]; rfl, b1, s2, h1, ?_, g1, ?_⟩
  · rw [holds_space b1 _ h2 h3, frames_length, CSIZE]
  · rw [holds_space _ _ g2 g3]; rfl

set_option maxRecDepth 100000 in
/-- C1, counterexample. A single NUL-free payload of 63 bytes has framed size
64, which does not exceed the capacity. After it is pushed onto the empty
queue the write index is back on the read index, `ble_circ_space()` reads 64,
and the diagnostic pop returns true without touching the capture buffer: the
payload is not reproduced. -/
theorem ring_buffer_full_looks_empty :
    framed_size [List.replicate 63 65] = CSIZE ∧
    (∀ x ∈ List.replicate 63 65, x ≠ 0) ∧
    ∃ b1 s2, push_each [List.replicate 63 65] bootState.ble_cbuf = Outcome.ok () b1 ∧
      ble_circ_space b1 = CSIZE ∧
      pop_each demoConsts 1 { bootState with ble_cbuf := b1 } =
        Outcome.ok [(true, List.replicate 64 0, CSIZE)] s2 ∧
      s2.result_str ≠ capture (List.replicate 63 65) :=
  ⟨by decide, by decide, _, _, rfl, by decide, rfl, by decide⟩

theorem ring_buffer_round_trip_witness :
    (Initialised bootState.ble_cbuf ∧
      bootState.ble_cbuf.read_ptr = bootState.ble_cbuf.write_ptr ∧
      leuart_tx_busy bootState = false ∧
      (∀ p ∈ [[72, 105], [66, 76, 69]], ∀ x ∈ p, x ≠ 0) ∧
      framed_size [[72, 105], [66, 76, 69]] < CSIZE) ∧
    ble_circ_space bootState.ble_cbuf = CSIZE ∧
    ∃ b1 s2, push_each [[72, 105], [66, 76, 69]] bootState.ble_cbuf = Outcome.ok () b1 ∧
      ble_circ_space b1 = CSIZE - framed_size [[72, 105], [66, 76, 69]] ∧
      pop_each demoConsts [[72, 105], [66, 76, 69]].length { bootState with ble_cbuf := b1 } =
        Outcome.ok (round_trip_log [[72, 105], [66, 76, 69]]) s2 ∧
      ble_circ_space s2.ble_cbuf = CSIZE :=
  have h : Initialised bootState.ble_cbuf ∧
      bootState.ble_cbuf.read_ptr = bootState.ble_cbuf.write_ptr ∧
      leuart_tx_busy bootState = false ∧
      (∀ p ∈ [[72, 105], [66, 76, 69]], ∀ x ∈ p, x ≠ 0) ∧
      framed_size [[72, 105], [66, 76, 69]] < CSIZE :=
    ⟨⟨by decide, by decide, by decide, by decide, by decide⟩, rfl, rfl, by decide, by decide⟩
  ⟨h, ring_buffer_round_trip demoConsts bootState [[72, 105], [66, 76, 69]]
    h.1 h.2.1 h.2.2.1 h.2.2.2.1 h.2.2.2.2⟩

theorem ble_circ_push_loop_not_fatal (string : List Nat) (length : Nat) :
    ∀ (fuel n : Nat) (b : BLE_CIRCULAR_BUF),
      (ble_circ_push_loop string length fuel n b).isFatal = false := by
  intro fuel
  induction fuel with
  | zero => intro n b; rfl
  | succ f ih =>
    intro n b
    simp only [ble_circ_push_loop]
    split
    · exact ih _ _
    · rfl

/-- More loop tests do not change a push loop that has ended. -/
theorem ble_circ_push_loop_more_fuel (string : List Nat) (length : Nat) :
    ∀ (fuel n : Nat) (b r : BLE_CIRCULAR_BUF),
      ble_circ_push_loop string length fuel n b = Outcome.ok () r →
      ble_circ_push_loop string length (fuel + 1) n b = Outcome.ok () r := by
  intro fuel
  induction fuel with
  | zero => intro n b r h; simp [ble_circ_push_loop] at h
  | succ f ih =>
    intro n b r h
    rw [ble_circ_push_loop] at h ⊢
    by_cases hn : n < length
    · rw [if_pos hn] at h ⊢
      exact ih _ _ _ h
    · rw [if_neg hn] at h ⊢
      exact h

/-- A string of 256 bytes or more never leaves the push loop, whatever the
number of loop tests: the `uint8_t` counter stays below the length. -/
theorem ble_circ_push_loop_diverges (string : List Nat) (length : Nat) (hlen : 256 ≤ length) :
    ∀ (fuel n : Nat) (b : BLE_CIRCULAR_BUF), n < 256 →
      ble_circ_push_loop string length fuel n b = Outcome.diverge := by
  intro fuel
  induction fuel with
  | zero => intro n b _; rfl
  | succ f ih =>
    intro n b hn
    rw [ble_circ_push_loop, if_pos (by omega)]
    exact ih _ _ (Nat.mod_lt _ (by decide))

/-- The guard of `ble_circ_push` can never stop the call: the difference it
tests is unsigned. -/
theorem ble_circ_push_never_fatal (string : List Nat) (b : BLE_CIRCULAR_BUF) :
    (ble_circ_push string b).isFatal = false := by
  simp only [ble_circ_push]
  rw [if_neg (Nat.not_lt_zero _)]
  exact ble_circ_push_loop_not_fatal _ _ _ _ _

set_option maxRecDepth 100000 in
/-- C2, the code at the failing input. With a 60-byte payload queued the free
space is 3; pushing the 3-byte payload 72, 105, 33 (framed size 4) is not
stopped: `ble_circ_push` returns, the write index wraps from 61 to 1 and cell 0,
the length byte 61 of the queued frame, is overwritten with 33. -/
theorem ble_circ_push_overflow_overwrites :
    ∃ b1 b2, ble_circ_push (List.replicate 60 65) bootState.ble_cbuf = Outcome.ok () b1 ∧
      ble_circ_space b1 = 3 ∧ strlen [72, 105, 33] + 1 = 4 ∧
      ble_circ_push [72, 105, 33] b1 = Outcome.ok () b2 ∧
      (ble_circ_push [72, 105, 33] b1).isFatal = false ∧
      b1.write_ptr = 61 ∧ b2.write_ptr = 1 ∧
      b1.cbuf.getD 0 0 = 61 ∧ b2.cbuf.getD 0 0 = 33 ∧
      b2.cbuf ≠ b1.cbuf :=
  ⟨_, _, rfl, by decide, by decide, rfl, by decide, by decide, by decide, by decide, by decide,
    by decide⟩

theorem sleep_block_mode_returns (d : Nat) (c : List Int) (h : c.getD d 0 < 4) :
    ∃ c', sleep_block_mode d c = Outcome.ok () c' := by
  unfold sleep_block_mode
  by_cases hd : d < c.length
  · simp only [getD_set_self c d _ 0 hd]
    rw [if_pos (by omega)]
    exact ⟨_, rfl⟩
  · have h0 : (c.set d (c.getD d 0 + 1)).getD d 0 = 0 :=
      List.getD_eq_default _ _ (by rw [List.length_set]; omega)
    simp only [h0]
    exact ⟨_, rfl⟩

theorem sleep_block_mode_stops (d : Nat) (c : List Int) (hd : d < c.length)
    (h : 4 ≤ c.getD d 0) : ∃ c', sleep_block_mode d c = Outcome.fatal c' := by
  unfold sleep_block_mode
  simp only [getD_set_self c d _ 0 hd]
  rw [if_neg (by omega)]
  exact ⟨_, rfl⟩

/-- C3, as amended. The call `ble_circ_pop(test)` returns true exactly when the
serial engine is busy or the queue is empty (`ble_circ_space() == CSIZE`), and
then it leaves every part of the state as it was (buffer bytes, indices and
capture buffer included). In every other state it returns false, in
diagnostic mode always and in operational mode when the sleep counter
`LEUART_TX_EM` is below its bound 4; in operational mode with that counter at
the bound the call stops in the assertion of `sleep_block_mode` instead. -/
theorem ble_circ_pop_return_value (K : Consts) (test : Bool) (s : Sys) :
    ((ble_circ_pop K test s).value = some true ↔
      (leuart_tx_busy s = true ∨ ble_circ_space s.ble_cbuf = CSIZE)) ∧
    ((leuart_tx_busy s = true ∨ ble_circ_space s.ble_cbuf = CSIZE) →
      ble_circ_pop K test s = Outcome.ok true s) ∧
    (¬ (leuart_tx_busy s = true ∨ ble_circ_space s.ble_cbuf = CSIZE) →
      (test = true ∨ s.lowest_energy_mode.getD K.LEUART_TX_EM 0 < 4) →
      ∃ s', ble_circ_pop K test s = Outcome.ok false s') ∧
    (¬ (leuart_tx_busy s = true ∨ ble_circ_space s.ble_cbuf = CSIZE) →
      test = false → K.LEUART_TX_EM < s.lowest_energy_mode.length →
      4 ≤ s.lowest_energy_mode.getD K.LEUART_TX_EM 0 →
      (ble_circ_pop K test s).isFatal = true) := by
  have hret : (leuart_tx_busy s = true ∨ ble_circ_space s.ble_cbuf = CSIZE) →
      ble_circ_pop K test s = Outcome.ok true s := by
    intro h
    unfold ble_circ_pop
    by_cases hb : leuart_tx_busy s = true
    · rw [if_pos hb]
    · rw [if_neg hb, if_pos (h.resolve_left hb)]
  have hloop : ∀ (dst : List Nat) (b : BLE_CIRCULAR_BUF),
      ∃ r, ble_circ_pop_loop (s.ble_cbuf.cbuf.getD s.ble_cbuf.read_ptr 0 % 256) 256 0 dst b
        = some r :=
    fun dst b => ble_circ_pop_loop_total _ 255 256 0 dst b (by omega) (by omega) (by omega)
  have hother : ¬ (leuart_tx_busy s = true ∨ ble_circ_space s.ble_cbuf = CSIZE) →
      ((test = true ∨ s.lowest_energy_mode.getD K.LEUART_TX_EM 0 < 4) ∧
        ∃ s', ble_circ_pop K test s = Outcome.ok false s') ∨
      (test = false ∧ 4 ≤ s.lowest_energy_mode.getD K.LEUART_TX_EM 0 ∧
        (ble_circ_pop K test s).isFatal = true) := by
    intro h
    have hb : ¬ leuart_tx_busy s = true := fun hb => h (Or.inl hb)
    have he : ¬ ble_circ_space s.ble_cbuf = CSIZE := fun he => h (Or.inr he)
    have hb' : s.leuart_sm.SMbusy = false := by
      simpa [leuart_tx_busy] using hb
    cases test with
    | true =>
      left
      refine ⟨Or.inl rfl, ?_⟩
      obtain ⟨⟨n, dst, b2⟩, hr⟩ := hloop (List.replicate CSIZE 0)
        (update_circ_readindex s.ble_cbuf 1)
      unfold ble_circ_pop
      rw [if_neg hb, if_neg he]
      simp only [if_true, hr]
      exact ⟨_, rfl⟩
    | false =>
      obtain ⟨⟨n, dst, b2⟩, hr⟩ := hloop
        (List.replicate (s.ble_cbuf.cbuf.getD s.ble_cbuf.read_ptr 0 % 256 + 1) 0)
        (update_circ_readindex s.ble_cbuf 1)
      have hpop : ble_circ_pop K false s =
          (leuart_start K 0 (dst.set n 0) (s.ble_cbuf.cbuf.getD s.ble_cbuf.read_ptr 0 % 256)
            { s with ble_cbuf := b2 }).bind fun _ s1 => Outcome.ok false s1 := by
        unfold ble_circ_pop
        rw [if_neg hb, if_neg he]
        simp only [Bool.false_eq_true, if_false, hr]
      rw [hpop]
      simp only [leuart_start, leuart_tx_busy, hb', Bool.false_eq_true, if_false]
      by_cases hc : s.lowest_energy_mode.getD K.LEUART_TX_EM 0 < 4
      · left
        refine ⟨Or.inr hc, ?_⟩
        obtain ⟨c', hc'⟩ := sleep_block_mode_returns K.LEUART_TX_EM s.lowest_energy_mode hc
        simp only [hc', Outcome.lift, Outcome.bind]
        exact ⟨_, rfl⟩
      · right
        refine ⟨trivial, by omega, ?_⟩
        by_cases hd : K.LEUART_TX_EM < s.lowest_energy_mode.length
        · obtain ⟨c', hc'⟩ := sleep_block_mode_stops K.LEUART_TX_EM s.lowest_energy_mode hd
            (by omega)
          simp only [hc', Outcome.lift, Outcome.bind]
          rfl
        · exfalso
          apply hc
          have : s.lowest_energy_mode.getD K.LEUART_TX_EM 0 = 0 :=
            List.getD_eq_default _ _ (by omega)
          omega
  refine ⟨⟨fun hv => ?_, fun h => by rw [hret h]; rfl⟩, hret, fun h hc => ?_, fun h ht _ h4 => ?_⟩
  · by_contra h
    rcases hother h with ⟨_, s', hs'⟩ | ⟨_, _, hf⟩
    · rw [hs'] at hv
      simp [Outcome.value] at hv
    · cases hp : ble_circ_pop K test s with
      | ok a s1 => rw [hp] at hf; simp [Outcome.isFatal] at hf
      | fatal s1 => rw [hp] at hv; simp [Outcome.value] at hv
      | diverge => rw [hp] at hv; simp [Outcome.value] at hv
  · rcases hother h with ⟨_, hs'⟩ | ⟨ht, h4, _⟩
    · exact hs'
    · rcases hc with hc | hc
      · rw [hc] at ht; cases ht
      · omega
  · rcases hother h with ⟨hc, _⟩ | ⟨_, _, hf⟩
    · rcases hc with hc | hc
      · rw [hc] at ht; cases ht
      · omega
    · exact hf

set_option maxRecDepth 100000 in
/-- C3, counterexample. With the frame of the payload 72, 105 queued, the engine
idle and the sleep counter of the serial engine at 4, the queue is not empty
and yet `ble_circ_pop(false)` does not return false: it stops in the assertion
of `sleep_block_mode`, called from `leuart_start`. -/
theorem ble_circ_pop_stops_at_block_bound :
    ∃ b1, ble_circ_push [72, 105] bootState.ble_cbuf = Outcome.ok () b1 ∧
      leuart_tx_busy { bootState with ble_cbuf := b1, lowest_energy_mode := [0, 0, 0, 4, 0] }
        = false ∧
      ble_circ_space b1 ≠ CSIZE ∧
      (ble_circ_pop demoConsts false
        { bootState with ble_cbuf := b1, lowest_energy_mode := [0, 0, 0, 4, 0] }).isFatal
        = true ∧
      (ble_circ_pop demoConsts false
        { bootState with ble_cbuf := b1, lowest_energy_mode := [0, 0, 0, 4, 0] }).value
        = none :=
  ⟨_, rfl, rfl, by decide, by decide, by decide⟩

set_option maxRecDepth 100000 in
/-- C7, the code at the failing input. With the payload 72, 105 ("Hi") queued
and the engine idle, `ble_circ_pop(false)` calls `leuart_start` with
`string_len` 3, one more than the payload length: the first `string_len` bytes
of the buffer handed over are 72, 105, 0, and the transmission writes these
three bytes, the terminating NUL included, to the transmit-data register. -/
theorem ble_circ_pop_hands_over_terminator :
    ∃ b1 s1 s2, ble_circ_push [72, 105] bootState.ble_cbuf = Outcome.ok () b1 ∧
      ble_circ_pop demoConsts CIRC_OPER { bootState with ble_cbuf := b1 }
        = Outcome.ok false s1 ∧
      s1.leuart_sm.length = 3 ∧
      s1.leuart_sm.output.take 3 = [72, 105, 0] ∧
      leuart_irqs demoConsts (List.replicate 4 LEUART_IRQ.TXBL) s1 = Outcome.ok () s2 ∧
      s2.leuart_sm.current_state = STOP_CLOSE ∧
      s2.LEUART0.TXDATA = [72, 105, 0] ∧
      s2.LEUART0.TXDATA ≠ [72, 105] :=
  ⟨_, _, _, rfl, rfl, by decide, by decide, rfl, by decide, by decide, by decide⟩

theorem i2c_read_transaction_witness :
    (bootState.I2C0.STATE_IDLE = true ∧
      I2C_EM_BLOCK demoConsts < bootState.lowest_energy_mode.length ∧
      bootState.lowest_energy_mode.getD (I2C_EM_BLOCK demoConsts) 0 < 4 ∧
      171 < 256 ∧ 205 < 256) ∧
    ∃ s0 s1,
      i2c_start demoConsts 0 64 0 2 243 true 8 bootState = Outcome.ok () s0 ∧
      i2c_irqs demoConsts ([I2C_IRQ.ACK, I2C_IRQ.ACK] ++ List.replicate 1 I2C_IRQ.NACK ++
        [I2C_IRQ.ACK, I2C_IRQ.RXDATAV 171, I2C_IRQ.RXDATAV 205, I2C_IRQ.MSTOP]) s0
        = Outcome.ok () s1 ∧
      s1.mem 0 = (171 <<< 8) ||| 205 ∧
      s1.mem 0 = 256 * 171 + 205 ∧
      s1.posted = bootState.posted ++ [8] ∧
      s1.event_scheduled = bootState.event_scheduled ||| 8 ∧
      s1.i2c_sm.SMbusy = false ∧
      s1.i2c_sm.current_state = INIT_SEND_ADDR :=
  have h : bootState.I2C0.STATE_IDLE = true ∧
      I2C_EM_BLOCK demoConsts < bootState.lowest_energy_mode.length ∧
      bootState.lowest_energy_mode.getD (I2C_EM_BLOCK demoConsts) 0 < 4 ∧
      171 < 256 ∧ 205 < 256 := ⟨rfl, by decide, by decide, by decide, by decide⟩
  ⟨h, i2c_read_transaction demoConsts bootState 0 64 0 2 243 8 1 171 205
    h.1 h.2.1 h.2.2.1 h.2.2.2.1 h.2.2.2.2⟩

theorem leuart_transmit_sequencing_witness :
    (1 ≤ 2 ∧ 2 < 2 ^ 32 ∧ bootState.leuart_sm.SMbusy = false ∧
      bootState.leuart_sm.current_state = INIT_UART ∧
      demoConsts.LEUART_TX_EM < bootState.lowest_energy_mode.length ∧
      bootState.lowest_energy_mode.getD demoConsts.LEUART_TX_EM 0 < 4) ∧
    ∃ s0 s1 s2, leuart_start demoConsts 0 [104, 105] 2 bootState = Outcome.ok () s0 ∧
      leuart_irqs demoConsts (List.replicate 3 LEUART_IRQ.TXBL) s0 = Outcome.ok () s1 ∧
      s1.leuart_sm.current_state = STOP_CLOSE ∧
      s1.LEUART0.IEN_TXBL = false ∧ s1.LEUART0.IEN_TXC = true ∧
      leuart_irq demoConsts LEUART_IRQ.TXC s1 = Outcome.ok () s2 ∧
      s2.posted = bootState.posted ++ [bootState.tx_done_evt] ∧
      s2.leuart_sm.SMbusy = false := by
  have h : 1 ≤ 2 ∧ 2 < 2 ^ 32 ∧ bootState.leuart_sm.SMbusy = false ∧
      bootState.leuart_sm.current_state = INIT_UART ∧
      demoConsts.LEUART_TX_EM < bootState.lowest_energy_mode.length ∧
      bootState.lowest_energy_mode.getD demoConsts.LEUART_TX_EM 0 < 4 :=
    ⟨by decide, by decide, rfl, rfl, by decide, by decide⟩
  obtain ⟨s0, h0, _, _, _, _, s1, s2, g1, g2, _, _, g5, g6, _, _, g9, g10, _, g12, _, _⟩ :=
    leuart_transmit_sequencing demoConsts bootState 0 [104, 105] 2
      h.1 h.2.1 h.2.2.1 h.2.2.2.1 h.2.2.2.2.1 h.2.2.2.2.2
  exact ⟨h, s0, s1, s2, h0, g1, g2, g5, g6, g9, g10, g12⟩

theorem leuart_start_copies_string_witness :
    (1 ≤ 3 ∧ 3 < 2 ^ 32 ∧ bootState.leuart_sm.SMbusy = false ∧
      bootState.leuart_sm.current_state = INIT_UART ∧
      demoConsts.LEUART_TX_EM < bootState.lowest_energy_mode.length ∧
      bootState.lowest_energy_mode.getD demoConsts.LEUART_TX_EM 0 < 4 ∧
      strlen [104, 105] + 1 ≤ bootState.leuart_sm.output.length ∧
      3 ≤ strlen [104, 105] + 1) ∧
    ∃ s0 s1, leuart_start demoConsts 0 [104, 105] 3 bootState = Outcome.ok () s0 ∧
      (∀ i, i < 3 → s0.leuart_sm.output.getD i 0 = [104, 105].getD i 0) ∧
      leuart_irqs demoConsts (List.replicate (3 + 1) LEUART_IRQ.TXBL) s0 = Outcome.ok () s1 ∧
      s1.leuart_sm.current_state = STOP_CLOSE ∧
      s1.LEUART0.TXDATA = bootState.LEUART0.TXDATA ++
        (List.range 3).map (fun i => [104, 105].getD i 0) :=
  have h : 1 ≤ 3 ∧ 3 < 2 ^ 32 ∧ bootState.leuart_sm.SMbusy = false ∧
      bootState.leuart_sm.current_state = INIT_UART ∧
      demoConsts.LEUART_TX_EM < bootState.lowest_energy_mode.length ∧
      bootState.lowest_energy_mode.getD demoConsts.LEUART_TX_EM 0 < 4 ∧
      strlen [104, 105] + 1 ≤ bootState.leuart_sm.output.length ∧
      3 ≤ strlen [104, 105] + 1 :=
    ⟨by decide, by decide, rfl, rfl, by decide, by decide, by decide, by decide⟩
  ⟨h, leuart_start_copies_string demoConsts bootState 0 [104, 105] 3
    h.1 h.2.1 h.2.2.1 h.2.2.2.1 h.2.2.2.2.1 h.2.2.2.2.2.1 h.2.2.2.2.2.2.1 h.2.2.2.2.2.2.2⟩

/-! ## Theorems: ble.c, free space and the range of the indices -/

/-- Reading a list built cell by cell. -/
theorem getD_map_range (f : Nat → Nat) (k i : Nat) (h : i < k) :
    ((List.range k).map f).getD i 0 = f i := by
  simp [List.getD_eq_getElem?_getD, List.getElem?_map, List.getElem?_range h]

/-- An initialised buffer holds the cells between its read index and its write
index. -/
theorem initialised_holds (b : BLE_CIRCULAR_BUF) (hinit : Initialised b) :
    Holds b ((List.range ((b.write_ptr + 64 - b.read_ptr) % 64)).map
      fun i => b.cbuf.getD ((b.read_ptr + i) % 64) 0) := by
  obtain ⟨_, _, _, hr, hw⟩ := hinit
  have hr' : b.read_ptr < 64 := hr
  have hw' : b.write_ptr < 64 := hw
  refine ⟨?_, ?_, fun i hi => ?_⟩
  · rw [List.length_map, List.length_range]; omega
  · rw [List.length_map, List.length_range]; omega
  · rw [List.length_map, List.length_range] at hi
    exact (getD_map_range (fun i => b.cbuf.getD ((b.read_ptr + i) % 64) 0) _ i hi).symm

/-- Claim C17. For every initialised queue state (64 cells, size 64, mask 63,
both indices below 64), ble_circ_space() equals 64 - ((write index - read
index) & 63), the difference taken in 32 bits. For every NUL-free payload of
length L with L + 1 < ble_circ_space(), ble_circ_push returns and leaves
ble_circ_space() exactly L + 1 smaller than before, and the formula holds in
the state it leaves as well. -/
theorem ble_circ_push_takes_framed_size (p : List Nat) (b : BLE_CIRCULAR_BUF)
    (hinit : Initialised b) (hnul : ∀ x ∈ p, x ≠ 0) (hfit : p.length + 1 < ble_circ_space b) :
    ble_circ_space b =
      CSIZE - (((b.write_ptr + 2 ^ 32 - b.read_ptr) % 2 ^ 32) &&& (CSIZE - 1)) ∧
    ∃ b', ble_circ_push p b = Outcome.ok () b' ∧
      ble_circ_space b' + (p.length + 1) = ble_circ_space b ∧
      ble_circ_space b' =
        CSIZE - (((b'.write_ptr + 2 ^ 32 - b'.read_ptr) % 2 ^ 32) &&& (CSIZE - 1)) := by
  have hformula : ∀ c : BLE_CIRCULAR_BUF, Initialised c → ble_circ_space c =
      CSIZE - (((c.write_ptr + 2 ^ 32 - c.read_ptr) % 2 ^ 32) &&& (CSIZE - 1)) := by
    intro c hc
    obtain ⟨_, hs, hm, hr, hw⟩ := hc
    have hs' : c.size = 64 := hs
    have hm' : c.size_mask = 63 := hm
    have hC : CSIZE = 64 := rfl
    have h63 : CSIZE - 1 = 63 := rfl
    rw [h63, hC]
    simp only [ble_circ_space, hs', hm', and_mask_eq_mod]
    omega
  have hholds := initialised_holds b hinit
  have hsp := ble_circ_space_eq b hinit
  obtain ⟨b', g1, g2, _, _, g5⟩ := ble_circ_push_holds p _ b hinit hholds hnul
    (by rw [List.length_map, List.length_range]; omega)
  exact ⟨hformula b hinit, b', g1, g5, hformula b' g2⟩

/-- Claim C17, instance: the 50-byte test string pushed onto the empty queue
takes ble_circ_space() from 64 to 64 - 50 - 1. -/
theorem ble_circ_push_takes_framed_size_witness :
    (Initialised bootState.ble_cbuf ∧ (∀ x ∈ test_str.getD 0 [], x ≠ 0) ∧
      (test_str.getD 0 []).length + 1 < ble_circ_space bootState.ble_cbuf) ∧
    ble_circ_space bootState.ble_cbuf = 64 ∧
    ∃ b', ble_circ_push (test_str.getD 0 []) bootState.ble_cbuf = Outcome.ok () b' ∧
      ble_circ_space b' + (50 + 1) = 64 :=
  have h : Initialised bootState.ble_cbuf ∧ (∀ x ∈ test_str.getD 0 [], x ≠ 0) ∧
      (test_str.getD 0 []).length + 1 < ble_circ_space bootState.ble_cbuf :=
    ⟨⟨by decide, by decide, by decide, by decide, by decide⟩, by decide, by decide⟩
  ⟨h, by decide,
    (ble_circ_push_takes_framed_size (test_str.getD 0 []) bootState.ble_cbuf
      h.1 h.2.1 h.2.2).2.imp fun _ hb => ⟨hb.1, hb.2.1⟩⟩

/-- The state of a call lifted to a larger state. -/
theorem state_lift {α σ τ : Type} (o : Outcome α σ) (put : σ → τ) :
    (o.lift put).state = o.state.map put := by
  cases o <;> rfl

/-- Returning another value does not change the state a call leaves. -/
theorem state_bind_ok {α β σ : Type} (o : Outcome α σ) (v : α → β) :
    (o.bind fun a s => Outcome.ok (v a) s).state = o.state := by
  cases o <;> rfl

/-- Function update_circ_wrtindex keeps the mask and the read index and leaves
the write index below 64. -/
theorem update_circ_wrtindex_indices (b : BLE_CIRCULAR_BUF) (update_by : Nat)
    (hm : b.size_mask = 63) (hr : b.read_ptr < 64) :
    (update_circ_wrtindex b update_by).size_mask = 63 ∧
    (update_circ_wrtindex b update_by).read_ptr < 64 ∧
    (update_circ_wrtindex b update_by).write_ptr < 64 := by
  refine ⟨hm, hr, ?_⟩
  show ((b.write_ptr + update_by) % 2 ^ 32) &&& b.size_mask < 64
  rw [hm, and_mask_eq_mod]
  exact Nat.mod_lt _ (by decide)

/-- Function update_circ_readindex keeps the mask and the write index and
leaves the read index below 64. -/
theorem update_circ_readindex_indices (b : BLE_CIRCULAR_BUF) (update_by : Nat)
    (hm : b.size_mask = 63) (hw : b.write_ptr < 64) :
    (update_circ_readindex b update_by).size_mask = 63 ∧
    (update_circ_readindex b update_by).read_ptr < 64 ∧
    (update_circ_readindex b update_by).write_ptr < 64 := by
  refine ⟨hm, ?_, hw⟩
  show ((b.read_ptr + update_by) % 2 ^ 32) &&& b.size_mask < 64
  rw [hm, and_mask_eq_mod]
  exact Nat.mod_lt _ (by decide)

/-- The write loop of ble_circ_push keeps the mask and keeps both indices below
64, however it ends. -/
theorem ble_circ_push_loop_indices (string : List Nat) (length : Nat) :
    ∀ (fuel n : Nat) (b b' : BLE_CIRCULAR_BUF),
      b.size_mask = 63 → b.read_ptr < 64 → b.write_ptr < 64 →
      (ble_circ_push_loop string length fuel n b).state = some b' →
      b'.size_mask = 63 ∧ b'.read_ptr < 64 ∧ b'.write_ptr < 64 := by
  intro fuel
  induction fuel with
  | zero =>
    intro n b b' _ _ _ h
    simp [ble_circ_push_loop, Outcome.state] at h
  | succ fuel ih =>
    intro n b b' hm hr hw h
    by_cases hn : n < length
    · simp only [ble_circ_push_loop, if_pos hn] at h
      have hi := update_circ_wrtindex_indices
        { b with cbuf := b.cbuf.set b.write_ptr (string.getD n 0) } 1 hm hr
      exact ih _ _ b' hi.1 hi.2.1 hi.2.2 h
    · simp only [ble_circ_push_loop, if_neg hn, Outcome.state, Option.some.injEq] at h
      subst h
      exact ⟨hm, hr, hw⟩

/-- Function ble_circ_push keeps the mask and keeps both indices below 64. -/
theorem ble_circ_push_indices (string : List Nat) (b b' : BLE_CIRCULAR_BUF)
    (hm : b.size_mask = 63) (hr : b.read_ptr < 64)
    (h : (ble_circ_push string b).state = some b') :
    b'.size_mask = 63 ∧ b'.read_ptr < 64 ∧ b'.write_ptr < 64 := by
  simp only [ble_circ_push, if_neg (Nat.not_lt_zero _)] at h
  have hi := update_circ_wrtindex_indices
    { b with cbuf := b.cbuf.set b.write_ptr ((strlen string % 2 ^ 32 + 1) % 256) } 1 hm hr
  exact ble_circ_push_loop_indices _ _ _ _ _ b' hi.1 hi.2.1 hi.2.2 h

/-- Function leuart_start does not touch the circular buffer. -/
theorem leuart_start_keeps_queue (K : Consts) (leuart : Nat) (string : List Nat)
    (string_len : Nat) (s s' : Sys)
    (h : (leuart_start K leuart string string_len s).state = some s') :
    s'.ble_cbuf = s.ble_cbuf := by
  unfold leuart_start at h
  by_cases hb : leuart_tx_busy s = true
  · simp [hb, Outcome.state] at h
  · simp only [hb, Bool.false_eq_true, if_false, sleep_block_mode] at h
    split_ifs at h <;>
      simp only [Outcome.lift, Outcome.bind, Outcome.state, Sys.withSleep,
        Option.some.injEq] at h <;>
      (subst h; rfl)

/-- The list after `a[n] = v`: as long as before for a cell of the array, one
past `n` for a write past its end. -/
theorem array_store_length (a : List Nat) (n v : Nat) :
    (array_store a n v).length = max a.length (n + 1) := by
  unfold array_store
  split_ifs with h
  · rw [List.length_set]
    omega
  · simp only [List.length_append, List.length_replicate, List.length_cons, List.length_nil]
    omega

/-- The read loop of ble_circ_pop writes the cells below `length - 1`: it ends,
and the list it leaves reaches that far, beyond the end of the array when the
length byte says so. -/
theorem ble_circ_pop_loop_length (length : Nat) :
    ∀ (m fuel n : Nat) (dst : List Nat) (b : BLE_CIRCULAR_BUF),
      length ≤ n + m + 1 → m < fuel → n + m ≤ 255 → n ≤ dst.length →
      ∃ r, ble_circ_pop_loop length fuel n dst b = some r ∧
        r.2.1.length = max dst.length (length - 1) := by
  intro m
  induction m with
  | zero =>
    intro fuel n dst b h1 h2 _ h4
    obtain ⟨f, rfl⟩ : ∃ f, fuel = f + 1 := ⟨fuel - 1, by omega⟩
    refine ⟨(n, dst, b), ?_, ?_⟩
    · simp only [ble_circ_pop_loop]
      rw [if_neg (by omega)]
    · show dst.length = max dst.length (length - 1)
      omega
  | succ m ih =>
    intro fuel n dst b h1 h2 h3 h4
    obtain ⟨f, rfl⟩ : ∃ f, fuel = f + 1 := ⟨fuel - 1, by omega⟩
    by_cases hc : (n : Int) < (length : Int) - 1
    · obtain ⟨r, hr1, hr2⟩ := ih f (n + 1) (array_store dst n (b.cbuf.getD b.read_ptr 0))
        (update_circ_readindex b 1) (by omega) (by omega) (by omega)
        (by rw [array_store_length]; omega)
      refine ⟨r, ?_, ?_⟩
      · simp only [ble_circ_pop_loop]
        rw [if_pos hc, show (n + 1) % 256 = n + 1 by omega]
        exact hr1
      · rw [hr2, array_store_length]
        omega
    · refine ⟨(n, dst, b), ?_, ?_⟩
      · simp only [ble_circ_pop_loop]
        rw [if_neg hc]
      · show dst.length = max dst.length (length - 1)
        omega

/-- How far the diagnostic pop writes. With the engine idle and the queue not
empty, `ble_circ_pop(true)` returns false, and the list it leaves in
`result_str` has `CSIZE` cells when the length byte at the read index is at most
`CSIZE + 1`, and `length - 1` cells, more than the array has, when it is
larger. -/
theorem ble_circ_pop_test_result_length (K : Consts) (s : Sys)
    (hidle : leuart_tx_busy s = false) (hne : ble_circ_space s.ble_cbuf ≠ CSIZE) :
    ∃ s', ble_circ_pop K true s = Outcome.ok false s' ∧
      s'.result_str.length =
        max CSIZE (s.ble_cbuf.cbuf.getD s.ble_cbuf.read_ptr 0 % 256 - 1) := by
  have hL : s.ble_cbuf.cbuf.getD s.ble_cbuf.read_ptr 0 % 256 < 256 := Nat.mod_lt _ (by decide)
  obtain ⟨⟨n, dst, b2⟩, hr1, hr2⟩ := ble_circ_pop_loop_length
    (s.ble_cbuf.cbuf.getD s.ble_cbuf.read_ptr 0 % 256) 255 256 0 (List.replicate CSIZE 0)
    (update_circ_readindex s.ble_cbuf 1) (by omega) (by omega) (by omega) (Nat.zero_le _)
  rw [List.length_replicate] at hr2
  refine ⟨{ s with ble_cbuf := b2, result_str := dst }, ?_, hr2⟩
  unfold ble_circ_pop
  rw [if_neg (by rw [hidle]; decide), if_neg hne]
  simp only [if_true, hr1]

set_option maxRecDepth 100000 in
/-- The calls of circular_buff_test (push 50 bytes, pop, push 25 bytes, push 5
bytes, pop three times) all return; both indices end below 64 and the last pop
has left `result_str` with its 64 cells. -/
theorem circular_buff_test_indices :
    ∃ s', queue_calls demoConsts circular_buff_test_calls
        { bootState with ble_cbuf := ble_circ_init bootState.ble_cbuf } = Outcome.ok () s' ∧
      s'.ble_cbuf.read_ptr < CSIZE ∧ s'.ble_cbuf.write_ptr < CSIZE ∧
      s'.result_str.length = CSIZE :=
  ⟨_, rfl, by decide, by decide, rfl⟩

/-! ## Theorems: ble.c and app.c, writing while busy and draining the queue -/

/-- An empty queue holds no bytes. -/
theorem holds_nil_of_empty (b : BLE_CIRCULAR_BUF) (hinit : Initialised b)
    (hempty : b.read_ptr = b.write_ptr) : Holds b [] := by
  obtain ⟨_, _, _, hr, _⟩ := hinit
  have hr' : b.read_ptr < 64 := hr
  refine ⟨by decide, ?_, fun i hi => absurd hi (Nat.not_lt_zero i)⟩
  rw [← hempty, List.length_nil, Nat.add_zero, Nat.mod_eq_of_lt hr']

/-- The string length of NUL-free bytes followed by a NUL. -/
theorem strlen_append_zero (p t : List Nat) (h : ∀ x ∈ p, x ≠ 0) :
    strlen (p ++ 0 :: t) = p.length := by
  induction p with
  | nil => exact strlen_cons_zero t
  | cons c cs ih =>
    rw [List.cons_append, strlen_cons_nonzero _ _ (h c (List.mem_cons_self c cs)),
      ih (fun x hx => h x (List.mem_cons_of_mem c hx)), List.length_cons]

/-- The string length of a capture is the length of the payload. -/
theorem strlen_capture (p : List Nat) (h : ∀ x ∈ p, x ≠ 0) (hlen : p.length < CSIZE) :
    strlen (capture p) = p.length := by
  obtain ⟨k, hk⟩ : ∃ k, CSIZE - p.length = k + 1 := ⟨CSIZE - p.length - 1, by omega⟩
  rw [capture, hk, List.replicate_succ]
  exact strlen_append_zero p _ h

/-- Claim C22. While the serial engine is busy, ble_write(string) does what
ble_circ_push(string) alone does to the queue and nothing else: in every state
it leaves, the transmission record (internal buffer, length, byte index, state
tag, busy flag), the registers of the serial peripheral (no byte written, no
command issued, so leuart_start was not invoked), the sleep counters and the
posted events are as before, and ble_circ_pop has returned true. When the
frame fits the free space, the call returns and the queue holds the bytes it
held followed by the frame of the string. -/
theorem ble_write_while_busy (K : Consts) (s : Sys) (string : List Nat)
    (hbusy : leuart_tx_busy s = true) :
    ble_write K string s =
      (ble_circ_push string s.ble_cbuf).lift (fun b => { s with ble_cbuf := b }) ∧
    (∀ s', (ble_write K string s).state = some s' →
      s'.leuart_sm = s.leuart_sm ∧ s'.LEUART0 = s.LEUART0 ∧
      s'.lowest_energy_mode = s.lowest_energy_mode ∧ s'.posted = s.posted ∧
      ble_circ_pop K CIRC_OPER s' = Outcome.ok true s') ∧
    (∀ bytes, Initialised s.ble_cbuf → Holds s.ble_cbuf bytes → (∀ x ∈ string, x ≠ 0) →
      bytes.length + (string.length + 1) < 64 →
      ∃ b', ble_write K string s = Outcome.ok () { s with ble_cbuf := b' } ∧
        Holds b' (bytes ++ frame string) ∧ b'.read_ptr = s.ble_cbuf.read_ptr) := by
  have hbusy' : s.leuart_sm.SMbusy = true := hbusy
  have hpop : ∀ b : BLE_CIRCULAR_BUF, ble_circ_pop K CIRC_OPER { s with ble_cbuf := b } =
      Outcome.ok true { s with ble_cbuf := b } := by
    intro b
    simp only [ble_circ_pop, leuart_tx_busy, hbusy', if_true]
  have hw : ble_write K string s =
      (ble_circ_push string s.ble_cbuf).lift (fun b => { s with ble_cbuf := b }) := by
    simp only [ble_write]
    cases ble_circ_push string s.ble_cbuf with
    | ok a b => simp only [Outcome.lift, Outcome.bind, hpop]
    | fatal b => rfl
    | diverge => rfl
  refine ⟨hw, fun s' hs' => ?_, fun bytes hinit hb hnul hfit => ?_⟩
  · rw [hw, state_lift, Option.map_eq_some'] at hs'
    obtain ⟨b, _, rfl⟩ := hs'
    exact ⟨rfl, rfl, rfl, rfl, hpop b⟩
  · obtain ⟨b', g1, _, g3, g4, _⟩ := ble_circ_push_holds string bytes s.ble_cbuf hinit hb hnul hfit
    refine ⟨b', ?_, g3, g4⟩
    rw [hw, g1]
    rfl

/-- Claim C22, instance: a write of "AB" while the transmission of "Hi" is
about to complete. -/
theorem ble_write_while_busy_witness :
    leuart_tx_busy closingState = true ∧
    (ble_write demoConsts [65, 66] closingState).isOk = true ∧
    ble_write demoConsts [65, 66] closingState =
      (ble_circ_push [65, 66] closingState.ble_cbuf).lift
        (fun b => { closingState with ble_cbuf := b }) :=
  ⟨rfl, by decide, (ble_write_while_busy demoConsts closingState [65, 66] rfl).1⟩

/-- Claim C25, amended. Start from a state in which the queue is empty (read
index equal to write index, at any position of the array) and the transmitter
is idle. For NUL-free payloads a and b with (|a| + 1) + (|b| + 1) below
ble_circ_space(), push(a), push(b), pop(diagnostic), pop(diagnostic) all
return; the first pop captures a and the second b, each capture NUL-padded so
that its string length is the length of the payload; the free space rises by
|a| + 1 at the first pop and by |b| + 1 at the second, back to its value before
the pushes. -/
theorem ble_two_frames_fifo (K : Consts) (s : Sys) (a b : List Nat)
    (hinit : Initialised s.ble_cbuf)
    (hempty : s.ble_cbuf.read_ptr = s.ble_cbuf.write_ptr)
    (hidle : leuart_tx_busy s = false)
    (ha : ∀ x ∈ a, x ≠ 0) (hb : ∀ x ∈ b, x ≠ 0)
    (hfit : (a.length + 1) + (b.length + 1) < ble_circ_space s.ble_cbuf) :
    ∃ b1 b2 s3 s4,
      ble_circ_push a s.ble_cbuf = Outcome.ok () b1 ∧
      ble_circ_push b b1 = Outcome.ok () b2 ∧
      ble_circ_pop K CIRC_TEST { s with ble_cbuf := b2 } = Outcome.ok false s3 ∧
      s3.result_str = capture a ∧ strlen s3.result_str = a.length ∧
      ble_circ_space s3.ble_cbuf = ble_circ_space b2 + (a.length + 1) ∧
      ble_circ_pop K CIRC_TEST s3 = Outcome.ok false s4 ∧
      s4.result_str = capture b ∧ strlen s4.result_str = b.length ∧
      ble_circ_space s4.ble_cbuf = ble_circ_space s3.ble_cbuf + (b.length + 1) ∧
      ble_circ_space s4.ble_cbuf = ble_circ_space s.ble_cbuf := by
  have h0 := holds_nil_of_empty s.ble_cbuf hinit hempty
  have hsp := holds_space s.ble_cbuf [] hinit h0
  rw [hsp, List.length_nil] at hfit
  obtain ⟨b1, p1, i1, k1, _, sp1⟩ := ble_circ_push_holds a [] s.ble_cbuf hinit h0 ha
    (by rw [List.length_nil]; omega)
  rw [List.nil_append] at k1
  obtain ⟨b2, p2, i2, k2, _, sp2⟩ := ble_circ_push_holds b (frame a) b1 i1 k1 hb
    (by rw [frame, List.length_cons]; omega)
  obtain ⟨b3, q3, i3, k3, _, _, sp3⟩ := ble_circ_pop_test_holds K { s with ble_cbuf := b2 } a
    (frame b) i2 k2 hidle
  have k3' : Holds b3 (frame b ++ []) := by rw [List.append_nil]; exact k3
  obtain ⟨b4, q4, i4, k4, _, _, sp4⟩ := ble_circ_pop_test_holds K
    { s with ble_cbuf := b3, result_str := capture a } b [] i3 k3' hidle
  have hC : CSIZE = 64 := rfl
  refine ⟨b1, b2, _, _, p1, p2, q3, rfl, strlen_capture a ha (by rw [hC]; omega), sp3, q4, rfl,
    strlen_capture b hb (by rw [hC]; omega), sp4, ?_⟩
  have e4 : ble_circ_space b4 = ble_circ_space b3 + (b.length + 1) := sp4
  have e3 : ble_circ_space b3 = ble_circ_space b2 + (a.length + 1) := sp3
  show ble_circ_space b4 = ble_circ_space s.ble_cbuf
  omega

set_option maxRecDepth 100000 in
/-- Claim C25, instance: the 25-byte and the 5-byte test string pushed onto the
empty queue at index 51; the frames wrap the end of the array (the write index
ends below the read index) and both pops capture their payload. -/
theorem ble_two_frames_fifo_witness :
    (Initialised wrapState.ble_cbuf ∧
      wrapState.ble_cbuf.read_ptr = wrapState.ble_cbuf.write_ptr ∧
      leuart_tx_busy wrapState = false ∧
      (∀ x ∈ test_str.getD 1 [], x ≠ 0) ∧ (∀ x ∈ test_str.getD 2 [], x ≠ 0) ∧
      ((test_str.getD 1 []).length + 1) + ((test_str.getD 2 []).length + 1) <
        ble_circ_space wrapState.ble_cbuf) ∧
    ∃ b1 b2 s3 s4,
      ble_circ_push (test_str.getD 1 []) wrapState.ble_cbuf = Outcome.ok () b1 ∧
      ble_circ_push (test_str.getD 2 []) b1 = Outcome.ok () b2 ∧
      b2.write_ptr < b2.read_ptr ∧
      ble_circ_pop demoConsts CIRC_TEST { wrapState with ble_cbuf := b2 } =
        Outcome.ok false s3 ∧
      s3.result_str = capture (test_str.getD 1 []) ∧
      ble_circ_pop demoConsts CIRC_TEST s3 = Outcome.ok false s4 ∧
      s4.result_str = capture (test_str.getD 2 []) :=
  have h : Initialised wrapState.ble_cbuf ∧
      wrapState.ble_cbuf.read_ptr = wrapState.ble_cbuf.write_ptr ∧
      leuart_tx_busy wrapState = false ∧
      (∀ x ∈ test_str.getD 1 [], x ≠ 0) ∧ (∀ x ∈ test_str.getD 2 [], x ≠ 0) ∧
      ((test_str.getD 1 []).length + 1) + ((test_str.getD 2 []).length + 1) <
        ble_circ_space wrapState.ble_cbuf :=
    ⟨⟨by decide, by decide, by decide, by decide, by decide⟩, rfl, rfl, by decide, by decide,
      by decide⟩
  ⟨h, (ble_two_frames_fifo demoConsts wrapState (test_str.getD 1 []) (test_str.getD 2 [])
      h.1 h.2.1 h.2.2.1 h.2.2.2.1 h.2.2.2.2.1 h.2.2.2.2.2).imp fun b1 h1 => h1.imp fun b2 h2 =>
        h2.imp fun _ h3 => h3.imp fun _ h =>
          ⟨h.1, h.2.1, by
            have e1 : ble_circ_push (test_str.getD 1 []) wrapState.ble_cbuf =
              Outcome.ok () b1 := h.1
            have e2 : ble_circ_push (test_str.getD 2 []) b1 = Outcome.ok () b2 := h.2.1
            injection (e1.symm.trans rfl) with _ hb1
            subst hb1
            injection (e2.symm.trans rfl) with _ hb2
            subst hb2
            decide,
            h.2.2.1, h.2.2.2.1, h.2.2.2.2.2.2.1, h.2.2.2.2.2.2.2.1⟩⟩

set_option maxRecDepth 100000 in
/-- Claim C25, counterexample to the statement as written: the state after
ble_circ_push("Hi") is reachable, its transmitter is idle and its free space is
61; after push("A") and push("B") the first diagnostic pop captures "Hi", the
frame that was queued before, not "A". -/
theorem ble_circ_pop_takes_oldest_frame :
    ∃ b0 s3, ble_circ_push [72, 105] bootState.ble_cbuf = Outcome.ok () b0 ∧
      leuart_tx_busy { bootState with ble_cbuf := b0 } = false ∧
      ([65].length + 1) + ([66].length + 1) < ble_circ_space b0 ∧
      queue_calls demoConsts
        [QUEUE_CALL.push [65], QUEUE_CALL.push [66], QUEUE_CALL.pop CIRC_TEST]
        { bootState with ble_cbuf := b0 } = Outcome.ok () s3 ∧
      s3.result_str = capture [72, 105] ∧ s3.result_str ≠ capture [65] :=
  ⟨_, _, rfl, rfl, by decide, rfl, by decide, by decide⟩
/-- The operational pop of a queue that holds the frame of p in front: the
frame leaves the queue and a transmission of p and its terminating NUL is
started. -/
theorem ble_circ_pop_oper_holds (K : Consts) (s : Sys) (p rest : List Nat)
    (hinit : Initialised s.ble_cbuf) (hb : Holds s.ble_cbuf (frame p ++ rest))
    (hidle : leuart_tx_busy s = false) (hnul : ∀ x ∈ p, x ≠ 0)
    (hcap : p.length + 2 ≤ s.leuart_sm.output.length)
    (hEM : K.LEUART_TX_EM < s.lowest_energy_mode.length)
    (hblock : s.lowest_energy_mode.getD K.LEUART_TX_EM 0 < 4) :
    ∃ b' out, ble_circ_pop K false s = Outcome.ok false { s with
        ble_cbuf := b',
        leuart_sm := { s.leuart_sm with
          leuart := 0, length := p.length + 1, count := 0, output := out, SMbusy := true },
        lowest_energy_mode := s.lowest_energy_mode.set K.LEUART_TX_EM
          (s.lowest_energy_mode.getD K.LEUART_TX_EM 0 + 1),
        LEUART0 := { s.LEUART0 with
          CMD := s.LEUART0.CMD ++ [LEUART_CMD.TXEN], IEN_TXBL := true } } ∧
      Initialised b' ∧ Holds b' rest ∧ out.length = s.leuart_sm.output.length ∧
      ∀ i, i ≤ p.length → out.getD i 0 = (p ++ [0]).getD i 0 := by
  obtain ⟨hcl, hs, hm, hr, hw⟩ := hinit
  have hcl' : s.ble_cbuf.cbuf.length = 64 := hcl
  have hm' : s.ble_cbuf.size_mask = 63 := hm
  have hr' : s.ble_cbuf.read_ptr < 64 := hr
  have hw' : s.ble_cbuf.write_ptr < 64 := hw
  obtain ⟨hlen, hwp, hcont⟩ := hb
  simp only [List.length_append, frame, List.length_cons] at hlen hwp
  have hcont' : ∀ i, i < p.length + 1 + rest.length →
      s.ble_cbuf.cbuf.getD ((s.ble_cbuf.read_ptr + i) % 64) 0 = (frame p ++ rest).getD i 0 :=
    fun i hi => hcont i (by simp only [List.length_append, frame, List.length_cons]; exact hi)
  have hspace := ble_circ_space_eq s.ble_cbuf ⟨hcl, hs, hm, hr, hw⟩
  have hne : ¬ (ble_circ_space s.ble_cbuf = CSIZE) := by
    rw [hspace, CSIZE, hwp]; omega
  have hhead : s.ble_cbuf.cbuf.getD s.ble_cbuf.read_ptr 0 % 256 = p.length + 1 := by
    have := hcont' 0 (by omega)
    rw [Nat.add_zero, Nat.mod_eq_of_lt hr'] at this
    rw [this, frame, List.cons_append, List.getD_cons_zero]
    omega
  obtain ⟨dst', h0, h1, h2, h3⟩ := ble_circ_pop_loop_spec (p.length + 1) (by omega) p.length 256 0
    (List.replicate (p.length + 1 + 1) 0)
    { s.ble_cbuf with read_ptr := (s.ble_cbuf.read_ptr + 1) % 64 }
    (by omega) (by omega) hm' (Nat.mod_lt _ (by decide))
    (by rw [List.length_replicate]; omega)
  simp only [] at h0 h2
  rw [List.length_replicate] at h1
  have hstr : dst'.set (0 + p.length) 0 = p ++ [0, 0] := by
    apply list_ext_getD
    · rw [List.length_set, h1, List.length_append, List.length_cons, List.length_cons,
        List.length_nil]
    · intro j hj
      rw [List.length_set, h1] at hj
      rw [Nat.zero_add]
      by_cases hjp : j < p.length
      · have := h2 j hjp (by rw [List.length_replicate, Nat.zero_add]; omega)
        rw [Nat.zero_add] at this
        rw [getD_set_other _ _ _ _ _ (by omega), this, getD_append_left _ _ _ _ hjp,
          show ((s.ble_cbuf.read_ptr + 1) % 64 + j) % 64 = (s.ble_cbuf.read_ptr + (j + 1)) % 64
            by omega,
          hcont' (j + 1) (by omega), frame, List.cons_append, List.getD_cons_succ,
          getD_append_left _ _ _ _ hjp]
      · obtain ⟨k, rfl⟩ : ∃ k, j = p.length + k := ⟨j - p.length, by omega⟩
        rw [getD_append_right]
        by_cases hk : k = 0
        · subst hk
          rw [Nat.add_zero, getD_set_self _ _ _ _ (by omega)]
          rfl
        · have hk1 : k = 1 := by omega
          subst hk1
          rw [getD_set_other _ _ _ _ _ (by omega), h3 _ (Or.inr (by omega)),
            getD_replicate_zero]
          rfl
  have hstrlen : strlen (p ++ [0, 0]) = p.length := strlen_append_zero p [0] hnul
  have hinit' : Initialised
      { s.ble_cbuf with read_ptr := ((s.ble_cbuf.read_ptr + 1) % 64 + p.length) % 64 } :=
    ⟨hcl, hs, hm, Nat.mod_lt _ (by decide), hw⟩
  refine ⟨{ s.ble_cbuf with read_ptr := ((s.ble_cbuf.read_ptr + 1) % 64 + p.length) % 64 },
    strcpy s.leuart_sm.output (p ++ [0, 0]), ?_, hinit', ⟨by omega, ?_, ?_⟩, ?_, ?_⟩
  · simp only [ble_circ_pop, hidle, Bool.false_eq_true, if_false, if_neg hne, hhead]
    rw [update_circ_readindex_one _ hm', h0]
    simp only []
    rw [hstr, leuart_start_returns K]
    · simp only [Outcome.bind]
      rw [Nat.mod_eq_of_lt (by omega : p.length + 1 < 2 ^ 32)]
    · exact hidle
    · exact hEM
    · exact hblock
  · simp only []
    rw [hwp]; omega
  · intro i hi
    simp only []
    rw [show (((s.ble_cbuf.read_ptr + 1) % 64 + p.length) % 64 + i) % 64 =
        (s.ble_cbuf.read_ptr + (p.length + 1 + i)) % 64 by omega,
      hcont' (p.length + 1 + i) (by omega)]
    have := getD_append_right (frame p) rest i 0
    rw [frame, List.length_cons] at this
    exact this
  · exact strcpy_at_length _ _ _
  · intro i hi
    rw [strcpy_getD _ _ i (by rw [hstrlen]; omega) (by rw [hstrlen]; exact hi)]
    by_cases hip : i < p.length
    · rw [getD_append_left _ _ _ _ hip, getD_append_left _ _ _ _ hip]
    · have hip' : i = p.length + 0 := by omega
      rw [hip', getD_append_right, getD_append_right]
      rfl

/-- A transmission that has just been started runs to its completion: every
byte of the internal buffer up to the length is written, in order, and the
transmit-complete handler leaves the engine idle with the event posted. -/
theorem leuart_transmission_runs (K : Consts) (s : Sys) (c' : List Int)
    (hst : s.leuart_sm.current_state = INIT_UART) (hien : s.LEUART0.IEN_TXBL = true)
    (hcount : s.leuart_sm.count = 0) (hlen : s.leuart_sm.length < 2 ^ 32)
    (hpos : 1 ≤ s.leuart_sm.length)
    (hc : sleep_unblock_mode K.LEUART_TX_EM s.lowest_energy_mode = Outcome.ok () c') :
    leuart_transmission K s = Outcome.ok () { s with
      LEUART0 := { s.LEUART0 with
        TXDATA := s.LEUART0.TXDATA ++
          (List.range s.leuart_sm.length).map fun i => s.leuart_sm.output.getD i 0,
        IEN_TXBL := false, IEN_TXC := false,
        CMD := s.LEUART0.CMD ++ [LEUART_CMD.TXDIS] },
      event_scheduled := s.event_scheduled ||| s.tx_done_evt,
      posted := s.posted ++ [s.tx_done_evt],
      lowest_energy_mode := c',
      leuart_sm := { s.leuart_sm with
        count := s.leuart_sm.length, SMbusy := false, current_state := INIT_UART } } := by
  rw [leuart_transmission, leuart_irqs_append, txbl_irqs_all K s hst hien hcount hlen hpos]
  simp only [Outcome.bind, leuart_irqs]
  rw [txc_irq_finishes K _ c']
  · rfl
  · rfl
  · exact hc
/-- The wire bytes of a list with one more payload at the end. -/
theorem wire_bytes_append (sent : List (List Nat)) (p : List Nat) :
    wire_bytes (sent ++ [p]) = wire_bytes sent ++ (p ++ [0]) := by
  induction sent with
  | nil => simp [wire_bytes]
  | cons q qs ih =>
    show (q ++ [0]) ++ wire_bytes (qs ++ [p]) = ((q ++ [0]) ++ wire_bytes qs) ++ (p ++ [0])
    rw [ih]
    simp only [List.append_assoc]

/-- The frames of a list with one more payload at the end. -/
theorem frames_append (qs : List (List Nat)) (q : List Nat) :
    frames (qs ++ [q]) = frames qs ++ frame q := by
  induction qs with
  | nil => simp [frames]
  | cons p ps ih =>
    show frame p ++ frames (ps ++ [q]) = (frame p ++ frames ps) ++ frame q
    rw [ih, List.append_assoc]

/-- The framed size of a list with one more payload at the end. -/
theorem framed_size_append (qs : List (List Nat)) (q : List Nat) :
    framed_size (qs ++ [q]) = framed_size qs + (q.length + 1) := by
  induction qs with
  | nil => simp [framed_size]
  | cons p ps ih =>
    show (p.length + 1) + framed_size (ps ++ [q]) =
      ((p.length + 1) + framed_size ps) + (q.length + 1)
    rw [ih]
    omega

/-- After the TX-done event has been posted its bit is pending. -/
theorem tx_done_pending (e : Nat) : (e ||| BLE_TX_DONE_CB) &&& BLE_TX_DONE_CB ≠ 0 := by
  intro h
  have h5 : ((e ||| BLE_TX_DONE_CB) &&& BLE_TX_DONE_CB).testBit 5 = true := by
    rw [Nat.testBit_and, Nat.testBit_or]
    have : BLE_TX_DONE_CB.testBit 5 = true := by decide
    rw [this]
    simp
  rw [h] at h5
  simp at h5

/-- The bytes a transmission of p writes: p and the terminating NUL. -/
theorem sent_bytes (out p : List Nat)
    (h : ∀ i, i ≤ p.length → out.getD i 0 = (p ++ [0]).getD i 0) :
    (List.range (p.length + 1)).map (fun i => out.getD i 0) = p ++ [0] := by
  apply list_ext_getD
  · simp
  · intro j hj
    rw [List.length_map, List.length_range] at hj
    rw [getD_map_range _ _ j hj]
    exact h j (by omega)

/-- The transmission in flight runs to completion. -/
theorem draining_transmits (K : Consts) (s0 s : Sys) (sent : List (List Nat)) (p : List Nat)
    (queued : List (List Nat)) (hEM0 : K.LEUART_TX_EM < s0.lowest_energy_mode.length)
    (hnn : 0 ≤ s0.lowest_energy_mode.getD K.LEUART_TX_EM 0)
    (hd : Draining K s0 s sent p queued) :
    ∃ s1, leuart_transmission K s = Outcome.ok () s1 ∧ Idle s0 s1 (sent ++ [p]) queued ∧
      s1.event_scheduled &&& BLE_TX_DONE_CB ≠ 0 := by
  obtain ⟨d1, d2, d3, d4, d5, d6, d7, d8, d9, d10, d11, d12, d13, d14, d15, d16⟩ := hd
  have hC : CSIZE = 64 := rfl
  have hEM : K.LEUART_TX_EM < s.lowest_energy_mode.length := by rw [d15]; exact hEM0
  have hpos : 0 < s.lowest_energy_mode.getD K.LEUART_TX_EM 0 := by
    rw [d16, if_pos rfl]; omega
  have hc : sleep_unblock_mode K.LEUART_TX_EM s.lowest_energy_mode =
      Outcome.ok () (s.lowest_energy_mode.set K.LEUART_TX_EM
        (s.lowest_energy_mode.getD K.LEUART_TX_EM 0 - 1)) := by
    simp only [sleep_unblock_mode, gt_iff_lt, if_pos hpos, getD_set_self _ _ _ 0 hEM]
    rw [if_pos (by omega)]
  refine ⟨_, leuart_transmission_runs K s _ d4 d10 d5 (by rw [d6]; omega) (by rw [d6]; omega) hc,
    ⟨d1, d2, rfl, rfl, d9, ?_, ?_, ?_, d14, ?_, ?_⟩, ?_⟩
  · show s.LEUART0.TXDATA ++ (List.range s.leuart_sm.length).map
      (fun i => s.leuart_sm.output.getD i 0) = s0.LEUART0.TXDATA ++ wire_bytes (sent ++ [p])
    rw [d6, sent_bytes _ p d8, d11, wire_bytes_append, List.append_assoc]
  · show s.LEUART0.CMD ++ [LEUART_CMD.TXDIS] =
      s0.LEUART0.CMD ++ tx_commands (sent ++ [p]).length
    rw [d12, List.length_append, List.length_singleton, tx_commands]
    simp only [List.append_assoc, List.singleton_append]
  · show s.posted ++ [s.tx_done_evt] =
      s0.posted ++ List.replicate (sent ++ [p]).length BLE_TX_DONE_CB
    rw [d13, d14, List.length_append, List.length_singleton, List.replicate_succ',
      List.append_assoc]
  · show (s.lowest_energy_mode.set K.LEUART_TX_EM _).length = s0.lowest_energy_mode.length
    rw [List.length_set, d15]
  · intro d
    show (s.lowest_energy_mode.set K.LEUART_TX_EM _).getD d 0 = s0.lowest_energy_mode.getD d 0
    by_cases hde : d = K.LEUART_TX_EM
    · subst hde
      rw [getD_set_self _ _ _ 0 hEM, d16, if_pos rfl]
      omega
    · rw [getD_set_other _ _ _ _ 0 (Ne.symm hde), d16, if_neg hde]
      omega
  · show (s.event_scheduled ||| s.tx_done_evt) &&& BLE_TX_DONE_CB ≠ 0
    rw [d14]
    exact tx_done_pending _

/-- An idle engine and a frame in front of the queue: the operational pop
starts the transmission of that frame. -/
theorem idle_pop_starts (K : Consts) (s0 s : Sys) (sent : List (List Nat)) (q : List Nat)
    (queued : List (List Nat)) (hEM0 : K.LEUART_TX_EM < s0.lowest_energy_mode.length)
    (hlt : s0.lowest_energy_mode.getD K.LEUART_TX_EM 0 < 4)
    (hnul : ∀ x ∈ q, x ≠ 0) (hcap : q.length + 2 ≤ s0.leuart_sm.output.length)
    (hi : Idle s0 s sent (q :: queued)) :
    ∃ s1, ble_circ_pop K false s = Outcome.ok false s1 ∧ Draining K s0 s1 sent q queued := by
  obtain ⟨i1, i2, i3, i4, i5, i6, i7, i8, i9, i10, i11⟩ := hi
  have hC : CSIZE = 64 := rfl
  have hEM : K.LEUART_TX_EM < s.lowest_energy_mode.length := by rw [i10]; exact hEM0
  have hq : q.length < 64 := by
    have := i2.1
    simp only [frames, frame, List.length_append, List.length_cons] at this
    omega
  obtain ⟨b', out, h1, h2, h3, h4, h5⟩ := ble_circ_pop_oper_holds K s q (frames queued) i1 i2 i3
    hnul (by rw [i5]; exact hcap) hEM (by rw [i11]; exact hlt)
  refine ⟨_, h1, h2, h3, rfl, i4, rfl, rfl, by rw [hC]; exact hq, h5, h4.trans i5, rfl, i6, ?_,
    i8, i9, ?_, ?_⟩
  · show s.LEUART0.CMD ++ [LEUART_CMD.TXEN] = _
    rw [i7]
  · show (s.lowest_energy_mode.set K.LEUART_TX_EM _).length = s0.lowest_energy_mode.length
    rw [List.length_set, i10]
  · intro d
    show (s.lowest_energy_mode.set K.LEUART_TX_EM _).getD d 0 = _
    by_cases hde : d = K.LEUART_TX_EM
    · subst hde
      rw [getD_set_self _ _ _ 0 hEM, i11, if_pos rfl]
    · rw [getD_set_other _ _ _ _ 0 (Ne.symm hde), i11, if_neg hde, Int.add_zero]

/-- Clearing the TX-done event changes nothing else in an idle state. -/
theorem idle_remove_event (s0 s : Sys) (sent queued : List (List Nat))
    (hi : Idle s0 s sent queued) :
    Idle s0 (remove_scheduled_event BLE_TX_DONE_CB s) sent queued := hi

/-- The foreground handler of the TX-done event with a frame waiting: the next
transmission is started. -/
theorem tx_done_starts_next (K : Consts) (s0 s : Sys) (sent : List (List Nat)) (q : List Nat)
    (queued : List (List Nat)) (hEM0 : K.LEUART_TX_EM < s0.lowest_energy_mode.length)
    (hlt : s0.lowest_energy_mode.getD K.LEUART_TX_EM 0 < 4)
    (hnul : ∀ x ∈ q, x ≠ 0) (hcap : q.length + 2 ≤ s0.leuart_sm.output.length)
    (hi : Idle s0 s sent (q :: queued)) (hev : s.event_scheduled &&& BLE_TX_DONE_CB ≠ 0) :
    ∃ s1, ble_tx_done_cb K s = Outcome.ok () s1 ∧ Draining K s0 s1 sent q queued := by
  obtain ⟨s1, h1, h2⟩ := idle_pop_starts K s0 _ sent q queued hEM0 hlt hnul hcap
    (idle_remove_event s0 s sent (q :: queued) hi)
  refine ⟨s1, ?_, h2⟩
  simp only [ble_tx_done_cb, get_scheduled_events, if_pos hev, h1, Outcome.bind]

/-- The foreground handler of the TX-done event with the queue empty: nothing
is started. -/
theorem tx_done_finds_empty (K : Consts) (s0 s : Sys) (sent : List (List Nat))
    (hi : Idle s0 s sent []) (hev : s.event_scheduled &&& BLE_TX_DONE_CB ≠ 0) :
    ∃ s1, ble_tx_done_cb K s = Outcome.ok () s1 ∧ Idle s0 s1 sent [] := by
  have hi' := idle_remove_event s0 s sent [] hi
  obtain ⟨i1, i2, i3, _⟩ := hi'
  have hsp := holds_space _ [] i1 i2
  refine ⟨remove_scheduled_event BLE_TX_DONE_CB s, ?_, hi⟩
  have hfull : ble_circ_space (remove_scheduled_event BLE_TX_DONE_CB s).ble_cbuf = CSIZE := by
    rw [hsp]; rfl
  simp only [ble_tx_done_cb, get_scheduled_events, if_pos hev, ble_circ_pop, leuart_tx_busy, i3,
    Bool.false_eq_true, if_false, hfull, if_true, Outcome.bind]
/-- A write with the engine idle and the queue empty starts the transmission
of its payload. -/
theorem idle_write_starts (K : Consts) (s0 s : Sys) (sent : List (List Nat)) (p : List Nat)
    (hEM0 : K.LEUART_TX_EM < s0.lowest_energy_mode.length)
    (hlt : s0.lowest_energy_mode.getD K.LEUART_TX_EM 0 < 4)
    (hnul : ∀ x ∈ p, x ≠ 0) (hcap : p.length + 2 ≤ s0.leuart_sm.output.length)
    (hfit : p.length + 1 < 64) (hi : Idle s0 s sent []) :
    ∃ s1, ble_write K p s = Outcome.ok () s1 ∧ Draining K s0 s1 sent p [] := by
  obtain ⟨i1, i2, i3, i4, i5, i6, i7, i8, i9, i10, i11⟩ := hi
  obtain ⟨b1, g1, g2, g3, _, _⟩ := ble_circ_push_holds p [] s.ble_cbuf i1 i2 hnul
    (by rw [List.length_nil]; omega)
  have hidle1 : Idle s0 { s with ble_cbuf := b1 } sent [p] := by
    refine ⟨g2, ?_, i3, i4, i5, i6, i7, i8, i9, i10, i11⟩
    show Holds b1 (frame p ++ [])
    rw [List.append_nil]
    exact g3
  obtain ⟨s1, h1, h2⟩ := idle_pop_starts K s0 _ sent p [] hEM0 hlt hnul hcap hidle1
  refine ⟨s1, ?_, h2⟩
  simp only [ble_write, g1, Outcome.lift, Outcome.bind, CIRC_OPER, h1]

/-- A write while a transmission is in flight puts its frame at the end of the
queue and changes nothing else. -/
theorem draining_write_queues (K : Consts) (s0 s : Sys) (sent : List (List Nat))
    (p : List Nat) (queued : List (List Nat)) (q : List Nat)
    (hnul : ∀ x ∈ q, x ≠ 0) (hfit : framed_size queued + (q.length + 1) < 64)
    (hd : Draining K s0 s sent p queued) :
    ∃ s1, ble_write K q s = Outcome.ok () s1 ∧ Draining K s0 s1 sent p (queued ++ [q]) := by
  obtain ⟨d1, d2, d3, d4, d5, d6, d7, d8, d9, d10, d11, d12, d13, d14, d15, d16⟩ := hd
  obtain ⟨b1, g1, g2, g3, _, _⟩ := ble_circ_push_holds q (frames queued) s.ble_cbuf d1 d2 hnul
    (by rw [frames_length]; exact hfit)
  refine ⟨{ s with ble_cbuf := b1 }, ?_, g2, ?_, d3, d4, d5, d6, d7, d8, d9, d10, d11, d12, d13,
    d14, d15, d16⟩
  · simp only [ble_write, g1, Outcome.lift, Outcome.bind, CIRC_OPER, ble_circ_pop, leuart_tx_busy,
      d3, if_true]
  · rw [frames_append]
    exact g3

/-- Writes made back to back while a transmission is in flight queue their
frames in order. -/
theorem draining_writes_queue (K : Consts) (s0 : Sys) (sent : List (List Nat)) (p : List Nat) :
    ∀ (qs queued : List (List Nat)) (s : Sys), Draining K s0 s sent p queued →
      (∀ q ∈ qs, ∀ x ∈ q, x ≠ 0) → framed_size queued + framed_size qs < 64 →
      ∃ s1, ble_writes K qs s = Outcome.ok () s1 ∧ Draining K s0 s1 sent p (queued ++ qs) := by
  intro qs
  induction qs with
  | nil =>
    intro queued s hd _ _
    exact ⟨s, rfl, by rw [List.append_nil]; exact hd⟩
  | cons q qs ih =>
    intro queued s hd hnul hfit
    have hfit' : framed_size queued + ((q.length + 1) + framed_size qs) < 64 := hfit
    obtain ⟨s1, h1, h2⟩ := draining_write_queues K s0 s sent p queued q
      (hnul q (List.mem_cons_self q qs)) (by omega) hd
    obtain ⟨s2, h3, h4⟩ := ih (queued ++ [q]) s1 h2
      (fun r hr => hnul r (List.mem_cons_of_mem q hr))
      (by rw [framed_size_append]; omega)
    refine ⟨s2, ?_, ?_⟩
    · simp only [ble_writes, h1, Outcome.bind]
      exact h3
    · rw [List.append_assoc, List.singleton_append] at h4
      exact h4

/-- The draining of a transmission in flight and the frames queued behind it. -/
theorem drain_all (K : Consts) (s0 : Sys)
    (hEM0 : K.LEUART_TX_EM < s0.lowest_energy_mode.length)
    (hnn : 0 ≤ s0.lowest_energy_mode.getD K.LEUART_TX_EM 0)
    (hlt : s0.lowest_energy_mode.getD K.LEUART_TX_EM 0 < 4) :
    ∀ (queued sent : List (List Nat)) (p : List Nat) (s : Sys),
      Draining K s0 s sent p queued →
      (∀ q ∈ queued, ∀ x ∈ q, x ≠ 0) →
      (∀ q ∈ queued, q.length + 2 ≤ s0.leuart_sm.output.length) →
      ∃ s1, drain K (queued.length + 1) s = Outcome.ok () s1 ∧
        Idle s0 s1 (sent ++ p :: queued) [] := by
  intro queued
  induction queued with
  | nil =>
    intro sent p s hd _ _
    obtain ⟨s1, h1, h2, h3⟩ := draining_transmits K s0 s sent p [] hEM0 hnn hd
    obtain ⟨s2, h4, h5⟩ := tx_done_finds_empty K s0 s1 (sent ++ [p]) h2 h3
    refine ⟨s2, ?_, h5⟩
    simp only [List.length_nil, Nat.zero_add, drain, h1, h4, Outcome.bind]
  | cons q rest ih =>
    intro sent p s hd hnul hcap
    obtain ⟨s1, h1, h2, h3⟩ := draining_transmits K s0 s sent p (q :: rest) hEM0 hnn hd
    obtain ⟨s2, h4, h5⟩ := tx_done_starts_next K s0 s1 (sent ++ [p]) q rest hEM0 hlt
      (hnul q (List.mem_cons_self q rest)) (hcap q (List.mem_cons_self q rest)) h2 h3
    obtain ⟨s3, h6, h7⟩ := ih (sent ++ [p]) q s2 h5
      (fun r hr => hnul r (List.mem_cons_of_mem q hr))
      (fun r hr => hcap r (List.mem_cons_of_mem q hr))
    refine ⟨s3, ?_, ?_⟩
    · rw [List.length_cons, drain]
      simp only [h1, h4, Outcome.bind]
      exact h6
    · rw [List.append_assoc, List.singleton_append] at h7
      exact h7

/-- Claim C26. Start with the queue empty, the engine idle in INIT_UART, the
TX-done event set to BLE_TX_DONE_CB and the counter of LEUART_TX_EM between 0
and 3. For every list of k NUL-free payloads whose framed sizes total less
than the capacity 64 and which fit the internal buffer of the engine with
their terminating NUL, the k back-to-back ble_write calls return, and so do k
rounds of running the transmission in flight to completion and calling
ble_tx_done_cb. Afterwards exactly k transmissions have been started (k
transmitter-enable commands, each followed by its disable), the bytes written
are those of the payloads in push order, each followed by its NUL, the TX-done
event has been posted k times, the queue is empty, the engine is idle and the
sleep counters are as at the start. -/
theorem ble_writes_drain (K : Consts) (s : Sys) (ps : List (List Nat))
    (hinit : Initialised s.ble_cbuf)
    (hempty : s.ble_cbuf.read_ptr = s.ble_cbuf.write_ptr)
    (hidle : leuart_tx_busy s = false)
    (hst : s.leuart_sm.current_state = INIT_UART)
    (hevt : s.tx_done_evt = BLE_TX_DONE_CB)
    (hEM : K.LEUART_TX_EM < s.lowest_energy_mode.length)
    (hnn : 0 ≤ s.lowest_energy_mode.getD K.LEUART_TX_EM 0)
    (hlt : s.lowest_energy_mode.getD K.LEUART_TX_EM 0 < 4)
    (hnul : ∀ p ∈ ps, ∀ x ∈ p, x ≠ 0)
    (hcap : ∀ p ∈ ps, p.length + 2 ≤ s.leuart_sm.output.length)
    (hfit : framed_size ps < CSIZE) :
    ∃ s1 s2, ble_writes K ps s = Outcome.ok () s1 ∧
      drain K ps.length s1 = Outcome.ok () s2 ∧
      s2.LEUART0.TXDATA = s.LEUART0.TXDATA ++ wire_bytes ps ∧
      s2.LEUART0.CMD = s.LEUART0.CMD ++ tx_commands ps.length ∧
      (s2.LEUART0.CMD.count LEUART_CMD.TXEN = s.LEUART0.CMD.count LEUART_CMD.TXEN + ps.length) ∧
      s2.posted = s.posted ++ List.replicate ps.length BLE_TX_DONE_CB ∧
      ble_circ_space s2.ble_cbuf = CSIZE ∧
      s2.ble_cbuf.read_ptr = s2.ble_cbuf.write_ptr ∧
      leuart_tx_busy s2 = false ∧
      ∀ d, s2.lowest_energy_mode.getD d 0 = s.lowest_energy_mode.getD d 0 := by
  have hC : CSIZE = 64 := rfl
  have hcount : ∀ k, (tx_commands k).count LEUART_CMD.TXEN = k := by
    intro k
    induction k with
    | zero => rfl
    | succ k ih =>
      rw [tx_commands, List.count_append, ih]
      rfl
  have hidle0 : Idle s s [] [] :=
    ⟨hinit, holds_nil_of_empty s.ble_cbuf hinit hempty, hidle, hst, rfl,
      (List.append_nil _).symm, (List.append_nil _).symm, (List.append_nil _).symm, hevt, rfl,
      fun _ => rfl⟩
  have hfinal : ∀ s1 s2, ble_writes K ps s = Outcome.ok () s1 →
      drain K ps.length s1 = Outcome.ok () s2 → Idle s s2 ps [] →
      ∃ s1 s2, ble_writes K ps s = Outcome.ok () s1 ∧
        drain K ps.length s1 = Outcome.ok () s2 ∧
        s2.LEUART0.TXDATA = s.LEUART0.TXDATA ++ wire_bytes ps ∧
        s2.LEUART0.CMD = s.LEUART0.CMD ++ tx_commands ps.length ∧
        (s2.LEUART0.CMD.count LEUART_CMD.TXEN =
          s.LEUART0.CMD.count LEUART_CMD.TXEN + ps.length) ∧
        s2.posted = s.posted ++ List.replicate ps.length BLE_TX_DONE_CB ∧
        ble_circ_space s2.ble_cbuf = CSIZE ∧
        s2.ble_cbuf.read_ptr = s2.ble_cbuf.write_ptr ∧
        leuart_tx_busy s2 = false ∧
        ∀ d, s2.lowest_energy_mode.getD d 0 = s.lowest_energy_mode.getD d 0 := by
    intro s1 s2 h1 h2 hi
    obtain ⟨i1, i2, i3, i4, i5, i6, i7, i8, i9, i10, i11⟩ := hi
    have hr : s2.ble_cbuf.read_ptr < 64 := i1.2.2.2.1
    refine ⟨s1, s2, h1, h2, i6, i7, ?_, i8, ?_, ?_, i3, i11⟩
    · rw [i7, List.count_append, hcount]
    · rw [holds_space _ [] i1 i2]; rfl
    · have hw : s2.ble_cbuf.write_ptr = (s2.ble_cbuf.read_ptr + 0) % 64 := i2.2.1
      rw [Nat.add_zero, Nat.mod_eq_of_lt hr] at hw
      exact hw.symm
  cases ps with
  | nil => exact hfinal s s rfl rfl hidle0
  | cons p qs =>
    have hfit' : (p.length + 1) + framed_size qs < 64 := hfit
    obtain ⟨s1, h1, h2⟩ := idle_write_starts K s s [] p hEM hlt
      (hnul p (List.mem_cons_self p qs)) (hcap p (List.mem_cons_self p qs)) (by omega) hidle0
    obtain ⟨s2, h3, h4⟩ := draining_writes_queue K s [] p qs [] s1 h2
      (fun r hr => hnul r (List.mem_cons_of_mem p hr)) (by rw [framed_size]; omega)
    rw [List.nil_append] at h4
    obtain ⟨s3, h5, h6⟩ := drain_all K s hEM hnn hlt qs [] p s2 h4
      (fun r hr => hnul r (List.mem_cons_of_mem p hr))
      (fun r hr => hcap r (List.mem_cons_of_mem p hr))
    rw [List.nil_append] at h6
    refine hfinal s2 s3 ?_ h5 h6
    simp only [ble_writes, h1, Outcome.bind]
    exact h3

set_option maxRecDepth 100000 in
/-- Claim C26, instance: ble_write("Hi") and ble_write("BLE") on the state
after start-up, then two rounds of draining. -/
theorem ble_writes_drain_witness :
    (Initialised bootState.ble_cbuf ∧
      bootState.ble_cbuf.read_ptr = bootState.ble_cbuf.write_ptr ∧
      leuart_tx_busy bootState = false ∧
      bootState.leuart_sm.current_state = INIT_UART ∧
      bootState.tx_done_evt = BLE_TX_DONE_CB ∧
      demoConsts.LEUART_TX_EM < bootState.lowest_energy_mode.length ∧
      0 ≤ bootState.lowest_energy_mode.getD demoConsts.LEUART_TX_EM 0 ∧
      bootState.lowest_energy_mode.getD demoConsts.LEUART_TX_EM 0 < 4 ∧
      (∀ p ∈ [[72, 105], [66, 76, 69]], ∀ x ∈ p, x ≠ 0) ∧
      (∀ p ∈ [[72, 105], [66, 76, 69]], p.length + 2 ≤ bootState.leuart_sm.output.length) ∧
      framed_size [[72, 105], [66, 76, 69]] < CSIZE) ∧
    ∃ s1 s2, ble_writes demoConsts [[72, 105], [66, 76, 69]] bootState = Outcome.ok () s1 ∧
      drain demoConsts 2 s1 = Outcome.ok () s2 ∧
      s2.LEUART0.TXDATA = [72, 105, 0, 66, 76, 69, 0] ∧
      s2.LEUART0.CMD =
        [LEUART_CMD.TXEN, LEUART_CMD.TXDIS, LEUART_CMD.TXEN, LEUART_CMD.TXDIS] :=
  have h : Initialised bootState.ble_cbuf ∧
      bootState.ble_cbuf.read_ptr = bootState.ble_cbuf.write_ptr ∧
      leuart_tx_busy bootState = false ∧
      bootState.leuart_sm.current_state = INIT_UART ∧
      bootState.tx_done_evt = BLE_TX_DONE_CB ∧
      demoConsts.LEUART_TX_EM < bootState.lowest_energy_mode.length ∧
      0 ≤ bootState.lowest_energy_mode.getD demoConsts.LEUART_TX_EM 0 ∧
      bootState.lowest_energy_mode.getD demoConsts.LEUART_TX_EM 0 < 4 ∧
      (∀ p ∈ [[72, 105], [66, 76, 69]], ∀ x ∈ p, x ≠ 0) ∧
      (∀ p ∈ [[72, 105], [66, 76, 69]], p.length + 2 ≤ bootState.leuart_sm.output.length) ∧
      framed_size [[72, 105], [66, 76, 69]] < CSIZE :=
    ⟨⟨by decide, by decide, by decide, by decide, by decide⟩, rfl, rfl, rfl, rfl, by decide,
      by decide, by decide, by decide, by decide, by decide⟩
  ⟨h, (ble_writes_drain demoConsts bootState [[72, 105], [66, 76, 69]] h.1 h.2.1 h.2.2.1
      h.2.2.2.1 h.2.2.2.2.1 h.2.2.2.2.2.1 h.2.2.2.2.2.2.1 h.2.2.2.2.2.2.2.1 h.2.2.2.2.2.2.2.2.1
      h.2.2.2.2.2.2.2.2.2.1 h.2.2.2.2.2.2.2.2.2.2).imp fun _ h1 => h1.imp fun _ g =>
        ⟨g.1, g.2.1, g.2.2.1, g.2.2.2.1⟩⟩

/-! ## Theorems: i2c.c and leuart.c, protocol violations and completion -/

/-- Claim C31: in a read transaction the protocol violations of the I2C engine
stop at the failing assertion and make no transition. An acknowledge in
READ_MS_BYTE, READ_LS or STOP_END, a negative acknowledge in a state other than
SEND_RPT_START_ADDR, a data-received interrupt in a state other than
READ_MS_BYTE and READ_LS, and a bus-stop-complete in a state other than
STOP_END each end in `EFM_ASSERT(false)` with the state as it was on entry; the
data-received interrupt seen from the handler has read nothing into the record
or the caller's word. -/
theorem i2c_protocol_violations_fatal (K : Consts) (s : Sys)
    (hrw : s.i2c_sm.readWrite = true) :
    ((s.i2c_sm.current_state = READ_MS_BYTE ∨ s.i2c_sm.current_state = READ_LS ∨
        s.i2c_sm.current_state = STOP_END) → ack_int K s = Outcome.fatal s) ∧
    (s.i2c_sm.current_state ≠ SEND_RPT_START_ADDR → nack_int K s = Outcome.fatal s) ∧
    ((s.i2c_sm.current_state ≠ READ_MS_BYTE ∧ s.i2c_sm.current_state ≠ READ_LS) →
      rxdatav_int s = Outcome.fatal s ∧
      ∀ byte, ∃ s', i2c_irq K (I2C_IRQ.RXDATAV byte) s = Outcome.fatal s' ∧
        s'.i2c_sm = s.i2c_sm ∧ s'.mem = s.mem) ∧
    (s.i2c_sm.current_state ≠ STOP_END → mstop_int K s = Outcome.fatal s) := by
  refine ⟨fun h => ?_, fun h => ?_, fun h => ⟨?_, fun byte =>
    ⟨{ s with I2C0 := { s.I2C0 with RXDATA := byte } }, ?_, rfl, rfl⟩⟩, fun h => ?_⟩
  · have h0 : s.i2c_sm.current_state ≠ 0 := by
      rcases h with h | h | h <;> rw [h] <;> decide
    have h1 : s.i2c_sm.current_state ≠ 1 := by
      rcases h with h | h | h <;> rw [h] <;> decide
    have h2 : s.i2c_sm.current_state ≠ 2 := by
      rcases h with h | h | h <;> rw [h] <;> decide
    simp only [ack_int, hrw, if_true, ack_int_read, INIT_SEND_ADDR_R, INIT_SEND_ADDR, SEND_CMD_R,
      SEND_MEASURE_TEMP_NHOLD, QUERY_READY, SEND_RPT_START_ADDR, if_neg h0, if_neg h1, if_neg h2]
    split_ifs <;> rfl
  · have h2 : s.i2c_sm.current_state ≠ 2 := h
    simp only [nack_int, hrw, if_true, nack_int_read, INIT_SEND_ADDR, SEND_CMD_R,
      SEND_MEASURE_TEMP_NHOLD, QUERY_READY, SEND_RPT_START_ADDR, if_neg h2]
    split_ifs <;> rfl
  · have h3 : s.i2c_sm.current_state ≠ 3 := h.1
    have h4 : s.i2c_sm.current_state ≠ 4 := h.2
    simp only [rxdatav_int, INIT_SEND_ADDR, SEND_MEASURE_TEMP_NHOLD, SEND_RPT_START_ADDR,
      READ_MS_BYTE, READ_LS, if_neg h3, if_neg h4]
    split_ifs <;> rfl
  · have h3 : s.i2c_sm.current_state ≠ 3 := h.1
    have h4 : s.i2c_sm.current_state ≠ 4 := h.2
    simp only [i2c_irq, rxdatav_int, INIT_SEND_ADDR, SEND_MEASURE_TEMP_NHOLD,
      SEND_RPT_START_ADDR, READ_MS_BYTE, READ_LS, if_neg h3, if_neg h4]
    split_ifs <;> rfl
  · have h5 : s.i2c_sm.current_state ≠ 5 := h
    simp only [mstop_int, hrw, if_true, mstop_int_read, INIT_SEND_ADDR, SEND_MEASURE_TEMP_NHOLD,
      SEND_RPT_START_ADDR, READ_MS_BYTE, READ_LS, STOP_END, if_neg h5]
    split_ifs <;> rfl

/-- Claim C31, instance: in the read transaction waiting in READ_LS an
acknowledge, a negative acknowledge and a bus-stop-complete each stop at the
failing assertion with the state untouched. -/
theorem i2c_protocol_violations_fatal_witness :
    (readState READ_LS).i2c_sm.readWrite = true ∧
    ack_int demoConsts (readState READ_LS) = Outcome.fatal (readState READ_LS) ∧
    nack_int demoConsts (readState READ_LS) = Outcome.fatal (readState READ_LS) ∧
    mstop_int demoConsts (readState READ_LS) = Outcome.fatal (readState READ_LS) :=
  ⟨rfl, (i2c_protocol_violations_fatal demoConsts (readState READ_LS) rfl).1
      (Or.inr (Or.inl rfl)),
    (i2c_protocol_violations_fatal demoConsts (readState READ_LS) rfl).2.1 (by decide),
    (i2c_protocol_violations_fatal demoConsts (readState READ_LS) rfl).2.2.2 (by decide)⟩

/-- Claim C32: with the block of leuart_start still held (the counter of
LEUART_TX_EM positive), txc_int in STOP_CLOSE returns, having written TXDIS to
the command register, cleared the TXC interrupt enable, decremented the counter
of LEUART_TX_EM and no other counter, ORed tx_done_evt into event_scheduled,
cleared SMbusy and set the state back to INIT_UART. -/
theorem txc_int_completes_transmission (K : Consts) (s : Sys)
    (hst : s.leuart_sm.current_state = STOP_CLOSE)
    (hlen : K.LEUART_TX_EM < s.lowest_energy_mode.length)
    (hpos : 0 < s.lowest_energy_mode.getD K.LEUART_TX_EM 0) :
    ∃ s', txc_int K s = Outcome.ok () s' ∧
      s'.LEUART0.CMD = s.LEUART0.CMD ++ [LEUART_CMD.TXDIS] ∧
      s'.LEUART0.IEN_TXC = false ∧
      s'.lowest_energy_mode.getD K.LEUART_TX_EM 0 =
        s.lowest_energy_mode.getD K.LEUART_TX_EM 0 - 1 ∧
      (∀ d, d ≠ K.LEUART_TX_EM →
        s'.lowest_energy_mode.getD d 0 = s.lowest_energy_mode.getD d 0) ∧
      s'.event_scheduled = s.event_scheduled ||| s.tx_done_evt ∧
      s'.posted = s.posted ++ [s.tx_done_evt] ∧
      s'.leuart_sm.SMbusy = false ∧
      s'.leuart_sm.current_state = INIT_UART ∧
      s'.LEUART0.TXDATA = s.LEUART0.TXDATA ∧ s'.LEUART0.IEN_TXBL = s.LEUART0.IEN_TXBL := by
  have hc : sleep_unblock_mode K.LEUART_TX_EM s.lowest_energy_mode =
      Outcome.ok () (s.lowest_energy_mode.set K.LEUART_TX_EM
        (s.lowest_energy_mode.getD K.LEUART_TX_EM 0 - 1)) := by
    simp only [sleep_unblock_mode, gt_iff_lt, if_pos hpos, getD_set_self _ _ _ 0 hlen]
    rw [if_pos (by omega)]
  refine ⟨{ s with
      LEUART0 := { s.LEUART0 with
        CMD := s.LEUART0.CMD ++ [LEUART_CMD.TXDIS], IEN_TXC := false },
      event_scheduled := s.event_scheduled ||| s.tx_done_evt,
      posted := s.posted ++ [s.tx_done_evt],
      lowest_energy_mode := s.lowest_energy_mode.set K.LEUART_TX_EM
        (s.lowest_energy_mode.getD K.LEUART_TX_EM 0 - 1),
      leuart_sm := { s.leuart_sm with SMbusy := false, current_state := INIT_UART } },
    ?_, rfl, rfl, ?_, fun d hd => ?_, rfl, rfl, rfl, rfl, rfl, rfl⟩
  · rw [txc_int_through_post K s hst]
    simp only [txc_int_from_post, txc_int_to_post, add_scheduled_event, hc, Outcome.lift,
      Outcome.bind, Sys.withSleep]
  · exact getD_set_self _ _ _ 0 hlen
  · exact getD_set_other _ _ _ _ 0 (Ne.symm hd)

/-- Claim C32, instance: in the closing state of the two-byte transmission
txc_int returns with TXDIS after TXEN in the command log, the counter of
LEUART_TX_EM back at 0, the event 0x20 pending and SMbusy clear. -/
theorem txc_int_completes_transmission_witness :
    (closingState.leuart_sm.current_state = STOP_CLOSE ∧
      demoConsts.LEUART_TX_EM < closingState.lowest_energy_mode.length ∧
      0 < closingState.lowest_energy_mode.getD demoConsts.LEUART_TX_EM 0) ∧
    ∃ s', txc_int demoConsts closingState = Outcome.ok () s' ∧
      s'.LEUART0.CMD = [LEUART_CMD.TXEN, LEUART_CMD.TXDIS] ∧
      s'.lowest_energy_mode.getD demoConsts.LEUART_TX_EM 0 = 0 ∧
      s'.event_scheduled = 32 ∧ s'.leuart_sm.SMbusy = false :=
  ⟨⟨rfl, by decide, by decide⟩,
    (txc_int_completes_transmission demoConsts closingState rfl (by decide) (by decide)).imp
      fun _ h => ⟨h.1, h.2.1, h.2.2.2.1.trans (by decide), h.2.2.2.2.2.1.trans (by decide),
        h.2.2.2.2.2.2.2.1⟩⟩

/-- Claim C33: the protocol violations of the serial engine stop at the failing
assertion. txbl_int in STOP_CLOSE, txc_int in INIT_UART or SEND_DATA, and
either handler with a state tag outside the three states end in
`EFM_ASSERT(false)` with the state as it was on entry; and whenever one of the
handlers stops fatally, the state tag, the byte index, the busy flag and
event_scheduled are unchanged. -/
theorem leuart_protocol_violations_fatal (K : Consts) (s : Sys) :
    (s.leuart_sm.current_state = STOP_CLOSE → txbl_int s = Outcome.fatal s) ∧
    ((s.leuart_sm.current_state = INIT_UART ∨ s.leuart_sm.current_state = SEND_DATA) →
      txc_int K s = Outcome.fatal s) ∧
    ((s.leuart_sm.current_state ≠ INIT_UART ∧ s.leuart_sm.current_state ≠ SEND_DATA ∧
        s.leuart_sm.current_state ≠ STOP_CLOSE) →
      txbl_int s = Outcome.fatal s ∧ txc_int K s = Outcome.fatal s) ∧
    (∀ s', (txbl_int s = Outcome.fatal s' ∨ txc_int K s = Outcome.fatal s') →
      s'.leuart_sm.current_state = s.leuart_sm.current_state ∧
      s'.leuart_sm.count = s.leuart_sm.count ∧
      s'.leuart_sm.SMbusy = s.leuart_sm.SMbusy ∧
      s'.event_scheduled = s.event_scheduled) := by
  refine ⟨fun h => ?_, fun h => ?_, fun h => ⟨?_, ?_⟩, fun s' h => ?_⟩
  · simp only [txbl_int, h, STOP_CLOSE, INIT_UART, SEND_DATA]
    rfl
  · rcases h with h | h
    · simp only [txc_int, h, if_true]
    · simp only [txc_int, h, SEND_DATA, INIT_UART, if_true]
      rfl
  · simp only [txbl_int, if_neg h.1, if_neg h.2.1, if_neg h.2.2]
  · simp only [txc_int, if_neg h.1, if_neg h.2.1, if_neg h.2.2]
  · have hb : txbl_int s = Outcome.fatal s' → s' = s := by
      intro hf
      simp only [txbl_int] at hf
      split_ifs at hf <;> (injection hf with e; exact e.symm)
    have hc : txc_int K s = Outcome.fatal s' → s' = s := by
      intro hf
      by_cases h2 : s.leuart_sm.current_state = STOP_CLOSE
      · rw [txc_int_through_post K s h2] at hf
        obtain ⟨c', hc'⟩ := sleep_unblock_mode_returns K.LEUART_TX_EM s.lowest_energy_mode
        simp only [txc_int_from_post, txc_int_to_post, add_scheduled_event, hc', Outcome.lift,
          Outcome.bind, Sys.withSleep] at hf
        exact absurd hf (by simp)
      · simp only [txc_int, if_neg h2] at hf
        split_ifs at hf <;> (injection hf with e; exact e.symm)
    have : s' = s := h.elim hb hc
    subst this
    exact ⟨rfl, rfl, rfl, rfl⟩

/-! ## Theorems: ble.c, the full queue; i2c.c, the bus reset -/

/-- Claim C35: for a queue with both indices below 64, ble_circ_space lies
between 1 and 64 and is 64 exactly when the read and write indices are equal,
and ble_circ_pop then answers that the queue is empty and changes nothing. Consequently a
63-byte payload pushed onto an empty queue, 64 framed bytes, leaves the indices
equal again: the queue reports the free space of the empty queue, 64, with the
length byte 64 stored at the read index, and ble_circ_pop treats it as empty. -/
theorem ble_circ_space_full_reads_empty (K : Consts) (test : Bool) (s : Sys) (p : List Nat)
    (hinit : Initialised s.ble_cbuf) :
    1 ≤ ble_circ_space s.ble_cbuf ∧ ble_circ_space s.ble_cbuf ≤ CSIZE ∧
    (ble_circ_space s.ble_cbuf = CSIZE ↔ s.ble_cbuf.read_ptr = s.ble_cbuf.write_ptr) ∧
    (s.ble_cbuf.read_ptr = s.ble_cbuf.write_ptr → ble_circ_pop K test s = Outcome.ok true s) ∧
    (s.ble_cbuf.read_ptr = s.ble_cbuf.write_ptr → (∀ x ∈ p, x ≠ 0) → p.length + 1 = CSIZE →
      ∃ b', ble_circ_push p s.ble_cbuf = Outcome.ok () b' ∧
        b'.read_ptr = b'.write_ptr ∧
        ble_circ_space b' = ble_circ_space s.ble_cbuf ∧
        ble_circ_space b' = CSIZE ∧
        b'.cbuf.getD b'.read_ptr 0 = CSIZE ∧
        ble_circ_pop K test { s with ble_cbuf := b' } =
          Outcome.ok true { s with ble_cbuf := b' }) := by
  have hC : CSIZE = 64 := rfl
  have hsp := ble_circ_space_eq s.ble_cbuf hinit
  obtain ⟨hcl, hs, hm, hr, hw⟩ := hinit
  have hcl' : s.ble_cbuf.cbuf.length = 64 := hcl
  have hm' : s.ble_cbuf.size_mask = 63 := hm
  have hr' : s.ble_cbuf.read_ptr < 64 := hr
  have hw' : s.ble_cbuf.write_ptr < 64 := hw
  have hiff : ble_circ_space s.ble_cbuf = CSIZE ↔ s.ble_cbuf.read_ptr = s.ble_cbuf.write_ptr := by
    rw [hsp, hC]; omega
  have hpop : ∀ t : Sys, ble_circ_space t.ble_cbuf = CSIZE →
      ble_circ_pop K test t = Outcome.ok true t := by
    intro t ht
    simp only [ble_circ_pop, ht, if_true]
    split_ifs <;> rfl
  refine ⟨by rw [hsp]; omega, by rw [hsp, hC]; omega, hiff, fun he => hpop s (hiff.mpr he),
    fun he hnul hlen => ?_⟩
  rw [hC] at hlen
  have hstr : strlen p % 2 ^ 32 = p.length := by
    rw [strlen_eq_length p hnul]; omega
  obtain ⟨b', h0, h1, h2, h3, h4, h5, h6, h7⟩ := ble_circ_push_loop_spec p p.length (by omega)
    p.length 256 0
    { s.ble_cbuf with
      cbuf := s.ble_cbuf.cbuf.set s.ble_cbuf.write_ptr ((p.length + 1) % 256),
      write_ptr := (s.ble_cbuf.write_ptr + 1) % 64 }
    (by omega) (by omega) (by omega) hm' (by simp [hcl']) (by simp only []; omega)
  simp only [] at h2 h4 h5 h6 h7
  have hinit' : Initialised b' :=
    ⟨h1, h2.trans hs, h3, by rw [h4]; exact hr, by rw [h5]; exact Nat.mod_lt _ (by decide)⟩
  have hpush : ble_circ_push p s.ble_cbuf = Outcome.ok () b' := by
    simp only [ble_circ_push, hstr]
    rw [if_neg (Nat.not_lt_zero _), update_circ_wrtindex_one]
    · exact h0
    · exact hm'
  have heq : b'.read_ptr = b'.write_ptr := by
    rw [h4, h5, he]; omega
  have hsp' : ble_circ_space b' = CSIZE := by
    rw [ble_circ_space_eq b' hinit', ← heq, hC]
    have := hinit'.2.2.2.1
    rw [hC] at this
    omega
  refine ⟨b', hpush, heq, hsp'.trans (hiff.mpr he).symm, hsp', ?_, hpop _ hsp'⟩
  rw [h4, h7 _ (fun k hk => by rw [he]; omega), he, getD_set_self _ _ _ 0 (by omega), hC]
  omega

set_option maxRecDepth 100000 in
/-- Claim C35, instance: 63 letters pushed onto the queue of the boot state fill
it, the free space reads 64 as before, and ble_circ_pop answers that the queue is empty. -/
theorem ble_circ_space_full_reads_empty_witness :
    (Initialised bootState.ble_cbuf ∧
      bootState.ble_cbuf.read_ptr = bootState.ble_cbuf.write_ptr ∧
      (∀ x ∈ List.replicate 63 65, x ≠ 0) ∧ (List.replicate 63 65).length + 1 = CSIZE) ∧
    ble_circ_space bootState.ble_cbuf = 64 ∧
    ∃ b', ble_circ_push (List.replicate 63 65) bootState.ble_cbuf = Outcome.ok () b' ∧
      ble_circ_space b' = CSIZE ∧
      ble_circ_pop demoConsts CIRC_TEST { bootState with ble_cbuf := b' } =
        Outcome.ok true { bootState with ble_cbuf := b' } :=
  have h : Initialised bootState.ble_cbuf ∧
      bootState.ble_cbuf.read_ptr = bootState.ble_cbuf.write_ptr ∧
      (∀ x ∈ List.replicate 63 65, x ≠ 0) ∧ (List.replicate 63 65).length + 1 = CSIZE :=
    ⟨⟨by decide, by decide, by decide, by decide, by decide⟩, rfl, by decide, by decide⟩
  ⟨h, by decide,
    ((ble_circ_space_full_reads_empty demoConsts CIRC_TEST bootState (List.replicate 63 65)
      h.1).2.2.2.2 h.2.1 h.2.2.1 h.2.2.2).imp fun _ g => ⟨g.1, g.2.2.2.1, g.2.2.2.2.2⟩⟩

/-- Function i2c_bus_reset changes the command log, the interrupt enables (back
to their value) and the busy flag and state tag of the record, nothing else:
the state it leaves, for every answer of the peripheral. -/
theorem i2c_bus_reset_frame (hw : I2C_BUS) (i2c : Nat) (s s' : Sys)
    (h : i2c_bus_reset hw i2c s = Outcome.ok () s') :
    s'.lowest_energy_mode = s.lowest_energy_mode ∧ s'.posted = s.posted ∧
    s'.event_scheduled = s.event_scheduled ∧ s'.mem = s.mem ∧
    s'.i2c_sm.SMbusy = false ∧ s'.i2c_sm.current_state = INIT_SEND_ADDR := by
  obtain ⟨b1, b2, b3⟩ := hw
  cases b1 <;> cases b2 <;> cases b3 <;>
    simp only [i2c_bus_reset, Outcome.bind, Bool.false_eq_true, if_false, if_true,
      Outcome.ok.injEq, true_and, reduceCtorEq] at h <;>
    (subst h; exact ⟨rfl, rfl, rfl, rfl, rfl, rfl⟩)

/-- Claim C36: i2c_bus_reset releases no sleep block. On an idle bus with the
counter of I2C_EM_BLOCK below 4, i2c_start returns with the engine busy; the
reset then returns when the peripheral answers (the busy state clears on abort
and MSTOP is raised), and every reset that returns leaves the counters exactly
as i2c_start left them, the counter of I2C_EM_BLOCK one above its value before
the start and the others as before, while the busy flag is false. -/
theorem i2c_bus_reset_keeps_block (K : Consts) (hw : I2C_BUS)
    (i2c slaveAddr data numBytes command : Nat) (readWrite : Bool) (cb_event : Nat) (s : Sys)
    (hidle : s.I2C0.STATE_IDLE = true)
    (hlen : I2C_EM_BLOCK K < s.lowest_energy_mode.length)
    (hc : s.lowest_energy_mode.getD (I2C_EM_BLOCK K) 0 < 4) :
    ∃ s1, i2c_start K i2c slaveAddr data numBytes command readWrite cb_event s =
        Outcome.ok () s1 ∧
      s1.i2c_sm.SMbusy = true ∧
      ((hw.STATE_BUSY = true → hw.BUSY_clears = true) → hw.MSTOP_sets = true →
        ∃ s2, i2c_bus_reset hw i2c s1 = Outcome.ok () s2) ∧
      ∀ s2, i2c_bus_reset hw i2c s1 = Outcome.ok () s2 →
        s2.lowest_energy_mode = s1.lowest_energy_mode ∧
        s2.lowest_energy_mode.getD (I2C_EM_BLOCK K) 0 =
          s.lowest_energy_mode.getD (I2C_EM_BLOCK K) 0 + 1 ∧
        (∀ d, d ≠ I2C_EM_BLOCK K →
          s2.lowest_energy_mode.getD d 0 = s.lowest_energy_mode.getD d 0) ∧
        s2.i2c_sm.SMbusy = false ∧ i2c_sm_busy i2c s2 = false := by
  refine ⟨_, i2c_start_returns K i2c slaveAddr data numBytes command readWrite cb_event s
    hidle hlen hc, rfl, ?_, fun s2 h2 => ?_⟩
  · intro hb hm
    obtain ⟨b1, b2, b3⟩ := hw
    cases b1 <;> cases b2 <;> cases b3 <;>
      simp_all [i2c_bus_reset, Outcome.bind]
  · obtain ⟨g1, _, _, _, g5, _⟩ := i2c_bus_reset_frame hw i2c _ s2 h2
    refine ⟨g1, ?_, fun d hd => ?_, g5, ?_⟩
    · rw [g1]; exact getD_set_self _ _ _ 0 hlen
    · rw [g1]; exact getD_set_other _ _ _ _ 0 (Ne.symm hd)
    · simp only [i2c_sm_busy, g5]
      split_ifs <;> rfl

/-- Claim C36, instance: after i2c_start and i2c_bus_reset on the boot state
the counters are [0, 0, 1, 0, 0] and the engine is not busy. -/
theorem i2c_bus_reset_keeps_block_witness :
    (bootState.I2C0.STATE_IDLE = true ∧
      I2C_EM_BLOCK demoConsts < bootState.lowest_energy_mode.length ∧
      bootState.lowest_energy_mode.getD (I2C_EM_BLOCK demoConsts) 0 < 4) ∧
    ∃ s1 s2, i2c_start demoConsts 0 64 0 2 243 true 8 bootState = Outcome.ok () s1 ∧
      i2c_bus_reset { STATE_BUSY := true, BUSY_clears := true, MSTOP_sets := true } 0 s1 =
        Outcome.ok () s2 ∧
      s2.lowest_energy_mode = [0, 0, 1, 0, 0] ∧ s2.i2c_sm.SMbusy = false :=
  ⟨⟨rfl, by decide, by decide⟩,
    (i2c_bus_reset_keeps_block demoConsts
      { STATE_BUSY := true, BUSY_clears := true, MSTOP_sets := true } 0 64 0 2 243 true 8
      bootState rfl (by decide) (by decide)).imp fun s1 g =>
        (g.2.2.1 (fun _ => rfl) rfl).imp fun s2 g2 =>
          ⟨g.1, g2, by
            have e := (g.2.2.2 s2 g2).1
            have e1 : i2c_start demoConsts 0 64 0 2 243 true 8 bootState = Outcome.ok () s1 := g.1
            injection (e1.symm.trans rfl) with _ hs1
            subst hs1
            exact e.trans rfl, (g.2.2.2 s2 g2).2.2.2.1⟩⟩

/-! ## Theorems: sleep_routines.c, well-nested calls and the range of the counters -/

/-- A sequence of calls on depths below MAX that, after sleep_open, never has
more unblocks than blocks of a depth nor more than four blocks outstanding:
it runs to its end, and each counter is the number of blocks less the number
of unblocks of its depth. -/
theorem sleep_calls_after_open (MAX : Nat) (c0 : List Int) (l : List SLEEP_CALL)
    (hlen : c0.length = MAX)
    (hrange : ∀ call ∈ l, call.EM < MAX)
    (hpre : ∀ d < MAX, ∀ k ≤ l.length,
      unblocks d (l.take k) ≤ blocks d (l.take k) ∧
        blocks d (l.take k) ≤ unblocks d (l.take k) + 4) :
    ∃ c, sleep_calls l (sleep_open MAX c0) = Outcome.ok () c ∧
      ∀ d, c.getD d 0 = (blocks d l : Int) - (unblocks d l : Int) := by
  have hzero : ∀ d, (sleep_open MAX c0).getD d 0 = 0 := by
    intro d
    rw [sleep_open_getD]
    by_cases h : d < MAX
    · rw [if_pos h]
    · rw [if_neg h]
      exact List.getD_eq_default _ _ (by omega)
  obtain ⟨c, g1, _, g3⟩ := sleep_calls_counts l (sleep_open MAX c0)
    (fun call hc => by rw [sleep_open_length, hlen]; exact hrange call hc)
    (fun d k => by
      rw [hzero d]
      by_cases hd : d < MAX
      · by_cases hk : k ≤ l.length
        · have h := hpre d hd k hk
          omega
        · have h := hpre d hd l.length (Nat.le_refl _)
          rw [List.take_of_length_le (Nat.le_refl _)] at h
          rw [List.take_of_length_le (by omega)]
          omega
      · have hr : ∀ call ∈ l.take k, call.EM < MAX :=
          fun call hc => hrange call (List.mem_of_mem_take hc)
        rw [blocks_out_of_range MAX d _ hr (by omega),
          unblocks_out_of_range MAX d _ hr (by omega)]
        omega)
  refine ⟨c, g1, fun d => ?_⟩
  rw [g3 d, hzero d]
  omega

/-- Claim C37: after sleep_open, a sequence of block and unblock calls on
depths below MAX in which every prefix has, for each depth, at least as many
blocks as unblocks and at most 4 more, and in which the totals per depth are
equal, runs without a failing call: every prefix returns with each counter
equal to its blocks less its unblocks, and at the end every counter is zero and
current_block_energy_mode returns the deepest depth, MAX - 1. -/
theorem sleep_well_nested_calls (MAX : Nat) (c0 : List Int) (l : List SLEEP_CALL)
    (hlen : c0.length = MAX)
    (hrange : ∀ call ∈ l, call.EM < MAX)
    (hpre : ∀ d < MAX, ∀ k ≤ l.length,
      unblocks d (l.take k) ≤ blocks d (l.take k) ∧
        blocks d (l.take k) ≤ unblocks d (l.take k) + 4)
    (hbal : ∀ d < MAX, blocks d l = unblocks d l) :
    (∀ k, ∃ ck, sleep_calls (l.take k) (sleep_open MAX c0) = Outcome.ok () ck ∧
      ∀ d, ck.getD d 0 = (blocks d (l.take k) : Int) - (unblocks d (l.take k) : Int)) ∧
    ∃ c, sleep_calls l (sleep_open MAX c0) = Outcome.ok () c ∧
      (∀ d, c.getD d 0 = 0) ∧
      (current_block_energy_mode MAX c).1 = MAX - 1 := by
  refine ⟨fun k => ?_, ?_⟩
  · refine sleep_calls_after_open MAX c0 (l.take k) hlen
      (fun call hc => hrange call (List.mem_of_mem_take hc)) (fun d hd j hj => ?_)
    rw [List.take_take]
    have hj' : (l.take k).length ≤ l.length := by
      rw [List.length_take]; exact Nat.min_le_right _ _
    exact hpre d hd (min j k) (by
      have := Nat.min_le_left j k
      omega)
  · obtain ⟨c, g1, g2⟩ := sleep_calls_after_open MAX c0 l hlen hrange hpre
    have hall : ∀ d, c.getD d 0 = 0 := by
      intro d
      rw [g2 d]
      by_cases hd : d < MAX
      · have h := hbal d hd
        omega
      · rw [blocks_out_of_range MAX d l hrange (by omega),
          unblocks_out_of_range MAX d l hrange (by omega)]
        rfl
    exact ⟨c, g1, hall, current_block_energy_mode_loop_none MAX c MAX 0 (fun j _ _ => hall j)⟩

/-- Claim C37, instance: block 3, block 2, block 3, unblock 3, unblock 2,
unblock 3 after sleep_open on five cells: after the first three calls the
counter of depth 3 is 2, and at the end all counters are zero and the floor is
depth 4. -/
theorem sleep_well_nested_calls_witness :
    (([7, 7, 7, 7, 7] : List Int).length = 5 ∧
      (∀ call ∈ [SLEEP_CALL.block 3, SLEEP_CALL.block 2, SLEEP_CALL.block 3,
        SLEEP_CALL.unblock 3, SLEEP_CALL.unblock 2, SLEEP_CALL.unblock 3], call.EM < 5)) ∧
    (∃ ck, sleep_calls ([SLEEP_CALL.block 3, SLEEP_CALL.block 2, SLEEP_CALL.block 3,
        SLEEP_CALL.unblock 3, SLEEP_CALL.unblock 2, SLEEP_CALL.unblock 3].take 3)
        (sleep_open 5 [7, 7, 7, 7, 7]) = Outcome.ok () ck ∧ ck.getD 3 0 = 2) ∧
    ∃ c, sleep_calls [SLEEP_CALL.block 3, SLEEP_CALL.block 2, SLEEP_CALL.block 3,
        SLEEP_CALL.unblock 3, SLEEP_CALL.unblock 2, SLEEP_CALL.unblock 3]
        (sleep_open 5 [7, 7, 7, 7, 7]) = Outcome.ok () c ∧
      (∀ d, c.getD d 0 = 0) ∧ (current_block_energy_mode 5 c).1 = 5 - 1 :=
  ⟨⟨rfl, by decide⟩,
    ((sleep_well_nested_calls 5 [7, 7, 7, 7, 7]
      [SLEEP_CALL.block 3, SLEEP_CALL.block 2, SLEEP_CALL.block 3,
        SLEEP_CALL.unblock 3, SLEEP_CALL.unblock 2, SLEEP_CALL.unblock 3]
      rfl (by decide) (by decide) (by decide)).1 3).imp fun _ h =>
        ⟨h.1, (h.2 3).trans (by decide)⟩,
    (sleep_well_nested_calls 5 [7, 7, 7, 7, 7]
      [SLEEP_CALL.block 3, SLEEP_CALL.block 2, SLEEP_CALL.block 3,
        SLEEP_CALL.unblock 3, SLEEP_CALL.unblock 2, SLEEP_CALL.unblock 3]
      rfl (by decide) (by decide) (by decide)).2⟩

/-- Calls of the sleep arbiter that return keep every counter between 0 and
4. -/
theorem sleep_calls_range : ∀ (l : List SLEEP_CALL) (c c' : List Int),
    (∀ d, 0 ≤ c.getD d 0 ∧ c.getD d 0 ≤ 4) → sleep_calls l c = Outcome.ok () c' →
    ∀ d, 0 ≤ c'.getD d 0 ∧ c'.getD d 0 ≤ 4 := by
  intro l
  induction l with
  | nil =>
    intro c c' hc h
    simp only [sleep_calls, Outcome.ok.injEq, true_and] at h
    subst h
    exact hc
  | cons call l ih =>
    intro c c' hc h
    cases call with
    | block e =>
      simp only [sleep_calls, sleep_block_mode] at h
      by_cases hlt : (c.set e (c.getD e 0 + 1)).getD e 0 < 5
      · rw [if_pos hlt] at h
        refine ih _ c' (fun d => ?_) h
        by_cases hde : d = e
        · subst hde
          by_cases hin : d < c.length
          · rw [getD_set_self _ _ _ 0 hin]
            rw [getD_set_self _ _ _ 0 hin] at hlt
            have := hc d
            omega
          · rw [List.getD_eq_default _ _ (by rw [List.length_set]; omega)]
            omega
        · rw [getD_set_other _ _ _ _ 0 (Ne.symm hde)]
          exact hc d
      · rw [if_neg hlt] at h
        exact absurd h (by simp [Outcome.bind])
    | unblock e =>
      simp only [sleep_calls, sleep_unblock_mode] at h
      by_cases hpos : c.getD e 0 > 0
      · rw [if_pos hpos] at h
        by_cases hge : (c.set e (c.getD e 0 - 1)).getD e 0 ≥ 0
        · rw [if_pos hge] at h
          refine ih _ c' (fun d => ?_) h
          by_cases hde : d = e
          · subst hde
            by_cases hin : d < c.length
            · rw [getD_set_self _ _ _ 0 hin]
              have := hc d
              omega
            · rw [List.getD_eq_default _ _ (by rw [List.length_set]; omega)]
              omega
          · rw [getD_set_other _ _ _ _ 0 (Ne.symm hde)]
            exact hc d
        · rw [if_neg hge] at h
          exact absurd h (by simp [Outcome.bind])
      · rw [if_neg hpos] at h
        exact ih c c' hc h

/-- Claim C38: in every state that block and unblock calls which all returned
reach from sleep_open, every counter lies between 0 and 4; and
sleep_unblock_mode called in such a state returns, for every depth, so the
assertion after its decrement does not fail. -/
theorem sleep_counters_stay_in_range (MAX : Nat) (c0 : List Int) (l : List SLEEP_CALL)
    (c : List Int) (hlen : c0.length = MAX)
    (h : sleep_calls l (sleep_open MAX c0) = Outcome.ok () c) :
    (∀ d, 0 ≤ c.getD d 0 ∧ c.getD d 0 ≤ 4) ∧
    (∀ d, ∃ c', sleep_unblock_mode d c = Outcome.ok () c') ∧
    (∀ d, (sleep_unblock_mode d c).isFatal = false) := by
  have hzero : ∀ d, 0 ≤ (sleep_open MAX c0).getD d 0 ∧ (sleep_open MAX c0).getD d 0 ≤ 4 := by
    intro d
    rw [sleep_open_getD]
    by_cases hd : d < MAX
    · rw [if_pos hd]; omega
    · rw [if_neg hd, List.getD_eq_default _ _ (by omega)]; omega
  refine ⟨sleep_calls_range l _ c hzero h, fun d => sleep_unblock_mode_returns d c, fun d => ?_⟩
  obtain ⟨c', hc'⟩ := sleep_unblock_mode_returns d c
  rw [hc']
  rfl

/-- Claim C38, instance: four blocks of depth 2 with unblocks of the free
depths 1 and 3 in between return with the counters [0, 0, 4, 0, 0], all
between 0 and 4. -/
theorem sleep_counters_stay_in_range_witness :
    (([7, 7, 7, 7, 7] : List Int).length = 5 ∧
      sleep_calls [SLEEP_CALL.block 2, SLEEP_CALL.unblock 1, SLEEP_CALL.block 2,
        SLEEP_CALL.block 2, SLEEP_CALL.block 2, SLEEP_CALL.unblock 3]
        (sleep_open 5 [7, 7, 7, 7, 7]) = Outcome.ok () [0, 0, 4, 0, 0]) ∧
    ∀ d, 0 ≤ ([0, 0, 4, 0, 0] : List Int).getD d 0 ∧ ([0, 0, 4, 0, 0] : List Int).getD d 0 ≤ 4 :=
  ⟨⟨rfl, rfl⟩,
    (sleep_counters_stay_in_range 5 [7, 7, 7, 7, 7]
      [SLEEP_CALL.block 2, SLEEP_CALL.unblock 1, SLEEP_CALL.block 2,
        SLEEP_CALL.block 2, SLEEP_CALL.block 2, SLEEP_CALL.unblock 3] [0, 0, 4, 0, 0]
      rfl rfl).1⟩

/-! ## Theorems: i2c.c, the write transaction -/

/-- With the direction flag false, the common second half of the handlers
leaves the state as it was, whether it returns or asserts. -/
theorem write_switch_state (K : Consts) (s s' : Sys)
    (h : (write_switch K s).state = some s') : s' = s := by
  simp only [write_switch] at h
  split_ifs at h <;> simp only [Outcome.state, Option.some.injEq] at h <;> exact h.symm

/-- One interrupt of a write-direction transaction: the direction, the busy
flag, the sleep counters and the posted events are left as they were. -/
theorem i2c_irq_write_frame (K : Consts) (e : I2C_IRQ) (s s' : Sys)
    (hrw : s.i2c_sm.readWrite = false) (h : (i2c_irq K e s).state = some s') :
    s'.i2c_sm.readWrite = false ∧ s'.i2c_sm.SMbusy = s.i2c_sm.SMbusy ∧
    s'.i2c_sm.i2c = s.i2c_sm.i2c ∧
    s'.lowest_energy_mode = s.lowest_energy_mode ∧ s'.posted = s.posted ∧
    s'.event_scheduled = s.event_scheduled := by
  cases e with
  | ACK =>
    simp only [i2c_irq, ack_int, hrw, Bool.false_eq_true, if_false, Outcome.bind, if_true] at h
    have := write_switch_state K s s' h
    subst this
    exact ⟨hrw, rfl, rfl, rfl, rfl, rfl⟩
  | NACK =>
    simp only [i2c_irq, nack_int, hrw, Bool.false_eq_true, if_false, Outcome.bind, if_true] at h
    have := write_switch_state K s s' h
    subst this
    exact ⟨hrw, rfl, rfl, rfl, rfl, rfl⟩
  | MSTOP =>
    simp only [i2c_irq, mstop_int, hrw, Bool.false_eq_true, if_false, Outcome.bind, if_true] at h
    have := write_switch_state K s s' h
    subst this
    exact ⟨hrw, rfl, rfl, rfl, rfl, rfl⟩
  | RXDATAV byte =>
    simp only [i2c_irq, rxdatav_int] at h
    split_ifs at h <;> simp only [Outcome.state, Option.some.injEq] at h <;> subst h <;>
      exact ⟨hrw, rfl, rfl, rfl, rfl, rfl⟩

/-- A call followed by calls that all leave a state leaves a state. -/
theorem bind_leaves_state {α β σ : Type} (o : Outcome α σ) (f : α → σ → Outcome β σ)
    (ho : ∃ s', o.state = some s') (hf : ∀ a s, ∃ s', (f a s).state = some s') :
    ∃ s', (o.bind f).state = some s' := by
  cases o with
  | ok a s => exact hf a s
  | fatal s => exact ⟨s, rfl⟩
  | diverge =>
    obtain ⟨s', hs'⟩ := ho
    simp [Outcome.state] at hs'

/-- The common second half of the handlers leaves a state. -/
theorem write_tail_leaves_state (K : Consts) (s1 : Sys) :
    ∃ s', (if s1.i2c_sm.readWrite = false then write_switch K s1
      else Outcome.ok () s1).state = some s' := by
  simp only [write_switch]
  split_ifs <;> exact ⟨_, rfl⟩

/-- One interrupt always leaves a state: no handler spins. -/
theorem i2c_irq_leaves_state (K : Consts) (e : I2C_IRQ) (s : Sys) :
    ∃ s', (i2c_irq K e s).state = some s' := by
  cases e with
  | ACK =>
    refine bind_leaves_state _ _ ?_ (fun _ s1 => write_tail_leaves_state K s1)
    simp only [ack_int_read]
    split_ifs <;> exact ⟨_, rfl⟩
  | NACK =>
    refine bind_leaves_state _ _ ?_ (fun _ s1 => write_tail_leaves_state K s1)
    simp only [nack_int_read]
    split_ifs <;> exact ⟨_, rfl⟩
  | MSTOP =>
    refine bind_leaves_state _ _ ?_ (fun _ s1 => write_tail_leaves_state K s1)
    obtain ⟨c', hc'⟩ := sleep_unblock_mode_returns (I2C_EM_BLOCK K) s.lowest_energy_mode
    simp only [mstop_int_read, hc', Outcome.lift, Outcome.bind]
    split_ifs <;> exact ⟨_, rfl⟩
  | RXDATAV byte =>
    simp only [i2c_irq, rxdatav_int]
    split_ifs <;> exact ⟨_, rfl⟩

/-- A sequence of interrupts always leaves a state. -/
theorem i2c_irqs_leave_state (K : Consts) : ∀ (es : List I2C_IRQ) (s : Sys),
    ∃ s', (i2c_irqs K es s).state = some s' := by
  intro es
  induction es with
  | nil => intro s; exact ⟨s, rfl⟩
  | cons e es ih =>
    intro s
    exact bind_leaves_state _ _ (i2c_irq_leaves_state K e s) (fun _ s1 => ih s1)

/-- A sequence of interrupts of a write-direction transaction leaves the busy
flag, the sleep counters and the posted events as they were. -/
theorem i2c_irqs_write_frame (K : Consts) : ∀ (es : List I2C_IRQ) (s s' : Sys),
    s.i2c_sm.readWrite = false → (i2c_irqs K es s).state = some s' →
    s'.i2c_sm.SMbusy = s.i2c_sm.SMbusy ∧ s'.i2c_sm.i2c = s.i2c_sm.i2c ∧
    s'.lowest_energy_mode = s.lowest_energy_mode ∧
    s'.posted = s.posted ∧ s'.event_scheduled = s.event_scheduled := by
  intro es
  induction es with
  | nil =>
    intro s s' _ h
    simp only [i2c_irqs, Outcome.state, Option.some.injEq] at h
    subst h
    exact ⟨rfl, rfl, rfl, rfl, rfl⟩
  | cons e es ih =>
    intro s s' hrw h
    simp only [i2c_irqs] at h
    cases hc : i2c_irq K e s with
    | ok a s1 =>
      rw [hc] at h
      obtain ⟨f1, f2, f3, f4, f5, f6⟩ := i2c_irq_write_frame K e s s1 hrw (by rw [hc]; rfl)
      obtain ⟨g1, g2, g3, g4, g5⟩ := ih s1 s' f1 h
      exact ⟨g1.trans f2, g2.trans f3, g3.trans f4, g4.trans f5, g5.trans f6⟩
    | fatal s1 =>
      rw [hc] at h
      obtain ⟨_, f2, f3, f4, f5, f6⟩ := i2c_irq_write_frame K e s s1 hrw (by rw [hc]; rfl)
      simp only [Outcome.bind, Outcome.state, Option.some.injEq] at h
      subst h
      exact ⟨f2, f3, f4, f5, f6⟩
    | diverge =>
      rw [hc] at h
      simp [Outcome.bind, Outcome.state] at h

/-- Claim C39: a write transaction never completes. After i2c_start with
readWrite = false on an idle bus, every finite sequence of interrupts
(acknowledge, negative acknowledge, data received, bus stop complete) leaves a
state, and in that state the busy flag is still true, the counters are those
i2c_start left (the counter of I2C_EM_BLOCK one above its value before the
start), and nothing has been posted: posted and event_scheduled are as before
the start. -/
theorem i2c_write_never_completes (K : Consts) (i2c slaveAddr data numBytes command : Nat)
    (cb_event : Nat) (s : Sys) (hidle : s.I2C0.STATE_IDLE = true)
    (hlen : I2C_EM_BLOCK K < s.lowest_energy_mode.length)
    (hc : s.lowest_energy_mode.getD (I2C_EM_BLOCK K) 0 < 4) :
    ∃ s1, i2c_start K i2c slaveAddr data numBytes command false cb_event s =
        Outcome.ok () s1 ∧
      (∀ es, ∃ s', (i2c_irqs K es s1).state = some s') ∧
      ∀ es s', (i2c_irqs K es s1).state = some s' →
        s'.i2c_sm.SMbusy = true ∧ i2c_sm_busy i2c s' = true ∧
        s'.lowest_energy_mode = s1.lowest_energy_mode ∧
        s'.lowest_energy_mode.getD (I2C_EM_BLOCK K) 0 =
          s.lowest_energy_mode.getD (I2C_EM_BLOCK K) 0 + 1 ∧
        s'.posted = s.posted ∧ s'.event_scheduled = s.event_scheduled := by
  refine ⟨_, i2c_start_returns K i2c slaveAddr data numBytes command false cb_event s
    hidle hlen hc, fun es => i2c_irqs_leave_state K es _, fun es s' h => ?_⟩
  obtain ⟨g1, g2, g3, g4, g5⟩ := i2c_irqs_write_frame K es _ s' rfl h
  refine ⟨g1, ?_, g3, ?_, g4, g5⟩
  · simp only [i2c_sm_busy, g2, g1, if_true]
  · rw [g3]
    exact getD_set_self _ _ _ 0 hlen

/-- Claim C39, instance: the write of command 0xE6 started on the boot state
is still busy after two acknowledges and a bus-stop-complete, with no event
posted. -/
theorem i2c_write_never_completes_witness :
    (bootState.I2C0.STATE_IDLE = true ∧
      I2C_EM_BLOCK demoConsts < bootState.lowest_energy_mode.length ∧
      bootState.lowest_energy_mode.getD (I2C_EM_BLOCK demoConsts) 0 < 4) ∧
    ∃ s1, i2c_start demoConsts 0 64 0 1 230 false 0 bootState = Outcome.ok () s1 ∧
      ∃ s', (i2c_irqs demoConsts [I2C_IRQ.ACK, I2C_IRQ.ACK, I2C_IRQ.MSTOP] s1).state =
          some s' ∧
        s'.i2c_sm.SMbusy = true ∧ s'.posted = bootState.posted :=
  ⟨⟨rfl, by decide, by decide⟩,
    (i2c_write_never_completes demoConsts 0 64 0 1 230 0 bootState rfl (by decide)
      (by decide)).imp fun _ g =>
        ⟨g.1, (g.2.1 [I2C_IRQ.ACK, I2C_IRQ.ACK, I2C_IRQ.MSTOP]).imp fun s' hs' =>
          ⟨hs', (g.2.2 _ s' hs').1, (g.2.2 _ s' hs').2.2.2.2.1⟩⟩⟩

/-! ## Theorems: the sleep block of a busy engine -/

/-- A sequence of two calls that returned: both calls returned. -/
theorem bind_eq_ok {α β σ : Type} (o : Outcome α σ) (f : α → σ → Outcome β σ) (b : β)
    (s' : σ) (h : o.bind f = Outcome.ok b s') :
    ∃ a s1, o = Outcome.ok a s1 ∧ f a s1 = Outcome.ok b s' := by
  cases o with
  | ok a s1 => exact ⟨a, s1, rfl, h⟩
  | fatal s1 => simp [Outcome.bind] at h
  | diverge => simp [Outcome.bind] at h

/-- The common second half of the I2C handlers, when it returns, has changed
nothing. -/
theorem write_tail_eq (K : Consts) (s1 s' : Sys)
    (h : (if s1.i2c_sm.readWrite = false then write_switch K s1 else Outcome.ok () s1) =
      Outcome.ok () s') : s' = s1 := by
  by_cases hrw : s1.i2c_sm.readWrite = false
  · rw [if_pos hrw] at h
    exact write_switch_state K s1 s' (by rw [h]; rfl)
  · rw [if_neg hrw] at h
    injection h with _ e
    exact e.symm

/-- One I2C interrupt that returns either leaves the busy flag and the sleep
counters as they were, or is the completion: the busy flag is then false and
the counters are those sleep_unblock_mode(I2C_EM_BLOCK) leaves. -/
theorem i2c_irq_busy_frame (K : Consts) (e : I2C_IRQ) (s s' : Sys)
    (h : i2c_irq K e s = Outcome.ok () s') :
    (s'.i2c_sm.SMbusy = s.i2c_sm.SMbusy ∧ s'.lowest_energy_mode = s.lowest_energy_mode) ∨
    (s'.i2c_sm.SMbusy = false ∧
      sleep_unblock_mode (I2C_EM_BLOCK K) s.lowest_energy_mode =
        Outcome.ok () s'.lowest_energy_mode) := by
  cases e with
  | ACK =>
    obtain ⟨a, s1, h1, h2⟩ := bind_eq_ok _ _ _ _ h
    have e2 := write_tail_eq K s1 s' h2
    subst e2
    left
    by_cases hrw : s.i2c_sm.readWrite = true
    · simp only [hrw, if_true, ack_int_read] at h1
      split_ifs at h1 <;> injection h1 with _ e1 <;> subst e1 <;> exact ⟨rfl, rfl⟩
    · simp only [hrw, if_false] at h1
      injection h1 with _ e1
      subst e1
      exact ⟨rfl, rfl⟩
  | NACK =>
    obtain ⟨a, s1, h1, h2⟩ := bind_eq_ok _ _ _ _ h
    have e2 := write_tail_eq K s1 s' h2
    subst e2
    left
    by_cases hrw : s.i2c_sm.readWrite = true
    · simp only [hrw, if_true, nack_int_read] at h1
      split_ifs at h1
      injection h1 with _ e1
      subst e1
      exact ⟨rfl, rfl⟩
    · simp only [hrw, if_false] at h1
      injection h1 with _ e1
      subst e1
      exact ⟨rfl, rfl⟩
  | MSTOP =>
    obtain ⟨a, s1, h1, h2⟩ := bind_eq_ok _ _ _ _ h
    have e2 := write_tail_eq K s1 s' h2
    subst e2
    by_cases hrw : s.i2c_sm.readWrite = true
    · obtain ⟨c', hc'⟩ := sleep_unblock_mode_returns (I2C_EM_BLOCK K) s.lowest_energy_mode
      simp only [hrw, if_true, mstop_int_read, hc', Outcome.lift, Outcome.bind] at h1
      split_ifs at h1
      injection h1 with _ e1
      subst e1
      right
      exact ⟨rfl, hc'⟩
    · simp only [hrw, if_false] at h1
      injection h1 with _ e1
      subst e1
      exact Or.inl ⟨rfl, rfl⟩
  | RXDATAV byte =>
    simp only [i2c_irq, rxdatav_int] at h
    left
    split_ifs at h <;> injection h with _ e1 <;> subst e1 <;> exact ⟨rfl, rfl⟩

/-- While the bus engine is still busy after a sequence of interrupts, it was
busy before, and the sleep counters are as before. -/
theorem i2c_irqs_block_held (K : Consts) : ∀ (es : List I2C_IRQ) (s s' : Sys),
    i2c_irqs K es s = Outcome.ok () s' → s'.i2c_sm.SMbusy = true →
    s.i2c_sm.SMbusy = true ∧ s'.lowest_energy_mode = s.lowest_energy_mode := by
  intro es
  induction es with
  | nil =>
    intro s s' h hb
    injection h with _ e
    subst e
    exact ⟨hb, rfl⟩
  | cons e es ih =>
    intro s s' h hb
    obtain ⟨a, s1, h1, h2⟩ := bind_eq_ok _ _ _ _ h
    obtain ⟨g1, g2⟩ := ih s1 s' h2 hb
    rcases i2c_irq_busy_frame K e s s1 h1 with ⟨f1, f2⟩ | ⟨f1, _⟩
    · exact ⟨f1 ▸ g1, g2.trans f2⟩
    · rw [f1] at g1
      exact absurd g1 (by decide)

/-- One serial interrupt that returns either leaves the busy flag and the
sleep counters as they were, or is the completion: the busy flag is then false
and the counters are those sleep_unblock_mode(LEUART_TX_EM) leaves. -/
theorem leuart_irq_busy_frame (K : Consts) (e : LEUART_IRQ) (s s' : Sys)
    (h : leuart_irq K e s = Outcome.ok () s') :
    (s'.leuart_sm.SMbusy = s.leuart_sm.SMbusy ∧
      s'.lowest_energy_mode = s.lowest_energy_mode) ∨
    (s'.leuart_sm.SMbusy = false ∧
      sleep_unblock_mode K.LEUART_TX_EM s.lowest_energy_mode =
        Outcome.ok () s'.lowest_energy_mode) := by
  have htxbl : ∀ t t' : Sys, txbl_int t = Outcome.ok () t' →
      t'.leuart_sm.SMbusy = t.leuart_sm.SMbusy ∧
        t'.lowest_energy_mode = t.lowest_energy_mode := by
    intro t t' ht
    simp only [txbl_int] at ht
    split_ifs at ht <;> injection ht with _ e1 <;> subst e1 <;> exact ⟨rfl, rfl⟩
  have htxc : ∀ t t' : Sys, txc_int K t = Outcome.ok () t' →
      t'.leuart_sm.SMbusy = false ∧
        sleep_unblock_mode K.LEUART_TX_EM t.lowest_energy_mode =
          Outcome.ok () t'.lowest_energy_mode := by
    intro t t' ht
    obtain ⟨c', hc'⟩ := sleep_unblock_mode_returns K.LEUART_TX_EM t.lowest_energy_mode
    simp only [txc_int, add_scheduled_event, hc', Outcome.lift, Outcome.bind,
      Sys.withSleep] at ht
    split_ifs at ht
    injection ht with _ e1
    subst e1
    exact ⟨rfl, hc'⟩
  cases e with
  | TXBL =>
    simp only [leuart_irq, LEUART0_IRQHandler, decide_True, Bool.true_and, reduceCtorEq,
      decide_False, Bool.false_and, Bool.false_eq_true, if_false] at h
    by_cases hien : s.LEUART0.IEN_TXBL = true
    · rw [if_pos hien] at h
      obtain ⟨a, s1, h1, h2⟩ := bind_eq_ok _ _ _ _ h
      injection h2 with _ e2
      subst e2
      exact Or.inl (htxbl s s1 h1)
    · rw [if_neg hien] at h
      injection h with _ e1
      subst e1
      exact Or.inl ⟨rfl, rfl⟩
  | TXC =>
    simp only [leuart_irq, LEUART0_IRQHandler, decide_True, Bool.true_and, reduceCtorEq,
      decide_False, Bool.false_and, Bool.false_eq_true, if_false, Outcome.bind] at h
    by_cases hien : s.LEUART0.IEN_TXC = true
    · rw [if_pos hien] at h
      exact Or.inr (htxc s s' h)
    · rw [if_neg hien] at h
      injection h with _ e1
      subst e1
      exact Or.inl ⟨rfl, rfl⟩

/-- While the serial engine is still busy after a sequence of interrupts, it
was busy before, and the sleep counters are as before. -/
theorem leuart_irqs_block_held (K : Consts) : ∀ (es : List LEUART_IRQ) (s s' : Sys),
    leuart_irqs K es s = Outcome.ok () s' → s'.leuart_sm.SMbusy = true →
    s.leuart_sm.SMbusy = true ∧ s'.lowest_energy_mode = s.lowest_energy_mode := by
  intro es
  induction es with
  | nil =>
    intro s s' h hb
    injection h with _ e
    subst e
    exact ⟨hb, rfl⟩
  | cons e es ih =>
    intro s s' h hb
    obtain ⟨a, s1, h1, h2⟩ := bind_eq_ok _ _ _ _ h
    obtain ⟨g1, g2⟩ := ih s1 s' h2 hb
    rcases leuart_irq_busy_frame K e s s1 h1 with ⟨f1, f2⟩ | ⟨f1, _⟩
    · exact ⟨f1 ▸ g1, g2.trans f2⟩
    · rw [f1] at g1
      exact absurd g1 (by decide)

/-- A block taken and released again: the counters are as before. -/
theorem unblock_after_block (EM : Nat) (c c' : List Int) (hEM : EM < c.length)
    (hnn : 0 ≤ c.getD EM 0)
    (h : sleep_unblock_mode EM (c.set EM (c.getD EM 0 + 1)) = Outcome.ok () c') :
    ∀ d, c'.getD d 0 = c.getD d 0 := by
  have hs : (c.set EM (c.getD EM 0 + 1)).getD EM 0 = c.getD EM 0 + 1 :=
    getD_set_self _ _ _ 0 hEM
  simp only [sleep_unblock_mode, hs, gt_iff_lt] at h
  rw [if_pos (by omega), getD_set_self _ _ _ 0 (by rw [List.length_set]; exact hEM),
    if_pos (by omega)] at h
  injection h with _ e
  subst e
  intro d
  by_cases hd : d = EM
  · subst hd
    rw [getD_set_self _ _ _ 0 (by rw [List.length_set]; exact hEM)]
    omega
  · rw [getD_set_other _ _ _ _ 0 (Ne.symm hd), getD_set_other _ _ _ _ 0 (Ne.symm hd)]

/-- A blocked depth below MAX_ENERGY_MODES bounds the floor. -/
theorem floor_le_blocked (MAX : Nat) (c : List Int) (d : Nat) (hd : d < MAX)
    (hnz : c.getD d 0 ≠ 0) : (current_block_energy_mode MAX c).1 ≤ d :=
  (current_block_energy_mode_loop_le MAX c d hnz MAX 0 (Nat.zero_le d) (by omega)).2.1

/-- Claim C34: the sleep block is held while an engine is busy. For i2c_start
with I2C_EM_BLOCK and for leuart_start with LEUART_TX_EM, started on an idle
engine with the counter of that depth between 0 and 3: the start returns; in
every state the interrupts of the engine reach with the busy flag still true,
the counter is one above its value before the start, so at least 1, and
current_block_energy_mode is no deeper than the blocked depth; and an interrupt
that then clears the busy flag leaves every counter at its value before the
start. Only the engine's own calls touch the counters in between. -/
theorem sleep_block_held_while_busy (K : Consts) (s : Sys)
    (i2c slaveAddr data numBytes command : Nat) (readWrite : Bool) (cb_event : Nat)
    (string : List Nat) (string_len : Nat)
    (hmaxI : I2C_EM_BLOCK K < K.MAX_ENERGY_MODES)
    (hmaxL : K.LEUART_TX_EM < K.MAX_ENERGY_MODES)
    (hidleI : s.I2C0.STATE_IDLE = true)
    (hlenI : I2C_EM_BLOCK K < s.lowest_energy_mode.length)
    (hnnI : 0 ≤ s.lowest_energy_mode.getD (I2C_EM_BLOCK K) 0)
    (hltI : s.lowest_energy_mode.getD (I2C_EM_BLOCK K) 0 < 4)
    (hidleL : s.leuart_sm.SMbusy = false)
    (hlenL : K.LEUART_TX_EM < s.lowest_energy_mode.length)
    (hnnL : 0 ≤ s.lowest_energy_mode.getD K.LEUART_TX_EM 0)
    (hltL : s.lowest_energy_mode.getD K.LEUART_TX_EM 0 < 4) :
    (∃ s1, i2c_start K i2c slaveAddr data numBytes command readWrite cb_event s =
        Outcome.ok () s1 ∧
      ∀ es s', i2c_irqs K es s1 = Outcome.ok () s' → s'.i2c_sm.SMbusy = true →
        s'.lowest_energy_mode.getD (I2C_EM_BLOCK K) 0 =
          s.lowest_energy_mode.getD (I2C_EM_BLOCK K) 0 + 1 ∧
        1 ≤ s'.lowest_energy_mode.getD (I2C_EM_BLOCK K) 0 ∧
        (current_block_energy_mode K.MAX_ENERGY_MODES s'.lowest_energy_mode).1 ≤
          I2C_EM_BLOCK K ∧
        ∀ e s'', i2c_irq K e s' = Outcome.ok () s'' → s''.i2c_sm.SMbusy = false →
          ∀ d, s''.lowest_energy_mode.getD d 0 = s.lowest_energy_mode.getD d 0) ∧
    (∃ s1, leuart_start K 0 string string_len s = Outcome.ok () s1 ∧
      ∀ es s', leuart_irqs K es s1 = Outcome.ok () s' → s'.leuart_sm.SMbusy = true →
        s'.lowest_energy_mode.getD K.LEUART_TX_EM 0 =
          s.lowest_energy_mode.getD K.LEUART_TX_EM 0 + 1 ∧
        1 ≤ s'.lowest_energy_mode.getD K.LEUART_TX_EM 0 ∧
        (current_block_energy_mode K.MAX_ENERGY_MODES s'.lowest_energy_mode).1 ≤
          K.LEUART_TX_EM ∧
        ∀ e s'', leuart_irq K e s' = Outcome.ok () s'' → s''.leuart_sm.SMbusy = false →
          ∀ d, s''.lowest_energy_mode.getD d 0 = s.lowest_energy_mode.getD d 0) := by
  refine ⟨⟨_, i2c_start_returns K i2c slaveAddr data numBytes command readWrite cb_event s
    hidleI hlenI hltI, fun es s' h hb => ?_⟩,
    ⟨_, leuart_start_returns K s 0 string string_len hidleL hlenL hltL, fun es s' h hb => ?_⟩⟩
  · obtain ⟨_, g2⟩ := i2c_irqs_block_held K es _ s' h hb
    have g2' : s'.lowest_energy_mode = s.lowest_energy_mode.set (I2C_EM_BLOCK K)
        (s.lowest_energy_mode.getD (I2C_EM_BLOCK K) 0 + 1) := g2
    have hval : s'.lowest_energy_mode.getD (I2C_EM_BLOCK K) 0 =
        s.lowest_energy_mode.getD (I2C_EM_BLOCK K) 0 + 1 := by
      rw [g2']; exact getD_set_self _ _ _ 0 hlenI
    refine ⟨hval, by omega, floor_le_blocked _ _ _ hmaxI (by omega), fun e s'' h2 hb2 => ?_⟩
    rcases i2c_irq_busy_frame K e s' s'' h2 with ⟨f1, _⟩ | ⟨_, f2⟩
    · rw [hb2] at f1
      rw [hb] at f1
      exact absurd f1 (by decide)
    · rw [g2'] at f2
      exact unblock_after_block _ _ _ hlenI hnnI f2
  · obtain ⟨_, g2⟩ := leuart_irqs_block_held K es _ s' h hb
    have g2' : s'.lowest_energy_mode = s.lowest_energy_mode.set K.LEUART_TX_EM
        (s.lowest_energy_mode.getD K.LEUART_TX_EM 0 + 1) := g2
    have hval : s'.lowest_energy_mode.getD K.LEUART_TX_EM 0 =
        s.lowest_energy_mode.getD K.LEUART_TX_EM 0 + 1 := by
      rw [g2']; exact getD_set_self _ _ _ 0 hlenL
    refine ⟨hval, by omega, floor_le_blocked _ _ _ hmaxL (by omega), fun e s'' h2 hb2 => ?_⟩
    rcases leuart_irq_busy_frame K e s' s'' h2 with ⟨f1, _⟩ | ⟨_, f2⟩
    · rw [hb2] at f1
      rw [hb] at f1
      exact absurd f1 (by decide)
    · rw [g2'] at f2
      exact unblock_after_block _ _ _ hlenL hnnL f2

/-- Claim C34, instance: on the boot state the read of two bytes starts, is
still busy after two acknowledges and a negative acknowledge, and holds its
block in every busy state; and the two-byte transmission starts. -/
theorem sleep_block_held_while_busy_witness :
    (I2C_EM_BLOCK demoConsts < demoConsts.MAX_ENERGY_MODES ∧
      demoConsts.LEUART_TX_EM < demoConsts.MAX_ENERGY_MODES ∧
      bootState.I2C0.STATE_IDLE = true ∧
      I2C_EM_BLOCK demoConsts < bootState.lowest_energy_mode.length ∧
      0 ≤ bootState.lowest_energy_mode.getD (I2C_EM_BLOCK demoConsts) 0 ∧
      bootState.lowest_energy_mode.getD (I2C_EM_BLOCK demoConsts) 0 < 4 ∧
      bootState.leuart_sm.SMbusy = false ∧
      demoConsts.LEUART_TX_EM < bootState.lowest_energy_mode.length ∧
      0 ≤ bootState.lowest_energy_mode.getD demoConsts.LEUART_TX_EM 0 ∧
      bootState.lowest_energy_mode.getD demoConsts.LEUART_TX_EM 0 < 4) ∧
    (∃ s1, i2c_start demoConsts 0 64 0 2 243 true 8 bootState = Outcome.ok () s1 ∧
      ∀ es s', i2c_irqs demoConsts es s1 = Outcome.ok () s' → s'.i2c_sm.SMbusy = true →
        1 ≤ s'.lowest_energy_mode.getD (I2C_EM_BLOCK demoConsts) 0) ∧
    (∃ s1 s', i2c_start demoConsts 0 64 0 2 243 true 8 bootState = Outcome.ok () s1 ∧
      i2c_irqs demoConsts [I2C_IRQ.ACK, I2C_IRQ.ACK, I2C_IRQ.NACK] s1 = Outcome.ok () s' ∧
      s'.i2c_sm.SMbusy = true) ∧
    ∃ s1, leuart_start demoConsts 0 [72, 105] 2 bootState = Outcome.ok () s1 :=
  have h : I2C_EM_BLOCK demoConsts < demoConsts.MAX_ENERGY_MODES ∧
      demoConsts.LEUART_TX_EM < demoConsts.MAX_ENERGY_MODES ∧
      bootState.I2C0.STATE_IDLE = true ∧
      I2C_EM_BLOCK demoConsts < bootState.lowest_energy_mode.length ∧
      0 ≤ bootState.lowest_energy_mode.getD (I2C_EM_BLOCK demoConsts) 0 ∧
      bootState.lowest_energy_mode.getD (I2C_EM_BLOCK demoConsts) 0 < 4 ∧
      bootState.leuart_sm.SMbusy = false ∧
      demoConsts.LEUART_TX_EM < bootState.lowest_energy_mode.length ∧
      0 ≤ bootState.lowest_energy_mode.getD demoConsts.LEUART_TX_EM 0 ∧
      bootState.lowest_energy_mode.getD demoConsts.LEUART_TX_EM 0 < 4 :=
    ⟨by decide, by decide, rfl, by decide, by decide, by decide, rfl, by decide, by decide,
      by decide⟩
  have g := sleep_block_held_while_busy demoConsts bootState 0 64 0 2 243 true 8 [72, 105] 2
    h.1 h.2.1 h.2.2.1 h.2.2.2.1 h.2.2.2.2.1 h.2.2.2.2.2.1 h.2.2.2.2.2.2.1 h.2.2.2.2.2.2.2.1
    h.2.2.2.2.2.2.2.2.1 h.2.2.2.2.2.2.2.2.2
  ⟨h, g.1.imp fun _ g1 => ⟨g1.1, fun es s' he hb => (g1.2 es s' he hb).2.1⟩,
    ⟨_, _, rfl, rfl, rfl⟩, g.2.imp fun _ g2 => g2.1⟩

/-! ## Theorems: leuart.c, the phases of the engine -/

/-- A call of leuart_start with a length between 1 and 2^32 - 1 that returns
found the engine idle and takes it to the started phase. -/
theorem leuart_start_phase (K : Consts) (string : List Nat) (n : Nat) (s s' : Sys)
    (hn1 : 1 ≤ n) (hn32 : n < 2 ^ 32) (hp : LeuartPhase s)
    (h : leuart_start K 0 string n s = Outcome.ok () s') :
    LeuartPhase s' ∧ s.leuart_sm.SMbusy = false ∧ s.leuart_sm.current_state = INIT_UART ∧
      s'.leuart_sm.current_state = INIT_UART ∧
      s'.leuart_sm.SMbusy = true ∧ s'.leuart_sm.count = 0 := by
  obtain ⟨_, hph⟩ := hp
  by_cases hb : s.leuart_sm.SMbusy = true
  · simp only [leuart_start, leuart_tx_busy, hb, if_true] at h
    exact absurd h (by simp)
  · have hb' : s.leuart_sm.SMbusy = false := by simpa using hb
    rcases hph with ⟨_, p2, p3, p4⟩ | ⟨q, _⟩ | ⟨q, _⟩ | ⟨q, _⟩
    · simp only [leuart_start, leuart_tx_busy, hb', Bool.false_eq_true, if_false,
        sleep_block_mode, Outcome.lift, Sys.withSleep] at h
      split_ifs at h
      · simp only [Outcome.bind, Outcome.ok.injEq, true_and] at h
        subst h
        refine ⟨⟨?_, Or.inr (Or.inl ⟨rfl, p2, rfl, p4, rfl, ?_⟩)⟩, hb', p2, p2, rfl, rfl⟩
        · show n % 2 ^ 32 < 2 ^ 32
          exact Nat.mod_lt _ (by decide)
        · show 1 ≤ n % 2 ^ 32
          rw [Nat.mod_eq_of_lt hn32]
          exact hn1
      · simp only [Outcome.bind] at h
        exact absurd h (by simp)
    · rw [q] at hb'; exact absurd hb' (by decide)
    · rw [q] at hb'; exact absurd hb' (by decide)
    · rw [q] at hb'; exact absurd hb' (by decide)

/-- The buffer-empty handler keeps the engine in one of its phases when it runs
with its interrupt enabled. -/
theorem txbl_int_phase (s s' : Sys) (hp : LeuartPhase s) (hien : s.LEUART0.IEN_TXBL = true)
    (h : txbl_int s = Outcome.ok () s') : LeuartPhase s' := by
  obtain ⟨hl, hph⟩ := hp
  rcases hph with ⟨_, _, p3, _⟩ | ⟨p1, p2, p3, p4, p5, p6⟩ | ⟨p1, p2, p3, p4, p5⟩ |
    ⟨_, _, p3, _⟩
  · rw [p3] at hien; exact absurd hien (by decide)
  · simp only [txbl_int, p2, if_true, Outcome.ok.injEq, true_and] at h
    subst h
    exact ⟨hl, Or.inr (Or.inr (Or.inl ⟨p1, rfl, p3, p4, by
      show s.leuart_sm.count < s.leuart_sm.length
      omega⟩))⟩
  · have hne : ¬ (SEND_DATA = INIT_UART) := by decide
    have hc : (s.leuart_sm.count + 1) % 2 ^ 32 = s.leuart_sm.count + 1 :=
      Nat.mod_eq_of_lt (by omega)
    simp only [txbl_int, p2, if_neg hne, if_true, hc] at h
    by_cases hlast : s.leuart_sm.count + 1 = s.leuart_sm.length
    · simp only [hlast, if_true, Outcome.ok.injEq, true_and] at h
      subst h
      exact ⟨hl, Or.inr (Or.inr (Or.inr ⟨p1, rfl, rfl, rfl⟩))⟩
    · simp only [hlast, if_false, Outcome.ok.injEq, true_and] at h
      subst h
      exact ⟨hl, Or.inr (Or.inr (Or.inl ⟨p1, rfl, p3, p4, by
        show s.leuart_sm.count + 1 < s.leuart_sm.length
        omega⟩))⟩
  · rw [p3] at hien; exact absurd hien (by decide)

/-- The transmit-complete handler takes the engine back to the idle phase when
it runs with its interrupt enabled. -/
theorem txc_int_phase (K : Consts) (s s' : Sys) (hp : LeuartPhase s)
    (hien : s.LEUART0.IEN_TXC = true) (h : txc_int K s = Outcome.ok () s') :
    LeuartPhase s' := by
  obtain ⟨hl, hph⟩ := hp
  rcases hph with ⟨_, _, _, p4⟩ | ⟨_, _, _, p4, _⟩ | ⟨_, _, _, p4, _⟩ | ⟨p1, p2, p3, p4⟩
  · rw [p4] at hien; exact absurd hien (by decide)
  · rw [p4] at hien; exact absurd hien (by decide)
  · rw [p4] at hien; exact absurd hien (by decide)
  · obtain ⟨c', hc'⟩ := sleep_unblock_mode_returns K.LEUART_TX_EM s.lowest_energy_mode
    rw [txc_int_through_post K s p2] at h
    simp only [txc_int_from_post, txc_int_to_post, add_scheduled_event, hc', Outcome.lift,
      Outcome.bind, Sys.withSleep, Outcome.ok.injEq, true_and] at h
    subst h
    exact ⟨hl, Or.inl ⟨rfl, rfl, p3, rfl⟩⟩

/-- An entry of the interrupt handler that returns keeps the engine in one of
its phases, whichever flags the peripheral has raised. -/
theorem leuart_irq_handler_phase (K : Consts) (a b : Bool) (s s' : Sys) (hp : LeuartPhase s)
    (h : LEUART0_IRQHandler K a b s = Outcome.ok () s') : LeuartPhase s' := by
  obtain ⟨x, s1, h1, h2⟩ := bind_eq_ok _ _ _ _ h
  have hp1 : LeuartPhase s1 := by
    by_cases hA : (a && s.LEUART0.IEN_TXBL) = true
    · rw [if_pos hA] at h1
      have hien : s.LEUART0.IEN_TXBL = true := by
        cases a
        · exact absurd hA (by simp)
        · simpa using hA
      exact txbl_int_phase s s1 hp hien h1
    · rw [if_neg hA] at h1
      injection h1 with _ e
      subst e
      exact hp
  by_cases hB : (b && s.LEUART0.IEN_TXC) = true
  · rw [if_pos hB] at h2
    have hien : s.LEUART0.IEN_TXC = true := by
      cases b
      · exact absurd hB (by simp)
      · simpa using hB
    -- with TXC enabled the buffer-empty interrupt is disabled, so txbl_int did not run
    have hs1 : s1 = s := by
      obtain ⟨_, hph⟩ := hp
      rcases hph with ⟨_, _, _, p4⟩ | ⟨_, _, _, p4, _⟩ | ⟨_, _, _, p4, _⟩ | ⟨_, _, p3, _⟩
      · rw [p4] at hien; exact absurd hien (by decide)
      · rw [p4] at hien; exact absurd hien (by decide)
      · rw [p4] at hien; exact absurd hien (by decide)
      · rw [p3, Bool.and_false, if_neg (by decide)] at h1
        injection h1 with _ e
        exact e.symm
    rw [hs1] at h2
    exact txc_int_phase K s s' hp hien h2
  · rw [if_neg hB] at h2
    injection h2 with _ e
    subst e
    exact hp1

/-- Steps that all return keep the engine in one of its phases. -/
theorem leuart_steps_phase (K : Consts) : ∀ (l : List LEUART_STEP) (s s' : Sys),
    LeuartPhase s →
    (∀ string n, LEUART_STEP.start string n ∈ l → 1 ≤ n ∧ n < 2 ^ 32) →
    leuart_steps K l s = Outcome.ok () s' → LeuartPhase s' := by
  intro l
  induction l with
  | nil =>
    intro s s' hp _ h
    injection h with _ e
    subst e
    exact hp
  | cons st l ih =>
    intro s s' hp hv h
    obtain ⟨a, s1, h1, h2⟩ := bind_eq_ok _ _ _ _ h
    have hp1 : LeuartPhase s1 := by
      cases st with
      | start string n =>
        obtain ⟨v1, v2⟩ := hv string n (List.mem_cons_self _ _)
        exact (leuart_start_phase K string n s s1 v1 v2 hp h1).1
      | irq a b => exact leuart_irq_handler_phase K a b s s1 hp h1
    exact ih s1 s' hp1 (fun string n hm => hv string n (List.mem_cons_of_mem _ hm)) h2

/-- Claim C40: the idle invariant of the serial engine. Start from a
zero-initialised record with the TXBL and TXC interrupts disabled, and take
steps that all returned: calls of leuart_start with a length of at least 1, and
entries of LEUART0_IRQHandler with any flags raised. In the state reached the
state tag is INIT_UART whenever SMbusy is false, and the byte index is below
the length whenever the state is SEND_DATA; and a further leuart_start that
returns was called idle in INIT_UART and leaves the engine busy in INIT_UART
with the byte index 0. -/
theorem leuart_idle_invariant (K : Consts) (s0 : Sys) (l : List LEUART_STEP) (s' : Sys)
    (hbusy : s0.leuart_sm.SMbusy = false) (hst : s0.leuart_sm.current_state = 0)
    (hlength : s0.leuart_sm.length = 0)
    (hbl : s0.LEUART0.IEN_TXBL = false) (hc : s0.LEUART0.IEN_TXC = false)
    (hv : ∀ string n, LEUART_STEP.start string n ∈ l → 1 ≤ n ∧ n < 2 ^ 32)
    (h : leuart_steps K l s0 = Outcome.ok () s') :
    (s'.leuart_sm.SMbusy = false → s'.leuart_sm.current_state = INIT_UART) ∧
    (s'.leuart_sm.current_state = SEND_DATA → s'.leuart_sm.count < s'.leuart_sm.length) ∧
    (∀ string n s'', 1 ≤ n → n < 2 ^ 32 →
      leuart_start K 0 string n s' = Outcome.ok () s'' →
      s'.leuart_sm.SMbusy = false ∧ s'.leuart_sm.current_state = INIT_UART ∧
      s''.leuart_sm.current_state = INIT_UART ∧ s''.leuart_sm.SMbusy = true ∧
      s''.leuart_sm.count = 0) := by
  have hp0 : LeuartPhase s0 :=
    ⟨by rw [hlength]; decide, Or.inl ⟨hbusy, hst, hbl, hc⟩⟩
  have hp := leuart_steps_phase K l s0 s' hp0 hv h
  have hd1 : ¬ (INIT_UART = SEND_DATA) := by decide
  have hd2 : ¬ (STOP_CLOSE = SEND_DATA) := by decide
  refine ⟨fun hb => ?_, fun hs => ?_, fun string n s'' hn1 hn32 hstart =>
    (leuart_start_phase K string n s' s'' hn1 hn32 hp hstart).2⟩
  · rcases hp.2 with ⟨_, p2, _⟩ | ⟨q, _⟩ | ⟨q, _⟩ | ⟨q, _⟩
    · exact p2
    · rw [q] at hb; exact absurd hb (by decide)
    · rw [q] at hb; exact absurd hb (by decide)
    · rw [q] at hb; exact absurd hb (by decide)
  · rcases hp.2 with ⟨_, p2, _⟩ | ⟨_, p2, _⟩ | ⟨_, _, _, _, p5⟩ | ⟨_, p2, _⟩
    · rw [p2] at hs; exact absurd hs hd1
    · rw [p2] at hs; exact absurd hs hd1
    · exact p5
    · rw [p2] at hs; exact absurd hs hd2

/-- Claim C40, instance: on the boot state a spurious entry of the handler, a
start of two bytes, an entry with only TXC raised and two buffer-empty entries
reach SEND_DATA with SMbusy set and the byte index 1 below the length 2. -/
theorem leuart_idle_invariant_witness :
    (bootState.leuart_sm.SMbusy = false ∧ bootState.leuart_sm.current_state = 0 ∧
      bootState.leuart_sm.length = 0 ∧
      bootState.LEUART0.IEN_TXBL = false ∧ bootState.LEUART0.IEN_TXC = false) ∧
    ∃ s', leuart_steps demoConsts
        [LEUART_STEP.irq true true, LEUART_STEP.start [72, 105] 2,
          LEUART_STEP.irq false true, LEUART_STEP.irq true false,
          LEUART_STEP.irq true true] bootState = Outcome.ok () s' ∧
      s'.leuart_sm.current_state = SEND_DATA ∧ s'.leuart_sm.SMbusy = true ∧
      s'.leuart_sm.count = 1 ∧
      (s'.leuart_sm.current_state = SEND_DATA → s'.leuart_sm.count < s'.leuart_sm.length) :=
  ⟨⟨rfl, rfl, rfl, rfl, rfl⟩, _, rfl, rfl, rfl, rfl,
    (leuart_idle_invariant demoConsts bootState
      [LEUART_STEP.irq true true, LEUART_STEP.start [72, 105] 2,
        LEUART_STEP.irq false true, LEUART_STEP.irq true false,
        LEUART_STEP.irq true true] _
      rfl rfl rfl rfl rfl
      (fun string n hm => by
        simp only [List.mem_cons, reduceCtorEq, LEUART_STEP.start.injEq, List.mem_singleton,
          false_or, or_false, List.not_mem_nil] at hm
        rw [hm.2]
        decide)
      rfl).2.1⟩

end CPCourse
